import Mathlib

/-!
# C-FLEX2D: element-level core of an axisymmetric finite-element solver

A shallow embedding of the sources under `src/FEM` (`Node.cpp`, `ShapeB3.cpp`,
`ElementB3.cpp`, `ElementI6.cpp`, `ElementQ4.cpp`, `ElementQ8.cpp`,
`Geosynthetic.cpp`) together with theorems about them.

Conventions of the embedding.

* A C++ `double` is an element of a linearly ordered field `K`; arithmetic is
  exact.  Every definition is computable and can be evaluated at `K = ℚ`.
* An Eigen vector or matrix is a function on `Fin n` (resp. a Mathlib
  `Matrix`); its dimensions are part of the type, so the Eigen size
  assertions of `+=`, `*` and `<<` hold by typing.
* A member function that mutates the object takes the object and returns the
  new object, paired with the returned value when there is one.
* Members of the base classes `Element`, `Shape` and `Material`, whose
  sources are not part of `src/FEM`, are fields of the structures below and are
  arbitrary in every theorem.
-/

namespace CFLEX2D

variable {K : Type} [LinearOrderedField K]

/-- Eigen `VectorXd` holding `n` coefficients. -/
abbrev VectorXd (K : Type) (n : Nat) : Type := Fin n → K

/-- Eigen `Vector2d`. -/
abbrev Vector2d (K : Type) : Type := Fin 2 → K

/-- Eigen `MatrixXd` with `m` rows and `n` columns. -/
abbrev MatrixXd (K : Type) (m n : Nat) : Type := Matrix (Fin m) (Fin n) K

/-! ## Node (`Node.cpp`) -/

/-- State of a `Node` object.  `force_` is `none` until `setForce` is called:
the constructor `Node(index, x, y)` does not initialise it.  The three
counters are declared in `Node.h`, which is not among the sources; they are
natural numbers here (the sources only ever set them to `0` and increment
them). -/
structure Node (K : Type) where
  index_ : Int
  globalCoord_ : Vector2d K
  disp_ : Vector2d K
  force_ : Option (Vector2d K)
  strain_ : VectorXd K 4
  stress_ : VectorXd K 4
  averageCount_ : Nat
  membraneStrain_ : VectorXd K 2
  membraneStress_ : VectorXd K 2
  averageMembraneCount_ : Nat
  interfaceStress_ : VectorXd K 2
  averageInterfaceCount_ : Nat

namespace Node

/-- Constructor `Node::Node(index, x, y)` (Node.cpp 17-22). -/
def new (index : Int) (x y : K) : Node K where
  index_ := index
  globalCoord_ := ![x, y]
  disp_ := ![0, 0]
  force_ := none
  strain_ := 0
  stress_ := 0
  averageCount_ := 0
  membraneStrain_ := 0
  membraneStress_ := 0
  averageMembraneCount_ := 0
  interfaceStress_ := 0
  averageInterfaceCount_ := 0

/-- Member function `Node::setGlobalCoord` (Node.cpp 58-61). -/
def setGlobalCoord (n : Node K) (x y : K) : Node K :=
  { n with globalCoord_ := ![x, y] }

/-- Member function `Node::setDisp` (Node.cpp 63-66). -/
def setDisp (n : Node K) (u v : K) : Node K :=
  { n with disp_ := ![u, v] }

/-- Member function `Node::setForce` (Node.cpp 68-71). -/
def setForce (n : Node K) (Fx Fy : K) : Node K :=
  { n with force_ := some ![Fx, Fy] }

/-- Member function `Node::setStrainAndStress` (Node.cpp 73-78). -/
def setStrainAndStress (n : Node K) (strain stress : VectorXd K 4) : Node K :=
  { n with
    strain_ := n.strain_ + strain
    stress_ := n.stress_ + stress
    averageCount_ := n.averageCount_ + 1 }

/-- Member function `Node::setMembraneStrainAndStress` (Node.cpp 80-85). -/
def setMembraneStrainAndStress (n : Node K) (strain stress : VectorXd K 2) : Node K :=
  { n with
    membraneStrain_ := n.membraneStrain_ + strain
    membraneStress_ := n.membraneStress_ + stress
    averageMembraneCount_ := n.averageMembraneCount_ + 1 }

/-- Member function `Node::setInterfaceStress` (Node.cpp 87-91). -/
def setInterfaceStress (n : Node K) (stress : VectorXd K 2) : Node K :=
  { n with
    interfaceStress_ := n.interfaceStress_ + stress
    averageInterfaceCount_ := n.averageInterfaceCount_ + 1 }

/-- Eigen `v /= c` with an integer `c`: every coefficient is divided by `c`. -/
def divInt {m : Nat} (v : VectorXd K m) (c : Nat) : VectorXd K m :=
  fun i => v i / (c : K)

/-- Member function `Node::averageStrain` (Node.cpp 93-98): the returned vector and the node
after the call. -/
def averageStrain (n : Node K) : VectorXd K 4 × Node K :=
  if n.averageCount_ = 0 then (n.strain_, n)
  else
    let n1 : Node K := { n with strain_ := divInt n.strain_ n.averageCount_ }
    (n1.strain_, n1)

/-- Member function `Node::averageStress` (Node.cpp 100-105). -/
def averageStress (n : Node K) : VectorXd K 4 × Node K :=
  if n.averageCount_ = 0 then (n.stress_, n)
  else
    let n1 : Node K := { n with stress_ := divInt n.stress_ n.averageCount_ }
    (n1.stress_, n1)

/-- Member function `Node::averageMembraneStrain` (Node.cpp 107-112). -/
def averageMembraneStrain (n : Node K) : VectorXd K 2 × Node K :=
  if n.averageMembraneCount_ = 0 then (n.membraneStrain_, n)
  else
    let n1 : Node K :=
      { n with membraneStrain_ := divInt n.membraneStrain_ n.averageMembraneCount_ }
    (n1.membraneStrain_, n1)

/-- Member function `Node::averageMembraneStress` (Node.cpp 114-119). -/
def averageMembraneStress (n : Node K) : VectorXd K 2 × Node K :=
  if n.averageMembraneCount_ = 0 then (n.membraneStress_, n)
  else
    let n1 : Node K :=
      { n with membraneStress_ := divInt n.membraneStress_ n.averageMembraneCount_ }
    (n1.membraneStress_, n1)

/-- Member function `Node::averageInterfaceStress` (Node.cpp 121-126). -/
def averageInterfaceStress (n : Node K) : VectorXd K 2 × Node K :=
  if n.averageInterfaceCount_ = 0 then (n.interfaceStress_, n)
  else
    let n1 : Node K :=
      { n with interfaceStress_ := divInt n.interfaceStress_ n.averageInterfaceCount_ }
    (n1.interfaceStress_, n1)

/-- A call of one of the mutating member functions of `Node`. -/
inductive Call (K : Type) where
  | setGlobalCoord (x y : K)
  | setDisp (u v : K)
  | setForce (Fx Fy : K)
  | setStrainAndStress (strain stress : VectorXd K 4)
  | setMembraneStrainAndStress (strain stress : VectorXd K 2)
  | setInterfaceStress (stress : VectorXd K 2)
  | averageStrain
  | averageStress
  | averageMembraneStrain
  | averageMembraneStress
  | averageInterfaceStress

/-- The node after one call (a returned value is dropped). -/
def step (n : Node K) : Call K → Node K
  | .setGlobalCoord x y => n.setGlobalCoord x y
  | .setDisp u v => n.setDisp u v
  | .setForce Fx Fy => n.setForce Fx Fy
  | .setStrainAndStress s t => n.setStrainAndStress s t
  | .setMembraneStrainAndStress s t => n.setMembraneStrainAndStress s t
  | .setInterfaceStress t => n.setInterfaceStress t
  | .averageStrain => n.averageStrain.2
  | .averageStress => n.averageStress.2
  | .averageMembraneStrain => n.averageMembraneStrain.2
  | .averageMembraneStress => n.averageMembraneStress.2
  | .averageInterfaceStress => n.averageInterfaceStress.2

/-- The node after a sequence of calls, made in order. -/
def run (n : Node K) : List (Call K) → Node K
  | [] => n
  | c :: cs => run (step n c) cs

/-- Number of `setStrainAndStress` calls in a sequence of calls. -/
def strainCount : List (Call K) → Nat
  | [] => 0
  | .setStrainAndStress _ _ :: cs => strainCount cs + 1
  | _ :: cs => strainCount cs

/-- Sum of the strain arguments of the `setStrainAndStress` calls. -/
def strainSum : List (Call K) → VectorXd K 4
  | [] => 0
  | .setStrainAndStress s _ :: cs => s + strainSum cs
  | _ :: cs => strainSum cs

/-- Sum of the stress arguments of the `setStrainAndStress` calls. -/
def stressSum : List (Call K) → VectorXd K 4
  | [] => 0
  | .setStrainAndStress _ t :: cs => t + stressSum cs
  | _ :: cs => stressSum cs

/-- Number of `setMembraneStrainAndStress` calls in a sequence of calls. -/
def membraneCount : List (Call K) → Nat
  | [] => 0
  | .setMembraneStrainAndStress _ _ :: cs => membraneCount cs + 1
  | _ :: cs => membraneCount cs

/-- Sum of the strain arguments of the `setMembraneStrainAndStress` calls. -/
def membraneStrainSum : List (Call K) → VectorXd K 2
  | [] => 0
  | .setMembraneStrainAndStress s _ :: cs => s + membraneStrainSum cs
  | _ :: cs => membraneStrainSum cs

/-- Sum of the stress arguments of the `setMembraneStrainAndStress` calls. -/
def membraneStressSum : List (Call K) → VectorXd K 2
  | [] => 0
  | .setMembraneStrainAndStress _ t :: cs => t + membraneStressSum cs
  | _ :: cs => membraneStressSum cs

/-- Number of `setInterfaceStress` calls in a sequence of calls. -/
def interfaceCount : List (Call K) → Nat
  | [] => 0
  | .setInterfaceStress _ :: cs => interfaceCount cs + 1
  | _ :: cs => interfaceCount cs

/-- Sum of the arguments of the `setInterfaceStress` calls. -/
def interfaceStressSum : List (Call K) → VectorXd K 2
  | [] => 0
  | .setInterfaceStress t :: cs => t + interfaceStressSum cs
  | _ :: cs => interfaceStressSum cs

/-- The node after `m` consecutive calls of `averageStrain`. -/
def averageStrainTimes (n : Node K) : Nat → Node K
  | 0 => n
  | m + 1 => (averageStrainTimes n m).averageStrain.2

end Node

/-! ## Eigen coefficient access -/

/-- Eigen coefficient write `M(i, j) = v` at a position inside the matrix. -/
def setCoeff {m n : Nat} (M : MatrixXd K m n) (i : Fin m) (j : Fin n) (v : K) :
    MatrixXd K m n :=
  fun a b => if a = i ∧ b = j then v else M a b

/-- Eigen coefficient write `M(i, j) = v` at integer indices: `none` when the
position is outside the matrix (Eigen's index assertion). -/
def writeCoeff {m n : Nat} (M : MatrixXd K m n) (i j : Nat) (v : K) :
    Option (MatrixXd K m n) :=
  if h : i < m ∧ j < n then some (setCoeff M ⟨i, h.1⟩ ⟨j, h.2⟩ v) else none

/-- Eigen coefficient read `M(i, j)` at integer indices: `none` when the
position is outside the matrix. -/
def readCoeff {m n : Nat} (M : MatrixXd K m n) (i j : Nat) : Option K :=
  if h : i < m ∧ j < n then some (M ⟨i, h.1⟩ ⟨j, h.2⟩) else none

/-- Column `2 * k` of a matrix with two columns per node. -/
def col0 {n : Nat} (k : Fin n) : Fin (2 * n) := ⟨2 * k.val, by omega⟩

/-- Column `2 * k + 1` of a matrix with two columns per node. -/
def col1 {n : Nat} (k : Fin n) : Fin (2 * n) := ⟨2 * k.val + 1, by omega⟩

/-- The node a column of a two-columns-per-node matrix belongs to. -/
def blockOf {n : Nat} (j : Fin (2 * n)) : Fin n := ⟨j.val / 2, by omega⟩

/-- Value of Eigen `inverse()` on a 2x2 matrix in exact arithmetic: the adjugate
divided by the determinant. -/
def inverse2 (J : MatrixXd K 2 2) : MatrixXd K 2 2 :=
  fun i j => (!![J 1 1, -(J 0 1); -(J 1 0), J 0 0] : MatrixXd K 2 2) i j
    / (J 0 0 * J 1 1 - J 0 1 * J 1 0)

/-! ## The C math library -/

/-- The functions of `<cmath>` that the sources call, and the constant `M_PI`.
`std::pow(x, 2)` is written `x ^ 2`. -/
structure CMath (K : Type) where
  sqrt : K → K
  cos : K → K
  sin : K → K
  atan2 : K → K → K
  M_PI : K

/-! ## Shape (`ShapeB3.cpp`) -/

/-- The members of the base class `Shape` that the elements call at a
natural-coordinate point: `n` is `numNodes_` and `d` the number of natural
coordinates (rows of the derivative matrix). -/
structure Shape (K : Type) (d n : Nat) where
  functionVec : Vector2d K → VectorXd K n
  functionDeriv : Vector2d K → MatrixXd K d n

namespace ShapeB3

/-- Member function `ShapeB3::functionVec` (ShapeB3.cpp 58-66). -/
def functionVec (point : Vector2d K) : VectorXd K 3 :=
  ![point 0 * (point 0 - 1) / 2,
    1 - point 0 * point 0,
    point 0 * (point 0 + 1) / 2]

/-- Member function `ShapeB3::functionDeriv` (ShapeB3.cpp 93-101). -/
def functionDeriv (point : Vector2d K) : MatrixXd K 1 3 :=
  !![(2 * point 0 - 1) / 2, -(2 : K) * point 0, (2 * point 0 + 1) / 2]

/-- Member function `ShapeB3::edgeFunctionVec` (ShapeB3.cpp 103-117): the loop over `i`
carries `Ni` and the result vector, whose initial content is overwritten. -/
def edgeFunctionVec (point : K) : VectorXd K 3 :=
  (([0, 1, 2] : List (Fin 3)).foldl
    (fun (st : K × VectorXd K 3) i =>
      let Ni := st.1
      let Ni := if i = 0 then (-point) * (1 - point) / 2 else Ni
      let Ni := if i = 2 then point * (1 + point) / 2 else Ni
      let Ni := if i = 1 then 1 - point * point else Ni
      (Ni, Function.update st.2 i Ni))
    (0, 0)).2

/-- The shared `ShapeB3` instance seen through the `Shape` interface. -/
def shape : Shape K 1 3 where
  functionVec := functionVec
  functionDeriv := functionDeriv

end ShapeB3

/-! ## Materials (`Geosynthetic.cpp`) -/

/-- The members of the base class `Material` that the interface element
calls. -/
structure Material (K : Type) where
  getInterfaceShearStiffness : K
  getInterfaceNormalStiffness : K

/-- State of a `Geosynthetic` material. -/
structure Geosynthetic (K : Type) where
  anisotropy : Bool
  nonlinearity : Bool
  noTension : Bool
  geosynthetic : Bool
  M_ : K
  v_ : K
  t_ : K
  ks_ : K
  kn_ : K
  E_ : MatrixXd K 2 2
  bodyForce_ : Vector2d K
  thermalStrain_ : VectorXd K 2

namespace Geosynthetic

/-- Constructor `Geosynthetic::Geosynthetic` (Geosynthetic.cpp 11-30).  The
reads `properties[i++]` are `none` past the end of the list. -/
def new (anisotropy nonlinearity noTension geosynthetic : Bool)
    (properties : List K) : Option (Geosynthetic K) := do
  let M ← properties[0]?
  let v ← properties[1]?
  let t ← properties[2]?
  let ks ← properties[3]?
  let kn ← properties[4]?
  let E : MatrixXd K 2 2 := !![1, v; v, 1]
  let E : MatrixXd K 2 2 := fun i j => E i j * M * t / (1 - v * v)
  pure
    { anisotropy := anisotropy
      nonlinearity := nonlinearity
      noTension := noTension
      geosynthetic := geosynthetic
      M_ := M
      v_ := v
      t_ := t
      ks_ := ks
      kn_ := kn
      E_ := E
      bodyForce_ := ![0, 0]
      thermalStrain_ := ![0, 0] }

/-- Member function `Geosynthetic::getInterfaceShearStiffness` (Geosynthetic.cpp 36-39). -/
def getInterfaceShearStiffness (g : Geosynthetic K) : K := g.ks_

/-- Member function `Geosynthetic::getInterfaceNormalStiffness` (Geosynthetic.cpp 41-44). -/
def getInterfaceNormalStiffness (g : Geosynthetic K) : K := g.kn_

/-- A `Geosynthetic` seen through the `Material` interface. -/
def toMaterial (g : Geosynthetic K) : Material K where
  getInterfaceShearStiffness := g.getInterfaceShearStiffness
  getInterfaceNormalStiffness := g.getInterfaceNormalStiffness

end Geosynthetic

/-! ## Interface element (`ElementI6.cpp`) -/

/-- State of an `ElementI6` with `size_` nodes: the members `nodeCoord_` and
`material_` of the base class `Element`, and the cached `B_`. -/
structure ElementI6 (K : Type) (size_ : Nat) where
  index_ : Int
  nodeList_ : List Nat
  nodeCoord_ : MatrixXd K size_ 2
  material_ : Material K
  B_ : MatrixXd K 6 (2 * size_)

namespace ElementI6

/-- The body of the constructor (ElementI6.cpp 21-28): `B_` is the zero
`6 x (2 * size_)` matrix, then for `n = 0 .. size_ - 1` the writes
`B_(n, n) = -1` and `B_(n, n + 6) = 1`. -/
def initB (size_ : Nat) : Option (MatrixXd K 6 (2 * size_)) :=
  (List.range size_).foldlM
    (fun B n => (writeCoeff B n n (-1)).bind fun B => writeCoeff B n (n + 6) 1)
    (0 : MatrixXd K 6 (2 * size_))

/-- Constructor `ElementI6::ElementI6(index, nodeList, meshNode, material)`
(ElementI6.cpp 18-29).  The constructor of the base class `Element`, which
runs first, is not among the sources: `size_` is the number of entries of the
node list (specification, section 3: "ordered list of global node indices")
and `nodeCoord` stands for the coordinate matrix gathered from the mesh
nodes. -/
def new (index : Int) (nodeList : List Nat) (nodeCoord : MatrixXd K nodeList.length 2)
    (material : Material K) : Option (ElementI6 K nodeList.length) :=
  (initB nodeList.length).map fun B =>
    { index_ := index
      nodeList_ := nodeList
      nodeCoord_ := nodeCoord
      material_ := material
      B_ := B }

/-- Member function `ElementI6::_angle` (ElementI6.cpp 79-84). -/
def _angle {s : Nat} (cm : CMath K) (e : ElementI6 K s) : Option K := do
  let z2 ← readCoeff e.nodeCoord_ 2 1
  let z0 ← readCoeff e.nodeCoord_ 0 1
  let r2 ← readCoeff e.nodeCoord_ 2 0
  let r0 ← readCoeff e.nodeCoord_ 0 0
  pure (cm.atan2 (z2 - z0) (r2 - r0))

/-- Member function `ElementI6::_length` (ElementI6.cpp 86-90). -/
def _length {s : Nat} (cm : CMath K) (e : ElementI6 K s) : Option K := do
  let z2 ← readCoeff e.nodeCoord_ 2 1
  let z0 ← readCoeff e.nodeCoord_ 0 1
  let r2 ← readCoeff e.nodeCoord_ 2 0
  let r0 ← readCoeff e.nodeCoord_ 0 0
  pure (cm.sqrt ((z2 - z0) ^ 2 + (r2 - r0) ^ 2))

/-- Member function `ElementI6::EMatrix` (ElementI6.cpp 40-65); `g` is the length of the
ignored `modulus` argument. -/
def EMatrix {s g : Nat} (cm : CMath K) (e : ElementI6 K s) (_modulus : VectorXd K g) :
    Option (MatrixXd K 6 6) := do
  let r0 ← readCoeff e.nodeCoord_ 0 0
  let r1 ← readCoeff e.nodeCoord_ 1 0
  let r2 ← readCoeff e.nodeCoord_ 2 0
  let r_avg := (r0 + r1 + r2) / 3
  let L ← _length cm e
  let alpha ← _angle cm e
  let c0 := cm.M_PI * L / 3 * (r_avg - L / 2 * cm.cos alpha)
  let c1 := cm.M_PI * L * 4 / 3 * r_avg
  let c2 := cm.M_PI * L / 3 * (r_avg + L / 2 * cm.cos alpha)
  let ks := e.material_.getInterfaceShearStiffness
  let kn := e.material_.getInterfaceNormalStiffness
  let E : MatrixXd K 6 6 := 0
  let E := setCoeff E 0 0 (c0 * ks)
  let E := setCoeff E 1 1 (c0 * kn)
  let E := setCoeff E 2 2 (c1 * ks)
  let E := setCoeff E 3 3 (c1 * kn)
  let E := setCoeff E 4 4 (c2 * ks)
  let E := setCoeff E 5 5 (c2 * kn)
  pure E

/-- Member function `ElementI6::BMatrix` (ElementI6.cpp 67-71). -/
def BMatrix {s : Nat} (e : ElementI6 K s) (_point : Vector2d K) : MatrixXd K 6 (2 * s) :=
  e.B_

end ElementI6

/-! ## Bar element (`ElementB3.cpp`) -/

/-- State of an `ElementB3`: the gathered coordinates `nodeCoord_` (`size_` is
3) and the member function `radius` of the base class `Element`, which is not
among the sources. -/
structure ElementB3 (K : Type) where
  nodeCoord_ : MatrixXd K 3 2
  radius : Vector2d K → K

namespace ElementB3

/-- Modelled from the spec: the type `staticMembers` of `ElementB3::statics`
is declared in `Element.h`, which is not among the sources; its member
`shape` is the shared shape instance of the B3 topology, a `ShapeB3`. -/
def staticsShape : Shape K 1 3 := ShapeB3.shape

/-- Member function `ElementB3::shape` (ElementB3.cpp 28-31). -/
def shape (_e : ElementB3 K) : Shape K 1 3 := staticsShape

/-- Member function `ElementB3::_angle` (ElementB3.cpp 90-95). -/
def _angle (cm : CMath K) (e : ElementB3 K) : K :=
  cm.atan2 (e.nodeCoord_ 2 1 - e.nodeCoord_ 0 1) (e.nodeCoord_ 2 0 - e.nodeCoord_ 0 0)

/-- One pass of the loop of `ElementB3::BMatrix` (ElementB3.cpp 53-57). -/
def BMatrixStep (cm : CMath K) (e : ElementB3 K) (point : Vector2d K)
    (B : MatrixXd K 2 (2 * 3)) (n : Fin 3) : MatrixXd K 2 (2 * 3) :=
  let N := e.shape.functionVec point
  let localDeriv := e.shape.functionDeriv point
  let B := setCoeff B 0 (col0 n) (cm.cos (_angle cm e) * localDeriv 0 n)
  let B := setCoeff B 0 (col1 n) (cm.sin (_angle cm e) * localDeriv 0 n)
  setCoeff B 1 (col0 n) (N n / e.radius point)

/-- Member function `ElementB3::BMatrix` (ElementB3.cpp 41-60). -/
def BMatrix (cm : CMath K) (e : ElementB3 K) (point : Vector2d K) : MatrixXd K 2 (2 * 3) :=
  (List.finRange 3).foldl (BMatrixStep cm e point) 0

end ElementB3

/-! ## Solid elements (`ElementQ4.cpp`, `ElementQ8.cpp`) -/

/-- The members of the base class `Element` that the solid elements use:
the shared shape returned by `shape()`, the gathered coordinates `nodeCoord_`
(`n` is `size_`, 4 for Q4 and 8 for Q8) and the member function `radius`. -/
structure Element (K : Type) (n : Nat) where
  shape : Shape K 2 n
  nodeCoord_ : MatrixXd K n 2
  radius : Vector2d K → K

namespace ElementQ4

/-- One pass of the loop of `ElementQ4::BMatrix` (ElementQ4.cpp 55-62). -/
def BMatrixStep {n : Nat} (e : Element K n) (point : Vector2d K)
    (globalDeriv : MatrixXd K 2 n) (B : MatrixXd K 4 (2 * n)) (k : Fin n) :
    MatrixXd K 4 (2 * n) :=
  let B := setCoeff B 0 (col0 k) (globalDeriv 0 k)
  let N := e.shape.functionVec point
  let B := setCoeff B 1 (col0 k) (N k / e.radius point)
  let B := setCoeff B 2 (col1 k) (globalDeriv 1 k)
  let B := setCoeff B 3 (col0 k) (globalDeriv 1 k)
  setCoeff B 3 (col1 k) (globalDeriv 0 k)

/-- Member function `ElementQ4::BMatrix` (ElementQ4.cpp 50-65). -/
def BMatrix {n : Nat} (e : Element K n) (point : Vector2d K) : MatrixXd K 4 (2 * n) :=
  let globalDeriv : MatrixXd K 2 n :=
    inverse2 (e.shape.functionDeriv point * e.nodeCoord_) * e.shape.functionDeriv point
  (List.finRange n).foldl (BMatrixStep e point globalDeriv) 0

end ElementQ4

namespace ElementQ8

/-- One pass of the loop of `ElementQ8::BMatrix` (ElementQ8.cpp 55-62). -/
def BMatrixStep {n : Nat} (e : Element K n) (point : Vector2d K)
    (globalDeriv : MatrixXd K 2 n) (B : MatrixXd K 4 (2 * n)) (k : Fin n) :
    MatrixXd K 4 (2 * n) :=
  let B := setCoeff B 0 (col0 k) (globalDeriv 0 k)
  let N := e.shape.functionVec point
  let B := setCoeff B 1 (col0 k) (N k / e.radius point)
  let B := setCoeff B 2 (col1 k) (globalDeriv 1 k)
  let B := setCoeff B 3 (col0 k) (globalDeriv 1 k)
  setCoeff B 3 (col1 k) (globalDeriv 0 k)

/-- Member function `ElementQ8::BMatrix` (ElementQ8.cpp 50-65). -/
def BMatrix {n : Nat} (e : Element K n) (point : Vector2d K) : MatrixXd K 4 (2 * n) :=
  let globalDeriv : MatrixXd K 2 n :=
    inverse2 (e.shape.functionDeriv point * e.nodeCoord_) * e.shape.functionDeriv point
  (List.finRange n).foldl (BMatrixStep e point globalDeriv) 0

end ElementQ8

/-- Uniform nodal displacement `u = (a, b, a, b, ...)` of `n` nodes. -/
def uniformDisp {n : Nat} (a b : K) : VectorXd K (2 * n) :=
  fun j => if j.val % 2 = 0 then a else b

/-! ## Run-time sized matrices, and the elastic side of `Material` -/

/-- An Eigen `MatrixXd` whose numbers of rows and columns are run-time
values. -/
abbrev DynMatrix (K : Type) : Type := (m : Nat) × (n : Nat) × MatrixXd K m n

/-- An Eigen `VectorXd` whose length is a run-time value. -/
abbrev DynVector (K : Type) : Type := (n : Nat) × VectorXd K n

/-- Eigen column assignment `M.col(j) = v`. -/
def setCol {m n : Nat} (M : MatrixXd K m n) (j : Fin n) (v : VectorXd K m) : MatrixXd K m n :=
  fun a b => if b = j then v a else M a b

/-- The members of the base class `Material` that the solid and bar elements
use (`Material.h` is not among the sources): the public flags `anisotropy`
and `nonlinearity`, the accessors `modulus()`, `modulusR()`, `modulusZ()`,
`modulusG()`, and the two overloads `EMatrix()` and `EMatrix(modulus)`. -/
structure ElasticMaterial (K : Type) where
  anisotropy : Bool
  nonlinearity : Bool
  modulus : K
  modulusR : K
  modulusZ : K
  modulusG : K
  EMatrix : DynMatrix K
  EMatrixOf : DynVector K → DynMatrix K

/-! ## ShapeB3: tables, interleaved matrix and edge derivative -/

namespace ShapeB3

/-- The table `gaussianPt_` after the constructor (ShapeB3.cpp 22-26). -/
def gaussianPt_ (cm : CMath K) : List (Vector2d K) :=
  let temp := cm.sqrt 0.6
  [![-temp, 0], ![0, 0], ![temp, 0]]

/-- The table `edgeGaussianPt_` after the constructor (ShapeB3.cpp 28-31). -/
def edgeGaussianPt_ (cm : CMath K) : List K :=
  let temp := cm.sqrt 0.6
  [-temp, 0, temp]

/-- The table `gaussianWt_` after the constructor (ShapeB3.cpp 33-38). -/
def gaussianWt_ : List K :=
  let corner : K := 5.0 / 9.0
  let side : K := 8.0 / 9.0
  [corner, side, corner]

/-- The table `edgeGaussianWt_` after the constructor (ShapeB3.cpp 33-43). -/
def edgeGaussianWt_ : List K :=
  let corner : K := 5.0 / 9.0
  let side : K := 8.0 / 9.0
  [corner, side, corner]

/-- Member function `ShapeB3::functionMat` (ShapeB3.cpp 68-91). -/
def functionMat (point : Vector2d K) : MatrixXd K 2 (2 * 3) :=
  let result : MatrixXd K 2 (2 * 3) := 0
  let N0_u := point 0 * (point 0 - 1) / 2
  let N1_u := 1 - point 0 * point 0
  let N2_u := point 0 * (point 0 + 1) / 2
  let N0_v := (32 * point 0 ^ 2 - 20 * point 0 ^ 3 - 4 * point 0 ^ 4 - 3 * point 0 ^ 5) / 128
  let N1_v := (128 - 64 * point 0 ^ 2 + 8 * point 0 ^ 4) / 128
  let N2_v := (32 * point 0 ^ 2 - 20 * point 0 ^ 3 - 4 * point 0 ^ 4 - 3 * point 0 ^ 5) / 128
  let result := setCoeff result 0 0 N0_u
  let result := setCoeff result 1 1 N0_v
  let result := setCoeff result 0 2 N1_u
  let result := setCoeff result 1 3 N1_v
  let result := setCoeff result 0 4 N2_u
  let result := setCoeff result 1 5 N2_v
  result

/-- Member function `ShapeB3::edgeFunctionDeriv` (ShapeB3.cpp 136-150): the
loop over `i` carries `Ni` and the result vector, whose initial content is
overwritten. -/
def edgeFunctionDeriv (point : K) : VectorXd K 3 :=
  (([0, 1, 2] : List (Fin 3)).foldl
    (fun (st : K × VectorXd K 3) i =>
      let Ni := st.1
      let Ni := if i = 0 then (2 * point - 1) / 2 else Ni
      let Ni := if i = 2 then (2 * point + 1) / 2 else Ni
      let Ni := if i = 1 then -(2 : K) * point else Ni
      (Ni, Function.update st.2 i Ni))
    (0, 0)).2

end ShapeB3

/-! ## Values served at the Gauss points -/

/-- Modelled from the spec: the indexed accessor `Shape::functionVec(i)` and
`Shape::_cacheShape`, which fills the table it reads, are defined in
`Shape.cpp`, which is not among the sources.  The specification (sections 3
and 4.1) has the shape precompute the shape-function values at all its own
Gauss points and serve them with "exact equality with the general-point
evaluation at those same coordinates"; `gaussianPt` is the table
`gaussianPt()` of the shape. -/
def Shape.functionVecAt {d n : Nat} (shape : Shape K d n) (gaussianPt : List (Vector2d K))
    (i : Fin gaussianPt.length) : VectorXd K n :=
  shape.functionVec (gaussianPt.get i)

/-- Modelled from the spec: the indexed accessor `Shape::functionDeriv(i)`
is defined in `Shape.cpp`, which is not among the sources; as for
`functionVecAt`, the value served for the Gauss index `i` is the
general-point derivative matrix at `gaussianPt()[i]`. -/
def Shape.functionDerivAt {d n : Nat} (shape : Shape K d n) (gaussianPt : List (Vector2d K))
    (i : Fin gaussianPt.length) : MatrixXd K d n :=
  shape.functionDeriv (gaussianPt.get i)

/-! ## Bar element: the remaining member functions -/

namespace ElementB3

/-- Modelled from the spec: the member function `Element::_radius(i)` is
defined in `Element.cpp`, which is not among the sources; it is the radius
"of the integration point" (specification, section 4.3), the value of
`radius` at the Gauss point of index `i`. -/
def _radius (e : ElementB3 K) (gaussianPt : List (Vector2d K)) (i : Fin gaussianPt.length) : K :=
  e.radius (gaussianPt.get i)

/-- Member function `ElementB3::EMatrix` (ElementB3.cpp 34-39); `material_` is
the member of the base class `Element`. -/
def EMatrix (material_ : ElasticMaterial K) (_modulus : DynVector K) : DynMatrix K :=
  material_.EMatrix

/-- One pass of the loop of `ElementB3::_BMatrix` (ElementB3.cpp 74-78). -/
def _BMatrixStep (cm : CMath K) (e : ElementB3 K) (gaussianPt : List (Vector2d K))
    (i : Fin gaussianPt.length) (B : MatrixXd K 2 (2 * 3)) (n : Fin 3) : MatrixXd K 2 (2 * 3) :=
  let N := e.shape.functionVecAt gaussianPt i
  let localDeriv := e.shape.functionDerivAt gaussianPt i
  let B := setCoeff B 0 (col0 n) (cm.cos (_angle cm e) * localDeriv 0 n)
  let B := setCoeff B 0 (col1 n) (cm.sin (_angle cm e) * localDeriv 0 n)
  setCoeff B 1 (col0 n) (N n / e._radius gaussianPt i)

/-- Member function `ElementB3::_BMatrix` (ElementB3.cpp 62-81); the Gauss
table is the one of the shared `ShapeB3`. -/
def _BMatrix (cm : CMath K) (e : ElementB3 K) (i : Fin (ShapeB3.gaussianPt_ cm).length) :
    MatrixXd K 2 (2 * 3) :=
  (List.finRange 3).foldl (_BMatrixStep cm e (ShapeB3.gaussianPt_ cm) i) 0

/-- Member function `ElementB3::_length` (ElementB3.cpp 97-100). -/
def _length (cm : CMath K) (e : ElementB3 K) : K :=
  cm.sqrt ((e.nodeCoord_ 2 1 - e.nodeCoord_ 0 1) ^ 2 + (e.nodeCoord_ 2 0 - e.nodeCoord_ 0 0) ^ 2)

/-- Member function `ElementB3::_jacobianDet` (ElementB3.cpp 83-88); the index
is an `int`. -/
def _jacobianDet (cm : CMath K) (e : ElementB3 K) (_i : Int) : K :=
  _length cm e / 2

/-- Modelled from the spec: the size of `statics.shape->gaussianPt()`.  The
constructor of the base class `Shape`, which allocates the table, is not among
the sources; the shape holds one entry per Gauss point, and their count is the
second argument of `ElementB3::statics(3,3,1,3,3)` (ElementB3.cpp 12). -/
def gaussianPtSize : Nat := 3

/-- The body of the constructor `ElementB3::ElementB3` (ElementB3.cpp 18-22):
the value given to `modulusAtGaussPt`, seen as a matrix with one column. -/
def initModulusAtGaussPt (material_ : ElasticMaterial K) : DynMatrix K :=
  ⟨gaussianPtSize, 1, fun _ _ => material_.modulus⟩

end ElementB3

/-! ## Solid elements: the remaining member functions -/

/-- Modelled from the spec: the member function `Element::_radius(i)` is
defined in `Element.cpp`, which is not among the sources; it is the radius
"of the integration point" (specification, section 4.3), the value of
`radius` at the Gauss point of index `i`. -/
def Element._radius {n : Nat} (e : Element K n) (gaussianPt : List (Vector2d K))
    (i : Fin gaussianPt.length) : K :=
  e.radius (gaussianPt.get i)

namespace ElementQ4

/-- Member function `ElementQ4::EMatrix` (ElementQ4.cpp 42-48); `material_` is
the member of the base class `Element`. -/
def EMatrix (material_ : ElasticMaterial K) (modulus : DynVector K) : DynMatrix K :=
  if !material_.nonlinearity then material_.EMatrix else material_.EMatrixOf modulus

/-- One pass of the loop of `ElementQ4::_BMatrix` (ElementQ4.cpp 81-88). -/
def _BMatrixStep {n : Nat} (e : Element K n) (gaussianPt : List (Vector2d K))
    (i : Fin gaussianPt.length) (globalDeriv : MatrixXd K 2 n) (B : MatrixXd K 4 (2 * n))
    (k : Fin n) : MatrixXd K 4 (2 * n) :=
  let B := setCoeff B 0 (col0 k) (globalDeriv 0 k)
  let N := e.shape.functionVecAt gaussianPt i
  let B := setCoeff B 1 (col0 k) (N k / e._radius gaussianPt i)
  let B := setCoeff B 2 (col1 k) (globalDeriv 1 k)
  let B := setCoeff B 3 (col0 k) (globalDeriv 1 k)
  setCoeff B 3 (col1 k) (globalDeriv 0 k)

/-- Member function `ElementQ4::_BMatrix` (ElementQ4.cpp 67-91); `gaussianPt`
is the table `gaussianPt()` of the shared shape. -/
def _BMatrix {n : Nat} (e : Element K n) (gaussianPt : List (Vector2d K))
    (i : Fin gaussianPt.length) : MatrixXd K 4 (2 * n) :=
  let globalDeriv : MatrixXd K 2 n :=
    inverse2 (e.shape.functionDerivAt gaussianPt i * e.nodeCoord_)
      * e.shape.functionDerivAt gaussianPt i
  (List.finRange n).foldl (_BMatrixStep e gaussianPt i globalDeriv) 0

/-- Modelled from the spec: the size of `statics.shape->gaussianPt()`.  The
constructor of the base class `Shape`, which allocates the table, is not among
the sources; the shape holds one entry per Gauss point, and their count is the
second argument of `ElementQ4::statics(4,4,4,2,2)` (ElementQ4.cpp 14). -/
def gaussianPtSize : Nat := 4

/-- The body of the constructor `ElementQ4::ElementQ4` (ElementQ4.cpp 20-31):
the value given to `modulusAtGaussPt`; a vector is a matrix with one column,
and the content of the freshly allocated `MatrixXd(g, 3)` is overwritten
column by column. -/
def initModulusAtGaussPt (material : ElasticMaterial K) : DynMatrix K :=
  if !material.anisotropy then
    ⟨gaussianPtSize, 1, fun _ _ => material.modulus⟩
  else
    let M : MatrixXd K gaussianPtSize 3 := 0
    let M := setCol M 0 (fun _ => material.modulusR)
    let M := setCol M 1 (fun _ => material.modulusZ)
    let M := setCol M 2 (fun _ => material.modulusG)
    ⟨gaussianPtSize, 3, M⟩

end ElementQ4

namespace ElementQ8

/-- Member function `ElementQ8::EMatrix` (ElementQ8.cpp 42-48); `material_` is
the member of the base class `Element`. -/
def EMatrix (material_ : ElasticMaterial K) (modulus : DynVector K) : DynMatrix K :=
  if !material_.nonlinearity then material_.EMatrix else material_.EMatrixOf modulus

/-- One pass of the loop of `ElementQ8::_BMatrix` (ElementQ8.cpp 80-87). -/
def _BMatrixStep {n : Nat} (e : Element K n) (gaussianPt : List (Vector2d K))
    (i : Fin gaussianPt.length) (globalDeriv : MatrixXd K 2 n) (B : MatrixXd K 4 (2 * n))
    (k : Fin n) : MatrixXd K 4 (2 * n) :=
  let B := setCoeff B 0 (col0 k) (globalDeriv 0 k)
  let N := e.shape.functionVecAt gaussianPt i
  let B := setCoeff B 1 (col0 k) (N k / e._radius gaussianPt i)
  let B := setCoeff B 2 (col1 k) (globalDeriv 1 k)
  let B := setCoeff B 3 (col0 k) (globalDeriv 1 k)
  setCoeff B 3 (col1 k) (globalDeriv 0 k)

/-- Member function `ElementQ8::_BMatrix` (ElementQ8.cpp 67-91); `gaussianPt`
is the table `gaussianPt()` of the shared shape. -/
def _BMatrix {n : Nat} (e : Element K n) (gaussianPt : List (Vector2d K))
    (i : Fin gaussianPt.length) : MatrixXd K 4 (2 * n) :=
  let globalDeriv : MatrixXd K 2 n :=
    inverse2 (e.shape.functionDerivAt gaussianPt i * e.nodeCoord_)
      * e.shape.functionDerivAt gaussianPt i
  (List.finRange n).foldl (_BMatrixStep e gaussianPt i globalDeriv) 0

/-- Modelled from the spec: the size of `statics.shape->gaussianPt()`.  The
constructor of the base class `Shape`, which allocates the table, is not among
the sources; the shape holds one entry per Gauss point, and their count is the
second argument of `ElementQ8::statics(8,9,4,3,3)` (ElementQ8.cpp 14). -/
def gaussianPtSize : Nat := 9

/-- The body of the constructor `ElementQ8::ElementQ8` (ElementQ8.cpp 20-31):
the value given to `modulusAtGaussPt`; a vector is a matrix with one column,
and the content of the freshly allocated `MatrixXd(g, 3)` is overwritten
column by column. -/
def initModulusAtGaussPt (material : ElasticMaterial K) : DynMatrix K :=
  if !material.anisotropy then
    ⟨gaussianPtSize, 1, fun _ _ => material.modulus⟩
  else
    let M : MatrixXd K gaussianPtSize 3 := 0
    let M := setCol M 0 (fun _ => material.modulusR)
    let M := setCol M 1 (fun _ => material.modulusZ)
    let M := setCol M 2 (fun _ => material.modulusG)
    ⟨gaussianPtSize, 3, M⟩

end ElementQ8

/-! ## Solid elements: the strain-displacement functions with Eigen's index checks -/

/-- Eigen coefficient read `v(i)` of a vector at an integer index: `none` when
the index is outside the vector (Eigen's index assertion). -/
def readVecCoeff {n : Nat} (v : VectorXd K n) (i : Nat) : Option K :=
  if h : i < n then some (v ⟨i, h⟩) else none

namespace ElementQ4

/-- One pass of the loop of `ElementQ4::BMatrix` (ElementQ4.cpp 55-62) for the
loop variable `n`, every coefficient read and write checked against the
dimensions of its matrix. -/
def BMatrixStepChecked {s : Nat} (e : Element K s) (point : Vector2d K)
    (globalDeriv : MatrixXd K 2 s) (B : MatrixXd K 4 (2 * s)) (n : Nat) :
    Option (MatrixXd K 4 (2 * s)) := do
  let B ← writeCoeff B 0 (2 * n) (← readCoeff globalDeriv 0 n)
  let N := e.shape.functionVec point
  let B ← writeCoeff B 1 (2 * n) ((← readVecCoeff N n) / e.radius point)
  let B ← writeCoeff B 2 (2 * n + 1) (← readCoeff globalDeriv 1 n)
  let B ← writeCoeff B 3 (2 * n) (← readCoeff globalDeriv 1 n)
  writeCoeff B 3 (2 * n + 1) (← readCoeff globalDeriv 0 n)

/-- Member function `ElementQ4::BMatrix` (ElementQ4.cpp 50-65) as the caller
sees it: `none` stands for an abort.  The function has no `throw`, no test of
the determinant and no status return, so the only aborts are Eigen's index
assertions.  `inverse` is Eigen's `inverse()`, a library routine that returns
a matrix for every square argument and leaves the result for a singular one
unspecified: it is an arbitrary function here. -/
def BMatrixChecked {s : Nat} (inverse : MatrixXd K 2 2 → MatrixXd K 2 2) (e : Element K s)
    (point : Vector2d K) : Option (MatrixXd K 4 (2 * s)) :=
  let globalDeriv : MatrixXd K 2 s :=
    inverse (e.shape.functionDeriv point * e.nodeCoord_) * e.shape.functionDeriv point
  (List.range s).foldlM (BMatrixStepChecked e point globalDeriv) 0

/-- One pass of the loop of `ElementQ4::_BMatrix` (ElementQ4.cpp 81-88) for the
loop variable `n`, every coefficient read and write checked against the
dimensions of its matrix. -/
def _BMatrixStepChecked {s : Nat} (e : Element K s) (gaussianPt : List (Vector2d K))
    (i : Fin gaussianPt.length) (globalDeriv : MatrixXd K 2 s) (B : MatrixXd K 4 (2 * s))
    (n : Nat) : Option (MatrixXd K 4 (2 * s)) := do
  let B ← writeCoeff B 0 (2 * n) (← readCoeff globalDeriv 0 n)
  let N := e.shape.functionVecAt gaussianPt i
  let B ← writeCoeff B 1 (2 * n) ((← readVecCoeff N n) / e._radius gaussianPt i)
  let B ← writeCoeff B 2 (2 * n + 1) (← readCoeff globalDeriv 1 n)
  let B ← writeCoeff B 3 (2 * n) (← readCoeff globalDeriv 1 n)
  writeCoeff B 3 (2 * n + 1) (← readCoeff globalDeriv 0 n)

/-- Member function `ElementQ4::_BMatrix` (ElementQ4.cpp 67-91) as the caller
sees it, with Eigen's index assertions and the library routine `inverse` as
for `BMatrixChecked`; `gaussianPt` is the table `gaussianPt()` of the shared
shape. -/
def _BMatrixChecked {s : Nat} (inverse : MatrixXd K 2 2 → MatrixXd K 2 2) (e : Element K s)
    (gaussianPt : List (Vector2d K)) (i : Fin gaussianPt.length) :
    Option (MatrixXd K 4 (2 * s)) :=
  let globalDeriv : MatrixXd K 2 s :=
    inverse (e.shape.functionDerivAt gaussianPt i * e.nodeCoord_)
      * e.shape.functionDerivAt gaussianPt i
  (List.range s).foldlM (_BMatrixStepChecked e gaussianPt i globalDeriv) 0

end ElementQ4

namespace ElementQ8

/-- One pass of the loop of `ElementQ8::BMatrix` (ElementQ8.cpp 55-62) for the
loop variable `n`, every coefficient read and write checked against the
dimensions of its matrix. -/
def BMatrixStepChecked {s : Nat} (e : Element K s) (point : Vector2d K)
    (globalDeriv : MatrixXd K 2 s) (B : MatrixXd K 4 (2 * s)) (n : Nat) :
    Option (MatrixXd K 4 (2 * s)) := do
  let B ← writeCoeff B 0 (2 * n) (← readCoeff globalDeriv 0 n)
  let N := e.shape.functionVec point
  let B ← writeCoeff B 1 (2 * n) ((← readVecCoeff N n) / e.radius point)
  let B ← writeCoeff B 2 (2 * n + 1) (← readCoeff globalDeriv 1 n)
  let B ← writeCoeff B 3 (2 * n) (← readCoeff globalDeriv 1 n)
  writeCoeff B 3 (2 * n + 1) (← readCoeff globalDeriv 0 n)

/-- Member function `ElementQ8::BMatrix` (ElementQ8.cpp 50-65) as the caller
sees it: `none` stands for an abort.  As in `ElementQ4::BMatrix` the only
aborts are Eigen's index assertions, and `inverse` is Eigen's `inverse()`, an
arbitrary function here. -/
def BMatrixChecked {s : Nat} (inverse : MatrixXd K 2 2 → MatrixXd K 2 2) (e : Element K s)
    (point : Vector2d K) : Option (MatrixXd K 4 (2 * s)) :=
  let globalDeriv : MatrixXd K 2 s :=
    inverse (e.shape.functionDeriv point * e.nodeCoord_) * e.shape.functionDeriv point
  (List.range s).foldlM (BMatrixStepChecked e point globalDeriv) 0

/-- One pass of the loop of `ElementQ8::_BMatrix` (ElementQ8.cpp 81-88) for the
loop variable `n`, every coefficient read and write checked against the
dimensions of its matrix. -/
def _BMatrixStepChecked {s : Nat} (e : Element K s) (gaussianPt : List (Vector2d K))
    (i : Fin gaussianPt.length) (globalDeriv : MatrixXd K 2 s) (B : MatrixXd K 4 (2 * s))
    (n : Nat) : Option (MatrixXd K 4 (2 * s)) := do
  let B ← writeCoeff B 0 (2 * n) (← readCoeff globalDeriv 0 n)
  let N := e.shape.functionVecAt gaussianPt i
  let B ← writeCoeff B 1 (2 * n) ((← readVecCoeff N n) / e._radius gaussianPt i)
  let B ← writeCoeff B 2 (2 * n + 1) (← readCoeff globalDeriv 1 n)
  let B ← writeCoeff B 3 (2 * n) (← readCoeff globalDeriv 1 n)
  writeCoeff B 3 (2 * n + 1) (← readCoeff globalDeriv 0 n)

/-- Member function `ElementQ8::_BMatrix` (ElementQ8.cpp 67-91) as the caller
sees it, with Eigen's index assertions and the library routine `inverse` as
for `BMatrixChecked`; `gaussianPt` is the table `gaussianPt()` of the shared
shape. -/
def _BMatrixChecked {s : Nat} (inverse : MatrixXd K 2 2 → MatrixXd K 2 2) (e : Element K s)
    (gaussianPt : List (Vector2d K)) (i : Fin gaussianPt.length) :
    Option (MatrixXd K 4 (2 * s)) :=
  let globalDeriv : MatrixXd K 2 s :=
    inverse (e.shape.functionDerivAt gaussianPt i * e.nodeCoord_)
      * e.shape.functionDerivAt gaussianPt i
  (List.range s).foldlM (_BMatrixStepChecked e gaussianPt i globalDeriv) 0

end ElementQ8

/-! ## Node: which calls leave the identity of the node alone -/

/-- The accumulation and averaging calls of `Node`, as opposed to the setters
of coordinates, displacement and force. -/
def Node.Call.isAccumulatorCall : Node.Call K → Bool
  | .setGlobalCoord _ _ => false
  | .setDisp _ _ => false
  | .setForce _ _ => false
  | _ => true

/-! ## Node: copying -/

namespace Node

/-- Member function `Node::clear_` (Node.cpp 43-45). -/
def clear_ (n : Node K) : Node K := n

/-- Member function `Node::copy_` (Node.cpp 47-56): `this` is the first
argument. -/
def copy_ (this other : Node K) : Node K :=
  { this with
    index_ := other.index_
    globalCoord_ := other.globalCoord_
    disp_ := other.disp_
    force_ := other.force_
    strain_ := other.strain_
    stress_ := other.stress_
    averageCount_ := other.averageCount_ }

/-- Member function `Node::operator=` (Node.cpp 29-36): the node `this` after
the assignment `this = other`.  The test `this != &other` only skips the copy
of a node onto itself, which changes nothing. -/
def assign (this other : Node K) : Node K :=
  copy_ (clear_ this) other

end Node

/-! ## ShapeB3: natural coordinates of the nodes -/

/-- The table `nodeCoord_` after the constructor of `ShapeB3`
(ShapeB3.cpp 16-20). -/
def ShapeB3.nodeCoord_ : List (Vector2d K) :=
  [![-1, 0], ![0, 0], ![1, 0]]

/-! ## Bar element: a uniform axial stretch -/

/-- The nodal displacement vector `(u_0, v_0, u_1, v_1, u_2, v_2)` of a uniform
axial stretch of a B3 element: `(u_n, v_n) = c * s n * (cos alpha, sin alpha)`,
where `c` is the strain, `s n` the distance of node `n` from node 0 along the
element and `alpha` the angle `_angle()` of the element. -/
def ElementB3.stretchDisp (cm : CMath K) (e : ElementB3 K) (c : K) (s : Fin 3 → K) :
    VectorXd K (2 * 3) :=
  fun j =>
    c * s (blockOf j) *
      (if j.val % 2 = 0 then cm.cos (ElementB3._angle cm e) else cm.sin (ElementB3._angle cm e))

/-! ## Interface element: the difference operator of the specification -/

/-- The fixed matrix of the specification for the interface element with `s`
nodes: `B(n, n) = -1`, `B(n, n + 6) = 1` and 0 in every other entry. -/
def ElementI6.differenceOperator (s : Nat) : MatrixXd K 6 (2 * s) :=
  fun i j => if j.val = i.val then -1 else if j.val = i.val + 6 then 1 else 0

/-! ## A concrete solid element -/

/-- The bilinear four-node shape on the reference square with nodes
`(-1,-1), (1,-1), (1,1), (-1,1)`, used as a concrete input: the source of the
solid shapes is not part of `src/FEM`. -/
def bilinearShape : Shape ℚ 2 4 where
  functionVec := fun p =>
    ![(1 - p 0) * (1 - p 1) / 4, (1 + p 0) * (1 - p 1) / 4,
      (1 + p 0) * (1 + p 1) / 4, (1 - p 0) * (1 + p 1) / 4]
  functionDeriv := fun p =>
    !![-(1 - p 1) / 4, (1 - p 1) / 4, (1 + p 1) / 4, -(1 + p 1) / 4;
       -(1 - p 0) / 4, -(1 + p 0) / 4, (1 + p 0) / 4, (1 - p 0) / 4]

/-- The quadrilateral with corners `(1,0), (3,1), (4,3), (2,2)` as a four-node
solid element, with the interpolated radius. -/
def quadElement : Element ℚ 4 where
  shape := bilinearShape
  nodeCoord_ := !![1, 0; 3, 1; 4, 3; 2, 2]
  radius := fun p =>
    ∑ k, bilinearShape.functionVec p k * (!![1, 0; 3, 1; 4, 3; 2, 2] : MatrixXd ℚ 4 2) k 0

/-- The quadrilateral collapsed onto the segment from `(1, 0)` to `(4, 0)`, a
degenerate four-node solid element. -/
def collapsedElement : Element ℚ 4 where
  shape := bilinearShape
  nodeCoord_ := !![1, 0; 2, 0; 3, 0; 4, 0]
  radius := fun p =>
    ∑ k, bilinearShape.functionVec p k * (!![1, 0; 2, 0; 3, 0; 4, 0] : MatrixXd ℚ 4 2) k 0

/-! # Theorems -/

/-! ## Node: accumulation and averaging -/

namespace Node

theorem averageStrain_snd (n : Node K) :
    n.averageStrain.2 = { n with strain_ := n.averageStrain.1 } := by
  unfold averageStrain
  split_ifs <;> rfl

theorem averageStress_snd (n : Node K) :
    n.averageStress.2 = { n with stress_ := n.averageStress.1 } := by
  unfold averageStress
  split_ifs <;> rfl

theorem averageMembraneStrain_snd (n : Node K) :
    n.averageMembraneStrain.2 = { n with membraneStrain_ := n.averageMembraneStrain.1 } := by
  unfold averageMembraneStrain
  split_ifs <;> rfl

theorem averageMembraneStress_snd (n : Node K) :
    n.averageMembraneStress.2 = { n with membraneStress_ := n.averageMembraneStress.1 } := by
  unfold averageMembraneStress
  split_ifs <;> rfl

theorem averageInterfaceStress_snd (n : Node K) :
    n.averageInterfaceStress.2 = { n with interfaceStress_ := n.averageInterfaceStress.1 } := by
  unfold averageInterfaceStress
  split_ifs <;> rfl

/-- The strain counter after a sequence of calls. -/
theorem run_averageCount (n : Node K) (tr : List (Call K)) :
    (run n tr).averageCount_ = n.averageCount_ + strainCount tr := by
  induction tr generalizing n with
  | nil => simp [run, strainCount]
  | cons c cs ih =>
    rw [run, ih]
    cases c <;>
      simp [step, strainCount, setGlobalCoord, setDisp, setForce, setStrainAndStress,
        setMembraneStrainAndStress, setInterfaceStress, averageStrain_snd, averageStress_snd,
        averageMembraneStrain_snd, averageMembraneStress_snd, averageInterfaceStress_snd]
    omega

/-- The membrane counter after a sequence of calls. -/
theorem run_averageMembraneCount (n : Node K) (tr : List (Call K)) :
    (run n tr).averageMembraneCount_ = n.averageMembraneCount_ + membraneCount tr := by
  induction tr generalizing n with
  | nil => simp [run, membraneCount]
  | cons c cs ih =>
    rw [run, ih]
    cases c <;>
      simp [step, membraneCount, setGlobalCoord, setDisp, setForce, setStrainAndStress,
        setMembraneStrainAndStress, setInterfaceStress, averageStrain_snd, averageStress_snd,
        averageMembraneStrain_snd, averageMembraneStress_snd, averageInterfaceStress_snd]
    omega

/-- The interface counter after a sequence of calls. -/
theorem run_averageInterfaceCount (n : Node K) (tr : List (Call K)) :
    (run n tr).averageInterfaceCount_ = n.averageInterfaceCount_ + interfaceCount tr := by
  induction tr generalizing n with
  | nil => simp [run, interfaceCount]
  | cons c cs ih =>
    rw [run, ih]
    cases c <;>
      simp [step, interfaceCount, setGlobalCoord, setDisp, setForce, setStrainAndStress,
        setMembraneStrainAndStress, setInterfaceStress, averageStrain_snd, averageStress_snd,
        averageMembraneStrain_snd, averageMembraneStress_snd, averageInterfaceStress_snd]
    omega

/-- The strain accumulator after calls among which `averageStrain` does not occur. -/
theorem run_strain (n : Node K) (tr : List (Call K)) (h : Call.averageStrain ∉ tr) :
    (run n tr).strain_ = n.strain_ + strainSum tr := by
  induction tr generalizing n with
  | nil => simp [run, strainSum]
  | cons c cs ih =>
    simp only [List.mem_cons, not_or] at h
    rw [run, ih _ h.2]
    cases c <;>
      simp [step, strainSum, setGlobalCoord, setDisp, setForce, setStrainAndStress,
        setMembraneStrainAndStress, setInterfaceStress, averageStrain_snd, averageStress_snd,
        averageMembraneStrain_snd, averageMembraneStress_snd, averageInterfaceStress_snd]
    · exact add_assoc _ _ _
    · exact absurd rfl h.1

/-- The stress accumulator after calls among which `averageStress` does not occur. -/
theorem run_stress (n : Node K) (tr : List (Call K)) (h : Call.averageStress ∉ tr) :
    (run n tr).stress_ = n.stress_ + stressSum tr := by
  induction tr generalizing n with
  | nil => simp [run, stressSum]
  | cons c cs ih =>
    simp only [List.mem_cons, not_or] at h
    rw [run, ih _ h.2]
    cases c <;>
      simp [step, stressSum, setGlobalCoord, setDisp, setForce, setStrainAndStress,
        setMembraneStrainAndStress, setInterfaceStress, averageStrain_snd, averageStress_snd,
        averageMembraneStrain_snd, averageMembraneStress_snd, averageInterfaceStress_snd]
    · exact add_assoc _ _ _
    · exact absurd rfl h.1

/-- The membrane strain accumulator after calls without `averageMembraneStrain`. -/
theorem run_membraneStrain (n : Node K) (tr : List (Call K)) (h : Call.averageMembraneStrain ∉ tr) :
    (run n tr).membraneStrain_ = n.membraneStrain_ + membraneStrainSum tr := by
  induction tr generalizing n with
  | nil => simp [run, membraneStrainSum]
  | cons c cs ih =>
    simp only [List.mem_cons, not_or] at h
    rw [run, ih _ h.2]
    cases c <;>
      simp [step, membraneStrainSum, setGlobalCoord, setDisp, setForce, setStrainAndStress,
        setMembraneStrainAndStress, setInterfaceStress, averageStrain_snd, averageStress_snd,
        averageMembraneStrain_snd, averageMembraneStress_snd, averageInterfaceStress_snd]
    · exact add_assoc _ _ _
    · exact absurd rfl h.1

/-- The membrane stress accumulator after calls without `averageMembraneStress`. -/
theorem run_membraneStress (n : Node K) (tr : List (Call K)) (h : Call.averageMembraneStress ∉ tr) :
    (run n tr).membraneStress_ = n.membraneStress_ + membraneStressSum tr := by
  induction tr generalizing n with
  | nil => simp [run, membraneStressSum]
  | cons c cs ih =>
    simp only [List.mem_cons, not_or] at h
    rw [run, ih _ h.2]
    cases c <;>
      simp [step, membraneStressSum, setGlobalCoord, setDisp, setForce, setStrainAndStress,
        setMembraneStrainAndStress, setInterfaceStress, averageStrain_snd, averageStress_snd,
        averageMembraneStrain_snd, averageMembraneStress_snd, averageInterfaceStress_snd]
    · exact add_assoc _ _ _
    · exact absurd rfl h.1

/-- The interface stress accumulator after calls without `averageInterfaceStress`. -/
theorem run_interfaceStress (n : Node K) (tr : List (Call K)) (h : Call.averageInterfaceStress ∉ tr) :
    (run n tr).interfaceStress_ = n.interfaceStress_ + interfaceStressSum tr := by
  induction tr generalizing n with
  | nil => simp [run, interfaceStressSum]
  | cons c cs ih =>
    simp only [List.mem_cons, not_or] at h
    rw [run, ih _ h.2]
    cases c <;>
      simp [step, interfaceStressSum, setGlobalCoord, setDisp, setForce, setStrainAndStress,
        setMembraneStrainAndStress, setInterfaceStress, averageStrain_snd, averageStress_snd,
        averageMembraneStrain_snd, averageMembraneStress_snd, averageInterfaceStress_snd]
    · exact add_assoc _ _ _
    · exact absurd rfl h.1

/-- With a zero counter and no `setStrainAndStress` call the strain accumulator is kept. -/
theorem run_strain_of_count_zero (n : Node K) (tr : List (Call K)) (h0 : n.averageCount_ = 0)
    (h : strainCount tr = 0) : (run n tr).strain_ = n.strain_ := by
  induction tr generalizing n with
  | nil => simp [run]
  | cons c cs ih =>
    cases c <;> simp only [strainCount, Nat.add_one_ne_zero] at h <;> rw [run, ih _ _ h] <;>
      simp [step, setGlobalCoord, setDisp, setForce, setStrainAndStress,
        setMembraneStrainAndStress, setInterfaceStress, averageStrain_snd, averageStress_snd,
        averageMembraneStrain_snd, averageMembraneStress_snd, averageInterfaceStress_snd,
        averageStrain, h0]

/-- With a zero counter and no `setStrainAndStress` call the stress accumulator is kept. -/
theorem run_stress_of_count_zero (n : Node K) (tr : List (Call K)) (h0 : n.averageCount_ = 0)
    (h : strainCount tr = 0) : (run n tr).stress_ = n.stress_ := by
  induction tr generalizing n with
  | nil => simp [run]
  | cons c cs ih =>
    cases c <;> simp only [strainCount, Nat.add_one_ne_zero] at h <;> rw [run, ih _ _ h] <;>
      simp [step, setGlobalCoord, setDisp, setForce, setStrainAndStress,
        setMembraneStrainAndStress, setInterfaceStress, averageStrain_snd, averageStress_snd,
        averageMembraneStrain_snd, averageMembraneStress_snd, averageInterfaceStress_snd,
        averageStress, h0]

/-- With a zero counter and no membrane accumulation the membrane strain is kept. -/
theorem run_membraneStrain_of_count_zero (n : Node K) (tr : List (Call K)) (h0 : n.averageMembraneCount_ = 0)
    (h : membraneCount tr = 0) : (run n tr).membraneStrain_ = n.membraneStrain_ := by
  induction tr generalizing n with
  | nil => simp [run]
  | cons c cs ih =>
    cases c <;> simp only [membraneCount, Nat.add_one_ne_zero] at h <;> rw [run, ih _ _ h] <;>
      simp [step, setGlobalCoord, setDisp, setForce, setStrainAndStress,
        setMembraneStrainAndStress, setInterfaceStress, averageStrain_snd, averageStress_snd,
        averageMembraneStrain_snd, averageMembraneStress_snd, averageInterfaceStress_snd,
        averageMembraneStrain, h0]

/-- With a zero counter and no membrane accumulation the membrane stress is kept. -/
theorem run_membraneStress_of_count_zero (n : Node K) (tr : List (Call K)) (h0 : n.averageMembraneCount_ = 0)
    (h : membraneCount tr = 0) : (run n tr).membraneStress_ = n.membraneStress_ := by
  induction tr generalizing n with
  | nil => simp [run]
  | cons c cs ih =>
    cases c <;> simp only [membraneCount, Nat.add_one_ne_zero] at h <;> rw [run, ih _ _ h] <;>
      simp [step, setGlobalCoord, setDisp, setForce, setStrainAndStress,
        setMembraneStrainAndStress, setInterfaceStress, averageStrain_snd, averageStress_snd,
        averageMembraneStrain_snd, averageMembraneStress_snd, averageInterfaceStress_snd,
        averageMembraneStress, h0]

/-- With a zero counter and no interface accumulation the interface stress is kept. -/
theorem run_interfaceStress_of_count_zero (n : Node K) (tr : List (Call K)) (h0 : n.averageInterfaceCount_ = 0)
    (h : interfaceCount tr = 0) : (run n tr).interfaceStress_ = n.interfaceStress_ := by
  induction tr generalizing n with
  | nil => simp [run]
  | cons c cs ih =>
    cases c <;> simp only [interfaceCount, Nat.add_one_ne_zero] at h <;> rw [run, ih _ _ h] <;>
      simp [step, setGlobalCoord, setDisp, setForce, setStrainAndStress,
        setMembraneStrainAndStress, setInterfaceStress, averageStrain_snd, averageStress_snd,
        averageMembraneStrain_snd, averageMembraneStress_snd, averageInterfaceStress_snd,
        averageInterfaceStress, h0]

theorem averageStrain_fst_of_pos (n : Node K) (h : n.averageCount_ ≠ 0) :
    n.averageStrain.1 = divInt n.strain_ n.averageCount_ := by
  simp [averageStrain, h]

theorem averageStress_fst_of_pos (n : Node K) (h : n.averageCount_ ≠ 0) :
    n.averageStress.1 = divInt n.stress_ n.averageCount_ := by
  simp [averageStress, h]

theorem averageMembraneStrain_fst_of_pos (n : Node K) (h : n.averageMembraneCount_ ≠ 0) :
    n.averageMembraneStrain.1 = divInt n.membraneStrain_ n.averageMembraneCount_ := by
  simp [averageMembraneStrain, h]

theorem averageMembraneStress_fst_of_pos (n : Node K) (h : n.averageMembraneCount_ ≠ 0) :
    n.averageMembraneStress.1 = divInt n.membraneStress_ n.averageMembraneCount_ := by
  simp [averageMembraneStress, h]

theorem averageInterfaceStress_fst_of_pos (n : Node K) (h : n.averageInterfaceCount_ ≠ 0) :
    n.averageInterfaceStress.1 = divInt n.interfaceStress_ n.averageInterfaceCount_ := by
  simp [averageInterfaceStress, h]

/-- Claim C1.  Take a node built by `Node(index, x, y)` and any sequence `tr` of
calls made on it.  If `averageStrain` has not been called yet and `tr` holds
`k ≥ 1` calls `setStrainAndStress(s_i, t_i)`, then `averageStrain()` returns
`(Σ s_i) / k`; likewise `averageStress()` returns `(Σ t_i) / k`, and the same
holds for `setMembraneStrainAndStress` with `averageMembraneStrain` and
`averageMembraneStress`, and for `setInterfaceStress` with
`averageInterfaceStress`, each with the number of calls of its own family. -/
theorem first_average_eq_sum_div_count (index : Int) (x y : K) (tr : List (Call K)) :
    (Call.averageStrain ∉ tr → 1 ≤ strainCount tr →
      (run (new index x y) tr).averageStrain.1
        = fun i => strainSum tr i / (strainCount tr : K)) ∧
    (Call.averageStress ∉ tr → 1 ≤ strainCount tr →
      (run (new index x y) tr).averageStress.1
        = fun i => stressSum tr i / (strainCount tr : K)) ∧
    (Call.averageMembraneStrain ∉ tr → 1 ≤ membraneCount tr →
      (run (new index x y) tr).averageMembraneStrain.1
        = fun i => membraneStrainSum tr i / (membraneCount tr : K)) ∧
    (Call.averageMembraneStress ∉ tr → 1 ≤ membraneCount tr →
      (run (new index x y) tr).averageMembraneStress.1
        = fun i => membraneStressSum tr i / (membraneCount tr : K)) ∧
    (Call.averageInterfaceStress ∉ tr → 1 ≤ interfaceCount tr →
      (run (new index x y) tr).averageInterfaceStress.1
        = fun i => interfaceStressSum tr i / (interfaceCount tr : K)) := by
  refine ⟨?_, ?_, ?_, ?_, ?_⟩
  · intro h hk
    have hc : (run (new index x y) tr).averageCount_ = strainCount tr := by
      simp [run_averageCount, new]
    rw [averageStrain_fst_of_pos _ (by omega), run_strain _ _ h, hc]
    funext i
    simp [divInt, new]
  · intro h hk
    have hc : (run (new index x y) tr).averageCount_ = strainCount tr := by
      simp [run_averageCount, new]
    rw [averageStress_fst_of_pos _ (by omega), run_stress _ _ h, hc]
    funext i
    simp [divInt, new]
  · intro h hk
    have hc : (run (new index x y) tr).averageMembraneCount_ = membraneCount tr := by
      simp [run_averageMembraneCount, new]
    rw [averageMembraneStrain_fst_of_pos _ (by omega), run_membraneStrain _ _ h, hc]
    funext i
    simp [divInt, new]
  · intro h hk
    have hc : (run (new index x y) tr).averageMembraneCount_ = membraneCount tr := by
      simp [run_averageMembraneCount, new]
    rw [averageMembraneStress_fst_of_pos _ (by omega), run_membraneStress _ _ h, hc]
    funext i
    simp [divInt, new]
  · intro h hk
    have hc : (run (new index x y) tr).averageInterfaceCount_ = interfaceCount tr := by
      simp [run_averageInterfaceCount, new]
    rw [averageInterfaceStress_fst_of_pos _ (by omega), run_interfaceStress _ _ h, hc]
    funext i
    simp [divInt, new]

/-- Claim C1 at a concrete history over `ℚ`: two solid contributions, one
membrane and one interface contribution, with `averageStress` already
called once before `averageStrain` is. -/
theorem first_average_eq_sum_div_count_witness :
    (run (new 7 (1 : ℚ) 2)
        [Call.setStrainAndStress ![1, 2, 3, 4] ![2, 0, 2, 0],
         Call.setInterfaceStress ![5, 6],
         Call.setStrainAndStress ![3, 4, 5, 6] ![4, 2, 0, 8],
         Call.averageStress]).averageStrain.1 = ![2, 3, 4, 5] := by
  rw [(first_average_eq_sum_div_count 7 (1 : ℚ) 2 _).1 (by simp) (by simp [strainCount])]
  funext i
  fin_cases i <;> simp [strainSum, strainCount] <;> norm_num

/-- Claim C2.  Take a node built by `Node(index, x, y)` and any sequence `tr`
of calls made on it.  If `tr` holds no `setStrainAndStress` call, the counter
is still `0`, so `averageStrain()` and `averageStress()` take the guarded
branch: they return the zero vector of length 4 and leave the node as it is.
Likewise `averageMembraneStrain()` and `averageMembraneStress()` return the
zero vector of length 2 when `tr` holds no `setMembraneStrainAndStress` call,
and `averageInterfaceStress()` when it holds no `setInterfaceStress` call. -/
theorem average_of_untouched_family (index : Int) (x y : K) (tr : List (Call K)) :
    (strainCount tr = 0 →
      (run (new index x y) tr).averageCount_ = 0 ∧
      (run (new index x y) tr).averageStrain
        = ((0 : VectorXd K 4), run (new index x y) tr) ∧
      (run (new index x y) tr).averageStress
        = ((0 : VectorXd K 4), run (new index x y) tr)) ∧
    (membraneCount tr = 0 →
      (run (new index x y) tr).averageMembraneCount_ = 0 ∧
      (run (new index x y) tr).averageMembraneStrain
        = ((0 : VectorXd K 2), run (new index x y) tr) ∧
      (run (new index x y) tr).averageMembraneStress
        = ((0 : VectorXd K 2), run (new index x y) tr)) ∧
    (interfaceCount tr = 0 →
      (run (new index x y) tr).averageInterfaceCount_ = 0 ∧
      (run (new index x y) tr).averageInterfaceStress
        = ((0 : VectorXd K 2), run (new index x y) tr)) := by
  refine ⟨?_, ?_, ?_⟩
  · intro h
    have hc : (run (new index x y) tr).averageCount_ = 0 := by
      simp [run_averageCount, new, h]
    have h1 := run_strain_of_count_zero (new index x y) tr rfl h
    have h2 := run_stress_of_count_zero (new index x y) tr rfl h
    refine ⟨hc, ?_, ?_⟩
    · simp only [averageStrain, hc, if_true, h1]; rfl
    · simp only [averageStress, hc, if_true, h2]; rfl
  · intro h
    have hc : (run (new index x y) tr).averageMembraneCount_ = 0 := by
      simp [run_averageMembraneCount, new, h]
    have h1 := run_membraneStrain_of_count_zero (new index x y) tr rfl h
    have h2 := run_membraneStress_of_count_zero (new index x y) tr rfl h
    refine ⟨hc, ?_, ?_⟩
    · simp only [averageMembraneStrain, hc, if_true, h1]; rfl
    · simp only [averageMembraneStress, hc, if_true, h2]; rfl
  · intro h
    have hc : (run (new index x y) tr).averageInterfaceCount_ = 0 := by
      simp [run_averageInterfaceCount, new, h]
    have h1 := run_interfaceStress_of_count_zero (new index x y) tr rfl h
    refine ⟨hc, ?_⟩
    simp only [averageInterfaceStress, hc, if_true, h1]; rfl

/-- Claim C2 at a concrete history over `ℚ`: a node that only received
interface contributions, and was already averaged once, reports the zero
strain. -/
theorem average_of_untouched_family_witness :
    (run (new 3 (1 : ℚ) 2)
        [Call.setInterfaceStress ![5, 6], Call.setDisp 1 1, Call.averageStrain]).averageStrain.1
      = (0 : VectorXd ℚ 4) := by
  rw [((average_of_untouched_family 3 (1 : ℚ) 2 _).1 (by simp [strainCount])).2.1]

theorem averageStrainTimes_averageCount (n : Node K) (m : Nat) :
    (averageStrainTimes n m).averageCount_ = n.averageCount_ := by
  induction m with
  | zero => rfl
  | succ m ih => rw [averageStrainTimes, averageStrain_snd]; exact ih

theorem averageStrainTimes_strain (n : Node K) (hk : n.averageCount_ ≠ 0) (m : Nat) :
    (averageStrainTimes n m).strain_ = fun i => n.strain_ i / (n.averageCount_ : K) ^ m := by
  induction m with
  | zero => simp [averageStrainTimes]
  | succ m ih =>
    have hc := averageStrainTimes_averageCount n m
    rw [averageStrainTimes, averageStrain_snd]
    simp only
    rw [averageStrain_fst_of_pos _ (by rw [hc]; exact hk), ih, hc]
    funext i
    simp only [divInt]
    rw [div_div, pow_succ]

/-- Claim C3.  For a node whose strain counter is `k ≥ 1` and whose strain
accumulator is `S`, the call of `averageStrain()` that follows `m` earlier
consecutive calls returns `S / k ^ (m + 1)`, and the counter is still `k`
after any number of calls; the second call returns the same vector as the
first exactly when `k = 1` or `S = 0`. -/
theorem repeated_averageStrain (n : Node K) (hk : 1 ≤ n.averageCount_) :
    (∀ m : Nat,
      (averageStrainTimes n m).averageStrain.1
          = (fun i => n.strain_ i / (n.averageCount_ : K) ^ (m + 1)) ∧
      (averageStrainTimes n m).averageCount_ = n.averageCount_) ∧
    ((averageStrainTimes n 1).averageStrain.1 = n.averageStrain.1
      ↔ n.averageCount_ = 1 ∨ n.strain_ = 0) := by
  have hk0 : n.averageCount_ ≠ 0 := by omega
  have hK : (n.averageCount_ : K) ≠ 0 := by exact_mod_cast hk0
  have key : ∀ m : Nat, (averageStrainTimes n m).averageStrain.1
      = (fun i => n.strain_ i / (n.averageCount_ : K) ^ (m + 1)) := by
    intro m
    have h := averageStrainTimes_strain n hk0 (m + 1)
    rw [averageStrainTimes, averageStrain_snd] at h
    exact h
  refine ⟨fun m => ⟨key m, averageStrainTimes_averageCount n m⟩, ?_⟩
  rw [key 1, averageStrain_fst_of_pos _ hk0]
  constructor
  · intro h
    by_cases h1 : n.averageCount_ = 1
    · exact Or.inl h1
    · right
      funext i
      have hi := congrFun h i
      simp only [divInt] at hi
      have h1K : (n.averageCount_ : K) ≠ 1 := by exact_mod_cast h1
      rw [div_eq_div_iff (pow_ne_zero _ hK) hK] at hi
      have h2 : n.strain_ i * ((n.averageCount_ : K) * ((n.averageCount_ : K) - 1)) = 0 := by
        linear_combination -hi
      rcases mul_eq_zero.mp h2 with h3 | h3
      · simpa using h3
      · rcases mul_eq_zero.mp h3 with h4 | h4
        · exact absurd h4 hK
        · exact absurd (sub_eq_zero.mp h4) h1K
  · rintro (h | h)
    · funext i
      simp [h, divInt]
    · funext i
      simp [h, divInt]

/-- Claim C3 at a concrete node over `ℚ`: two contributions summing to
`(8, 4, 0, 12)`; three consecutive calls have returned `(4, 2, 0, 6)`,
`(2, 1, 0, 3)` and then `(1, 1/2, 0, 3/2)`. -/
theorem repeated_averageStrain_witness :
    (averageStrainTimes
        (run (new 0 (0 : ℚ) 0)
          [Call.setStrainAndStress ![3, 1, 0, 5] 0, Call.setStrainAndStress ![5, 3, 0, 7] 0])
        2).averageStrain.1 = ![1, 1 / 2, 0, 3 / 2] := by
  rw [((repeated_averageStrain _ (by simp [run, step, setStrainAndStress, new])).1 2).1]
  funext i
  fin_cases i <;> simp [run, step, setStrainAndStress, new] <;> norm_num

end Node

/-! ## ShapeB3: partition of unity -/

namespace ShapeB3

/-- The three components of `edgeFunctionVec`, read off the loop. -/
theorem edgeFunctionVec_eq (point : K) :
    edgeFunctionVec point
      = ![(-point) * (1 - point) / 2, 1 - point * point, point * (1 + point) / 2] := by
  funext i
  fin_cases i <;> simp [edgeFunctionVec, Function.update]

/-- Claim C4.  For every natural-coordinate point `(xi, eta)` the three entries
of `ShapeB3::functionVec` sum to 1, and for every `xi` the three entries of
`ShapeB3::edgeFunctionVec` sum to 1. -/
theorem partition_of_unity (point : Vector2d K) (xi : K) :
    ∑ i, functionVec point i = 1 ∧ ∑ i, edgeFunctionVec xi i = 1 := by
  constructor
  · simp only [functionVec, Fin.sum_univ_three, Matrix.cons_val_zero, Matrix.cons_val_one,
      Matrix.head_cons, Matrix.cons_val_two, Matrix.tail_cons]
    ring
  · rw [edgeFunctionVec_eq]
    simp only [Fin.sum_univ_three, Matrix.cons_val_zero, Matrix.cons_val_one,
      Matrix.head_cons, Matrix.cons_val_two, Matrix.tail_cons]
    ring

end ShapeB3

/-! ## Interface element: the cached difference operator -/

namespace ElementI6

/-- The constructor loop for six nodes succeeds and yields the difference
operator. -/
theorem initB_of_eq_six (s : Nat) (h : s = 6) :
    initB s = some (fun (i : Fin 6) (j : Fin (2 * s)) =>
        if j.val = i.val then (-1 : K) else if j.val = i.val + 6 then 1 else 0) := by
  subst h
  have hr : List.range 6 = [0, 1, 2, 3, 4, 5] := by decide
  simp only [initB, hr, List.foldlM, writeCoeff]
  simp only [Nat.reduceMul, Nat.reduceAdd, Nat.reduceLT, Nat.ofNat_pos, and_self, dite_true,
    Option.bind_eq_bind, Option.some_bind, Option.pure_def, Option.bind_some]
  congr 1
  funext i j
  simp only [setCoeff, Fin.ext_iff]
  obtain ⟨i, hi⟩ := i
  obtain ⟨j, hj⟩ := j
  simp only []
  interval_cases i <;> interval_cases j <;> simp

/-- Claim C5.  Constructing an I6 element from a 6-entry node list, with any
node coordinates and any material, succeeds, and for every point argument
`ElementI6::BMatrix(point)` is the `6 x 12` matrix with `B(n, n) = -1`,
`B(n, n + 6) = 1` and 0 elsewhere; equivalently `(B * u)_n = u_(n+6) - u_n`
for every 12-vector `u`. -/
theorem BMatrix_eq_difference_operator (index : Int) (nodeList : List Nat)
    (nodeCoord : MatrixXd K nodeList.length 2) (material : Material K)
    (h : nodeList.length = 6) :
    ∃ e : ElementI6 K nodeList.length,
      new index nodeList nodeCoord material = some e ∧
      ∀ point : Vector2d K,
        (∀ (i : Fin 6) (j : Fin (2 * nodeList.length)),
          e.BMatrix point i j
            = if j.val = i.val then -1 else if j.val = i.val + 6 then 1 else 0) ∧
        (∀ (u : VectorXd K (2 * nodeList.length)) (n : Fin 6),
          (e.BMatrix point).mulVec u n
            = u ⟨n.val + 6, by omega⟩ - u ⟨n.val, by omega⟩) := by
  refine ⟨⟨index, nodeList, nodeCoord, material, fun i j =>
      if j.val = i.val then -1 else if j.val = i.val + 6 then 1 else 0⟩,
    by rw [new, initB_of_eq_six _ h]; rfl, fun point => ⟨fun i j => rfl, ?_⟩⟩
  intro u n
  have hterm : ∀ j : Fin (2 * nodeList.length),
      (if j.val = n.val then (-1 : K) else if j.val = n.val + 6 then 1 else 0) * u j
        = (if j = ⟨n.val, by omega⟩ then -u j else 0)
          + (if j = ⟨n.val + 6, by omega⟩ then u j else 0) := by
    intro j
    by_cases h1 : j.val = n.val
    · have h2 : ¬ j.val = n.val + 6 := by omega
      simp [Fin.ext_iff, h1]
    · by_cases h2 : j.val = n.val + 6
      · simp [Fin.ext_iff, h2]
      · simp [Fin.ext_iff, h1, h2]
  simp only [BMatrix, Matrix.mulVec, Matrix.dotProduct, hterm, Finset.sum_add_distrib,
    Finset.sum_ite_eq', Finset.mem_univ, if_true]
  ring

/-- Claim C5 at a concrete node list over `ℚ`. -/
theorem BMatrix_eq_difference_operator_witness :
    ∃ e : ElementI6 ℚ 6,
      new 1 [10, 11, 12, 20, 21, 22] 0 ⟨2, 3⟩ = some e ∧
      e.BMatrix ![0, 0] 2 8 = 1 ∧ e.BMatrix ![0, 0] 2 2 = -1 ∧ e.BMatrix ![0, 0] 2 3 = 0 := by
  obtain ⟨e, he, hB⟩ :=
    BMatrix_eq_difference_operator (1 : Int) [10, 11, 12, 20, 21, 22]
      (0 : MatrixXd ℚ 6 2) ⟨2, 3⟩ rfl
  refine ⟨e, he, ?_, ?_, ?_⟩
  · rw [(hB ![0, 0]).1]; decide
  · rw [(hB ![0, 0]).1]; decide
  · rw [(hB ![0, 0]).1]; decide

end ElementI6

/-! ## Geosynthetic: the constitutive matrix -/

namespace Geosynthetic

/-- Claim C6.  A `Geosynthetic` built from the properties `[M, v, t, ks, kn]`
with `v * v ≠ 1` has `E_ = [[1, v], [v, 1]] * M * t / (1 - v * v)`; in
particular for `M = 1000`, `v = 0.3`, `t = 0.01` it is
`[[1, 0.3], [0.3, 1]] * 10 / 0.91`. -/
theorem E_eq_plane_stress (anisotropy nonlinearity noTension geosynthetic : Bool)
    (M v t ks kn : K) (_hv : v * v ≠ 1) :
    (∃ g : Geosynthetic K,
      new anisotropy nonlinearity noTension geosynthetic [M, v, t, ks, kn] = some g ∧
      g.E_ = (M * t / (1 - v * v)) • (!![1, v; v, 1] : MatrixXd K 2 2)) ∧
    (∃ g : Geosynthetic K,
      new anisotropy nonlinearity noTension geosynthetic [1000, 0.3, 0.01, ks, kn] = some g ∧
      g.E_ = ((10 : K) / 0.91) • (!![1, 0.3; 0.3, 1] : MatrixXd K 2 2)) := by
  constructor
  · refine ⟨_, rfl, ?_⟩
    ext i j
    fin_cases i <;> fin_cases j <;> simp <;> ring
  · refine ⟨_, rfl, ?_⟩
    ext i j
    fin_cases i <;> fin_cases j <;> simp <;> norm_num

/-- Claim C6 at the concrete properties of the specification over `ℚ`: the
entries of `E_` are `1000/91` on the diagonal and `300/91` off it. -/
theorem E_eq_plane_stress_witness :
    ∃ g : Geosynthetic ℚ,
      new false false false true [1000, 3 / 10, 1 / 100, 5, 7] = some g ∧
      g.E_ = !![1000 / 91, 300 / 91; 300 / 91, 1000 / 91] := by
  obtain ⟨⟨g, hg, hE⟩, _⟩ :=
    E_eq_plane_stress false false false true (1000 : ℚ) (3 / 10) (1 / 100) 5 7 (by norm_num)
  refine ⟨g, hg, ?_⟩
  rw [hE]
  ext i j
  fin_cases i <;> fin_cases j <;> simp <;> norm_num

end Geosynthetic

/-! ## Interface element: the constitutive matrix -/

namespace ElementI6

/-- Claim C7.  For every I6 element (with at least the three front nodes) and
every modulus argument, `ElementI6::EMatrix(modulus)` returns the `6 x 6`
diagonal matrix with diagonal `(c0*ks, c0*kn, c1*ks, c1*kn, c2*ks, c2*kn)`,
where `ravg` is the mean radius of local nodes 0, 1, 2, `L` the distance
between local nodes 0 and 2, `alpha = atan2(z2 - z0, r2 - r0)`,
`c0 = pi*L/3*(ravg - L/2*cos(alpha))`, `c1 = 4*pi*L/3*ravg`,
`c2 = pi*L/3*(ravg + L/2*cos(alpha))`, and `ks`, `kn` are the interface shear
and normal stiffness of the material; the result is the same for every
modulus argument. -/
theorem EMatrix_eq_diagonal {s g : Nat} (cm : CMath K) (e : ElementI6 K s)
    (modulus : VectorXd K g) (hs : 3 ≤ s) :
    let r0 := e.nodeCoord_ ⟨0, by omega⟩ 0
    let z0 := e.nodeCoord_ ⟨0, by omega⟩ 1
    let r1 := e.nodeCoord_ ⟨1, by omega⟩ 0
    let r2 := e.nodeCoord_ ⟨2, by omega⟩ 0
    let z2 := e.nodeCoord_ ⟨2, by omega⟩ 1
    let ravg := (r0 + r1 + r2) / 3
    let L := cm.sqrt ((r2 - r0) ^ 2 + (z2 - z0) ^ 2)
    let alpha := cm.atan2 (z2 - z0) (r2 - r0)
    let c0 := cm.M_PI * L / 3 * (ravg - L / 2 * cm.cos alpha)
    let c1 := 4 * cm.M_PI * L / 3 * ravg
    let c2 := cm.M_PI * L / 3 * (ravg + L / 2 * cm.cos alpha)
    let ks := e.material_.getInterfaceShearStiffness
    let kn := e.material_.getInterfaceNormalStiffness
    e.EMatrix cm modulus
        = some (Matrix.diagonal ![c0 * ks, c0 * kn, c1 * ks, c1 * kn, c2 * ks, c2 * kn]) ∧
      ∀ (g1 : Nat) (modulus1 : VectorXd K g1), e.EMatrix cm modulus1 = e.EMatrix cm modulus := by
  have h0 : 0 < s := by omega
  have h1 : 1 < s := by omega
  have h2 : 2 < s := by omega
  refine ⟨?_, fun g1 modulus1 => rfl⟩
  simp only [EMatrix, _length, _angle, readCoeff, h0, h1, h2, Nat.ofNat_pos, Nat.one_lt_ofNat,
    and_self, dite_true, Option.bind_eq_bind, Option.some_bind, Option.pure_def, Option.bind_some,
    Fin.mk_zero, Fin.mk_one]
  generalize e.nodeCoord_ ⟨0, h0⟩ 0 = r0
  generalize e.nodeCoord_ ⟨0, h0⟩ 1 = z0
  generalize e.nodeCoord_ ⟨1, h1⟩ 0 = r1
  generalize e.nodeCoord_ ⟨2, h2⟩ 0 = r2
  generalize e.nodeCoord_ ⟨2, h2⟩ 1 = z2
  rw [add_comm ((z2 - z0) ^ 2)]
  generalize cm.sqrt ((r2 - r0) ^ 2 + (z2 - z0) ^ 2) = L
  generalize cm.cos (cm.atan2 (z2 - z0) (r2 - r0)) = c
  generalize e.material_.getInterfaceShearStiffness = ks
  generalize e.material_.getInterfaceNormalStiffness = kn
  congr 1
  ext i j
  fin_cases i <;> fin_cases j <;>
    first
    | rfl
    | (show cm.M_PI * L * 4 / 3 * ((r0 + r1 + r2) / 3) * ks
          = 4 * cm.M_PI * L / 3 * ((r0 + r1 + r2) / 3) * ks
       ring)
    | (show cm.M_PI * L * 4 / 3 * ((r0 + r1 + r2) / 3) * kn
          = 4 * cm.M_PI * L / 3 * ((r0 + r1 + r2) / 3) * kn
       ring)

/-- Claim C7 at a concrete element over `ℝ` with the real square root, cosine
and arctangent: a horizontal interface between radius 1 and radius 3 (so
`L = 2`, `alpha = 0`, `ravg = 2`), with `ks = 2` and `kn = 5`. -/
theorem EMatrix_eq_diagonal_witness :
    EMatrix (⟨Real.sqrt, Real.cos, Real.sin, fun y x => Complex.arg ⟨x, y⟩, Real.pi⟩ : CMath ℝ)
        (⟨1, [10, 11, 12, 20, 21, 22], !![1, 0; 2, 0; 3, 0; 1, 0; 2, 0; 3, 0], ⟨2, 5⟩, 0⟩ :
          ElementI6 ℝ 6)
        (![7] : VectorXd ℝ 1)
      = some (Matrix.diagonal
          ![Real.pi * 4 / 3, Real.pi * 10 / 3, Real.pi * 32 / 3, Real.pi * 80 / 3,
            Real.pi * 4, Real.pi * 10]) := by
  have hL : Real.sqrt (((3 : ℝ) - 1) ^ 2 + (0 - 0) ^ 2) = 2 := by
    rw [show ((3 : ℝ) - 1) ^ 2 + (0 - 0) ^ 2 = 2 ^ 2 by norm_num]
    exact Real.sqrt_sq (by norm_num)
  have hA : Complex.arg ⟨(3 : ℝ) - 1, 0 - 0⟩ = 0 := by
    have h2 : (⟨(3 : ℝ) - 1, 0 - 0⟩ : ℂ) = ((2 : ℝ) : ℂ) := by
      apply Complex.ext <;> simp
      norm_num
    rw [h2, Complex.arg_ofReal_of_nonneg (by norm_num)]
  rw [(EMatrix_eq_diagonal _ _ _ (by decide)).1]
  congr 2
  have e2 : ∀ h : 2 < 6, (⟨2, h⟩ : Fin 6) = 2 := fun _ => rfl
  simp only [Matrix.of_apply, Matrix.cons_val', Matrix.cons_val_zero, Matrix.cons_val_one,
    Matrix.head_cons, Matrix.empty_val', Matrix.cons_val_fin_one, Fin.mk_zero, Fin.mk_one, e2,
    Matrix.cons_val_two, Matrix.tail_cons, hL, hA, Real.cos_zero]
  funext i
  fin_cases i <;> simp <;> ring_nf

end ElementI6

/-! ## Matrices with two columns per node -/

@[simp]
theorem blockOf_col0 {n : Nat} (k : Fin n) : blockOf (col0 k) = k := by
  apply Fin.ext
  simp [blockOf, col0]

@[simp]
theorem blockOf_col1 {n : Nat} (k : Fin n) : blockOf (col1 k) = k := by
  apply Fin.ext
  simp only [blockOf, col1]
  omega

@[simp]
theorem col0_ne_col1 {n : Nat} (k l : Fin n) : col0 k ≠ col1 l := by
  intro h
  have := congrArg Fin.val h
  simp only [col0, col1] at this
  omega

@[simp]
theorem col1_ne_col0 {n : Nat} (k l : Fin n) : col1 k ≠ col0 l :=
  fun h => col0_ne_col1 l k h.symm

theorem col0_injective {n : Nat} : Function.Injective (col0 : Fin n → Fin (2 * n)) := by
  intro k l h
  have := congrArg blockOf h
  simpa using this

theorem col1_injective {n : Nat} : Function.Injective (col1 : Fin n → Fin (2 * n)) := by
  intro k l h
  have := congrArg blockOf h
  simpa using this

theorem ne_col0_of_blockOf_ne {n : Nat} {j : Fin (2 * n)} {k : Fin n} (h : blockOf j ≠ k) :
    j ≠ col0 k := by
  rintro rfl
  exact h (blockOf_col0 k)

theorem ne_col1_of_blockOf_ne {n : Nat} {j : Fin (2 * n)} {k : Fin n} (h : blockOf j ≠ k) :
    j ≠ col1 k := by
  rintro rfl
  exact h (blockOf_col1 k)

/-- A sum over the columns, node by node. -/
theorem sum_columns {n : Nat} (f : Fin (2 * n) → K) :
    ∑ j, f j = ∑ k : Fin n, (f (col0 k) + f (col1 k)) := by
  let g : Fin n × Fin 2 → Fin (2 * n) := fun p => ⟨2 * p.1.val + p.2.val, by omega⟩
  have hg : Function.Bijective g := by
    constructor
    · rintro ⟨k, b⟩ ⟨l, c⟩ h
      have h1 := congrArg Fin.val h
      simp only [g] at h1
      have hk : k = l := Fin.ext (by omega)
      have hb : b = c := Fin.ext (by omega)
      rw [hk, hb]
    · intro j
      refine ⟨(⟨j.val / 2, by omega⟩, ⟨j.val % 2, by omega⟩), ?_⟩
      apply Fin.ext
      simp only [g]
      omega
  rw [← hg.sum_comp f, Fintype.sum_prod_type]
  refine Finset.sum_congr rfl fun k _ => ?_
  rw [Fin.sum_univ_two]
  rfl

/-- A loop over the nodes whose pass for node `a` only writes columns `2a` and
`2a + 1`, with values that do not depend on the other coefficients: after
the loop a coefficient is what the pass of its own node writes. -/
theorem foldl_blocks {α : Type} {m n : Nat}
    (body : MatrixXd α m (2 * n) → Fin n → MatrixXd α m (2 * n))
    (hframe : ∀ B a i j, blockOf j ≠ a → body B a i j = B i j)
    (hlocal : ∀ B B1 a i j, B i j = B1 i j → body B a i j = body B1 a i j)
    (l : List (Fin n)) (hl : l.Nodup) (B : MatrixXd α m (2 * n)) (i : Fin m)
    (j : Fin (2 * n)) :
    l.foldl body B i j = if blockOf j ∈ l then body B (blockOf j) i j else B i j := by
  induction l generalizing B with
  | nil => simp
  | cons a l ih =>
    have hal : a ∉ l := (List.nodup_cons.mp hl).1
    rw [List.foldl_cons, ih (List.nodup_cons.mp hl).2]
    by_cases h : blockOf j ∈ l
    · have ha : blockOf j ≠ a := fun e => hal (e ▸ h)
      simp only [h, if_true, List.mem_cons, or_true]
      exact hlocal _ _ _ _ _ (hframe _ _ _ _ ha)
    · by_cases ha : blockOf j = a
      · subst ha
        simp [h]
      · simp [h, ha, hframe _ _ _ _ ha]

theorem foldl_blocks_finRange {α : Type} {m n : Nat}
    (body : MatrixXd α m (2 * n) → Fin n → MatrixXd α m (2 * n))
    (hframe : ∀ B a i j, blockOf j ≠ a → body B a i j = B i j)
    (hlocal : ∀ B B1 a i j, B i j = B1 i j → body B a i j = body B1 a i j)
    (B : MatrixXd α m (2 * n)) (i : Fin m) (j : Fin (2 * n)) :
    (List.finRange n).foldl body B i j = body B (blockOf j) i j := by
  rw [foldl_blocks body hframe hlocal _ (List.nodup_finRange n), if_pos (List.mem_finRange _)]

namespace ElementQ4

theorem Q4_BMatrixStep_frame {n : Nat} (e : Element K n) (point : Vector2d K)
    (G : MatrixXd K 2 n) (B : MatrixXd K 4 (2 * n)) (a : Fin n) (i : Fin 4)
    (j : Fin (2 * n)) (h : blockOf j ≠ a) : BMatrixStep e point G B a i j = B i j := by
  simp [BMatrixStep, setCoeff, ne_col0_of_blockOf_ne h, ne_col1_of_blockOf_ne h]

theorem Q4_BMatrixStep_local {n : Nat} (e : Element K n) (point : Vector2d K)
    (G : MatrixXd K 2 n) (B B1 : MatrixXd K 4 (2 * n)) (a : Fin n) (i : Fin 4)
    (j : Fin (2 * n)) (h : B i j = B1 i j) :
    BMatrixStep e point G B a i j = BMatrixStep e point G B1 a i j := by
  simp only [BMatrixStep, setCoeff, h]

/-- The coefficients of `ElementQ4::BMatrix`, column pair by column pair. -/
theorem Q4_BMatrix_coeff {n : Nat} (e : Element K n) (point : Vector2d K) (k : Fin n) :
    let G := inverse2 (e.shape.functionDeriv point * e.nodeCoord_) * e.shape.functionDeriv point
    BMatrix e point 0 (col0 k) = G 0 k ∧ BMatrix e point 0 (col1 k) = 0 ∧
    BMatrix e point 1 (col0 k) = e.shape.functionVec point k / e.radius point ∧
    BMatrix e point 1 (col1 k) = 0 ∧
    BMatrix e point 2 (col0 k) = 0 ∧ BMatrix e point 2 (col1 k) = G 1 k ∧
    BMatrix e point 3 (col0 k) = G 1 k ∧ BMatrix e point 3 (col1 k) = G 0 k := by
  intro G
  have key : ∀ i j, BMatrix e point i j = BMatrixStep e point G 0 (blockOf j) i j := fun i j =>
    foldl_blocks_finRange _ (Q4_BMatrixStep_frame e point G)
      (Q4_BMatrixStep_local e point G) 0 i j
  simp only [key, blockOf_col0, blockOf_col1]
  refine ⟨?_, ?_, ?_, ?_, ?_, ?_, ?_, ?_⟩ <;> simp [BMatrixStep, setCoeff]

end ElementQ4

namespace ElementQ8

theorem Q8_BMatrixStep_frame {n : Nat} (e : Element K n) (point : Vector2d K)
    (G : MatrixXd K 2 n) (B : MatrixXd K 4 (2 * n)) (a : Fin n) (i : Fin 4)
    (j : Fin (2 * n)) (h : blockOf j ≠ a) : BMatrixStep e point G B a i j = B i j := by
  simp [BMatrixStep, setCoeff, ne_col0_of_blockOf_ne h, ne_col1_of_blockOf_ne h]

theorem Q8_BMatrixStep_local {n : Nat} (e : Element K n) (point : Vector2d K)
    (G : MatrixXd K 2 n) (B B1 : MatrixXd K 4 (2 * n)) (a : Fin n) (i : Fin 4)
    (j : Fin (2 * n)) (h : B i j = B1 i j) :
    BMatrixStep e point G B a i j = BMatrixStep e point G B1 a i j := by
  simp only [BMatrixStep, setCoeff, h]

/-- The coefficients of `ElementQ8::BMatrix`, column pair by column pair. -/
theorem Q8_BMatrix_coeff {n : Nat} (e : Element K n) (point : Vector2d K) (k : Fin n) :
    let G := inverse2 (e.shape.functionDeriv point * e.nodeCoord_) * e.shape.functionDeriv point
    BMatrix e point 0 (col0 k) = G 0 k ∧ BMatrix e point 0 (col1 k) = 0 ∧
    BMatrix e point 1 (col0 k) = e.shape.functionVec point k / e.radius point ∧
    BMatrix e point 1 (col1 k) = 0 ∧
    BMatrix e point 2 (col0 k) = 0 ∧ BMatrix e point 2 (col1 k) = G 1 k ∧
    BMatrix e point 3 (col0 k) = G 1 k ∧ BMatrix e point 3 (col1 k) = G 0 k := by
  intro G
  have key : ∀ i j, BMatrix e point i j = BMatrixStep e point G 0 (blockOf j) i j := fun i j =>
    foldl_blocks_finRange _ (Q8_BMatrixStep_frame e point G)
      (Q8_BMatrixStep_local e point G) 0 i j
  simp only [key, blockOf_col0, blockOf_col1]
  refine ⟨?_, ?_, ?_, ?_, ?_, ?_, ?_, ?_⟩ <;> simp [BMatrixStep, setCoeff]

end ElementQ8

@[simp]
theorem uniformDisp_col0 {α : Type} {n : Nat} (a b : α) (k : Fin n) :
    uniformDisp a b (col0 k) = a := by
  simp [uniformDisp, col0]

@[simp]
theorem uniformDisp_col1 {α : Type} {n : Nat} (a b : α) (k : Fin n) :
    uniformDisp a b (col1 k) = b := by
  simp [uniformDisp, col1, Nat.add_mod]

/-- The closed form `inverse2` is the inverse of a matrix with nonzero
determinant. -/
theorem inverse2_eq_inv (J : MatrixXd K 2 2) (h : J.det ≠ 0) : inverse2 J = J⁻¹ := by
  rw [Matrix.det_fin_two] at h
  symm
  apply Matrix.inv_eq_left_inv
  ext i j
  fin_cases i <;> fin_cases j <;>
    simp [inverse2, Matrix.mul_apply, Fin.sum_univ_two] <;> field_simp <;> ring

/-- Rows of `G * D` sum to zero when the rows of `D` do. -/
theorem mul_row_sum_eq_zero {n : Nat} (A : MatrixXd K 2 2) (D : MatrixXd K 2 n)
    (h : ∀ l, ∑ k, D l k = 0) (i : Fin 2) : ∑ k, (A * D) i k = 0 := by
  simp only [Matrix.mul_apply]
  rw [Finset.sum_comm]
  simp [← Finset.mul_sum, h]

namespace ElementB3

theorem B3_BMatrixStep_frame (cm : CMath K) (e : ElementB3 K) (point : Vector2d K)
    (B : MatrixXd K 2 (2 * 3)) (a : Fin 3) (i : Fin 2)
    (j : Fin (2 * 3)) (h : blockOf j ≠ a) : BMatrixStep cm e point B a i j = B i j := by
  simp [BMatrixStep, setCoeff, ne_col0_of_blockOf_ne h, ne_col1_of_blockOf_ne h]

theorem B3_BMatrixStep_local (cm : CMath K) (e : ElementB3 K) (point : Vector2d K)
    (B B1 : MatrixXd K 2 (2 * 3)) (a : Fin 3) (i : Fin 2)
    (j : Fin (2 * 3)) (h : B i j = B1 i j) :
    BMatrixStep cm e point B a i j = BMatrixStep cm e point B1 a i j := by
  simp only [BMatrixStep, setCoeff, h]

/-- The coefficients of `ElementB3::BMatrix`, column pair by column pair. -/
theorem B3_BMatrix_coeff (cm : CMath K) (e : ElementB3 K) (point : Vector2d K) (k : Fin 3) :
    BMatrix cm e point 0 (col0 k)
      = cm.cos (_angle cm e) * ShapeB3.functionDeriv point 0 k ∧
    BMatrix cm e point 0 (col1 k)
      = cm.sin (_angle cm e) * ShapeB3.functionDeriv point 0 k ∧
    BMatrix cm e point 1 (col0 k) = ShapeB3.functionVec point k / e.radius point ∧
    BMatrix cm e point 1 (col1 k) = 0 := by
  have key : ∀ i j, BMatrix cm e point i j = BMatrixStep cm e point 0 (blockOf j) i j :=
    fun i j =>
      foldl_blocks_finRange _ (B3_BMatrixStep_frame cm e point)
        (B3_BMatrixStep_local cm e point) 0 i j
  simp only [key, blockOf_col0, blockOf_col1]
  refine ⟨?_, ?_, ?_, ?_⟩ <;>
    simp [BMatrixStep, setCoeff, shape, staticsShape, ShapeB3.shape, col0_ne_col1 k k,
      col1_ne_col0 k k]

/-- Claim C8.  For every B3 element, every point and every uniform nodal
displacement `u = (a, b, a, b, a, b)`, the axial component (row 0) of
`ElementB3::BMatrix(point) * u` is 0.  (The radius only enters row 1, so no
condition on it is needed.) -/
theorem rigid_body_axial_strain (cm : CMath K) (e : ElementB3 K) (point : Vector2d K)
    (a b : K) : (BMatrix cm e point).mulVec (uniformDisp a b) 0 = 0 := by
  simp only [Matrix.mulVec, Matrix.dotProduct]
  rw [sum_columns]
  simp only [(B3_BMatrix_coeff cm e point _).1, (B3_BMatrix_coeff cm e point _).2.1,
    uniformDisp_col0, uniformDisp_col1, Fin.sum_univ_three]
  simp [ShapeB3.functionDeriv]
  ring

end ElementB3

/-- Claim C9.  For every solid element (Q4 or Q8, with any number of nodes
and any shape) and every point at which the Jacobian
`functionDeriv(point) * nodeCoord` is invertible, if each row of the local
derivative matrix sums to 0 over the nodes, then a uniform nodal displacement
`u = (a, b, a, b, ...)` gives rows 0 (radial), 2 (axial) and 3 (shear) of
`BMatrix(point) * u` equal to 0.  (The radius only enters row 1, so no
condition on it is needed; the invertibility of the Jacobian delimits the
points at which the closed-form inverse of the model is the value Eigen
computes.) -/
theorem rigid_body_solid_strain {n : Nat} (e : Element K n) (point : Vector2d K) (a b : K)
    (hsum : ∀ l, ∑ k, e.shape.functionDeriv point l k = 0)
    (_hdet : (e.shape.functionDeriv point * e.nodeCoord_).det ≠ 0) :
    ((ElementQ4.BMatrix e point).mulVec (uniformDisp a b) 0 = 0 ∧
     (ElementQ4.BMatrix e point).mulVec (uniformDisp a b) 2 = 0 ∧
     (ElementQ4.BMatrix e point).mulVec (uniformDisp a b) 3 = 0) ∧
    ((ElementQ8.BMatrix e point).mulVec (uniformDisp a b) 0 = 0 ∧
     (ElementQ8.BMatrix e point).mulVec (uniformDisp a b) 2 = 0 ∧
     (ElementQ8.BMatrix e point).mulVec (uniformDisp a b) 3 = 0) := by
  have h0 := mul_row_sum_eq_zero
    (inverse2 (e.shape.functionDeriv point * e.nodeCoord_)) _ hsum 0
  have h1 := mul_row_sum_eq_zero
    (inverse2 (e.shape.functionDeriv point * e.nodeCoord_)) _ hsum 1
  have q4 := ElementQ4.Q4_BMatrix_coeff e point
  have q8 := ElementQ8.Q8_BMatrix_coeff e point
  simp only at q4 q8
  refine ⟨⟨?_, ?_, ?_⟩, ⟨?_, ?_, ?_⟩⟩
  · simp only [Matrix.mulVec, Matrix.dotProduct]
    rw [sum_columns]
    simp only [(q4 _).1, (q4 _).2.1, uniformDisp_col0, uniformDisp_col1, zero_mul, add_zero]
    rw [← Finset.sum_mul, h0, zero_mul]
  · simp only [Matrix.mulVec, Matrix.dotProduct]
    rw [sum_columns]
    simp only [(q4 _).2.2.2.2.1, (q4 _).2.2.2.2.2.1, uniformDisp_col0, uniformDisp_col1,
      zero_mul, zero_add]
    rw [← Finset.sum_mul, h1, zero_mul]
  · simp only [Matrix.mulVec, Matrix.dotProduct]
    rw [sum_columns]
    simp only [(q4 _).2.2.2.2.2.2.1, (q4 _).2.2.2.2.2.2.2, uniformDisp_col0, uniformDisp_col1]
    rw [Finset.sum_add_distrib, ← Finset.sum_mul, ← Finset.sum_mul, h0, h1]
    simp
  · simp only [Matrix.mulVec, Matrix.dotProduct]
    rw [sum_columns]
    simp only [(q8 _).1, (q8 _).2.1, uniformDisp_col0, uniformDisp_col1, zero_mul, add_zero]
    rw [← Finset.sum_mul, h0, zero_mul]
  · simp only [Matrix.mulVec, Matrix.dotProduct]
    rw [sum_columns]
    simp only [(q8 _).2.2.2.2.1, (q8 _).2.2.2.2.2.1, uniformDisp_col0, uniformDisp_col1,
      zero_mul, zero_add]
    rw [← Finset.sum_mul, h1, zero_mul]
  · simp only [Matrix.mulVec, Matrix.dotProduct]
    rw [sum_columns]
    simp only [(q8 _).2.2.2.2.2.2.1, (q8 _).2.2.2.2.2.2.2, uniformDisp_col0, uniformDisp_col1]
    rw [Finset.sum_add_distrib, ← Finset.sum_mul, ← Finset.sum_mul, h0, h1]
    simp

/-- Claim C10.  For every solid element with `n = size_` nodes and every point
with invertible Jacobian `J = functionDeriv(point) * nodeCoord`,
`BMatrix(point)` is the `4 x (2 * n)` matrix with `B(0,2k) = G(0,k)`,
`B(1,2k) = N(k) / r`, `B(2,2k+1) = G(1,k)`, `B(3,2k) = G(1,k)`,
`B(3,2k+1) = G(0,k)` and 0 in the three other entries of each column pair,
where `G = J⁻¹ * functionDeriv(point)`, `N = functionVec(point)` and
`r = radius(point)`; `ElementQ4::BMatrix` and `ElementQ8::BMatrix` are the same
function of the shape, the node coordinates and the radius. -/
theorem solid_BMatrix_entries {n : Nat} (e : Element K n) (point : Vector2d K)
    (hdet : (e.shape.functionDeriv point * e.nodeCoord_).det ≠ 0) :
    (∀ k : Fin n,
      ElementQ8.BMatrix e point 0 (col0 k)
        = ((e.shape.functionDeriv point * e.nodeCoord_)⁻¹ * e.shape.functionDeriv point) 0 k ∧
      ElementQ8.BMatrix e point 0 (col1 k) = 0 ∧
      ElementQ8.BMatrix e point 1 (col0 k) = e.shape.functionVec point k / e.radius point ∧
      ElementQ8.BMatrix e point 1 (col1 k) = 0 ∧
      ElementQ8.BMatrix e point 2 (col0 k) = 0 ∧
      ElementQ8.BMatrix e point 2 (col1 k)
        = ((e.shape.functionDeriv point * e.nodeCoord_)⁻¹ * e.shape.functionDeriv point) 1 k ∧
      ElementQ8.BMatrix e point 3 (col0 k)
        = ((e.shape.functionDeriv point * e.nodeCoord_)⁻¹ * e.shape.functionDeriv point) 1 k ∧
      ElementQ8.BMatrix e point 3 (col1 k)
        = ((e.shape.functionDeriv point * e.nodeCoord_)⁻¹ * e.shape.functionDeriv point) 0 k) ∧
    (∀ (e1 : Element K n) (p : Vector2d K), ElementQ4.BMatrix e1 p = ElementQ8.BMatrix e1 p) := by
  refine ⟨fun k => ?_, fun e1 p => rfl⟩
  have q8 := ElementQ8.Q8_BMatrix_coeff e point k
  simp only at q8
  rw [inverse2_eq_inv _ hdet] at q8
  exact q8

/-! ## The solid elements on a concrete quadrilateral -/

theorem quadElement_rows (l : Fin 2) :
    ∑ k, quadElement.shape.functionDeriv ![0, 0] l k = 0 := by
  fin_cases l <;> simp [quadElement, bilinearShape, Fin.sum_univ_four] <;> norm_num

theorem quadElement_jacobian :
    quadElement.shape.functionDeriv ![0, 0] * quadElement.nodeCoord_ = !![1, 1 / 2; 1 / 2, 1] := by
  ext i j
  fin_cases i <;> fin_cases j <;>
    simp [quadElement, bilinearShape, Matrix.mul_apply, Fin.sum_univ_four] <;> norm_num

theorem quadElement_det :
    (quadElement.shape.functionDeriv ![0, 0] * quadElement.nodeCoord_).det ≠ 0 := by
  rw [quadElement_jacobian, Matrix.det_fin_two]
  norm_num

/-- Claim C9 on a concrete quadrilateral at the centre of the reference element. -/
theorem rigid_body_solid_strain_witness :
    (ElementQ4.BMatrix quadElement ![0, 0]).mulVec (uniformDisp 3 5) 3 = 0 :=
  (rigid_body_solid_strain quadElement ![0, 0] 3 5 quadElement_rows quadElement_det).1.2.2

/-- Claim C10 on a concrete quadrilateral at the centre of the reference element: the
hoop entry of the third node is `N(2) / r = (1/4) / (5/2)`. -/
theorem solid_BMatrix_entries_witness :
    ElementQ8.BMatrix quadElement ![0, 0] 1 (col0 2) = 1 / 10 := by
  rw [((solid_BMatrix_entries quadElement ![0, 0] quadElement_det).1 2).2.2.1]
  simp [quadElement, bilinearShape, Fin.sum_univ_four]
  norm_num

/-! ## Bar element: strain-displacement matrix and Jacobian -/

namespace ElementB3

/-- Claim C11.  For every B3 element and every point with nonzero radius `r`,
`ElementB3::BMatrix(point)` is the `2 x 6` matrix with
`B(0,2n) = cos(alpha) * dN_n/dxi`, `B(0,2n+1) = sin(alpha) * dN_n/dxi`,
`B(1,2n) = N_n / r` and `B(1,2n+1) = 0` for `n = 0, 1, 2`, where
`alpha = atan2(z2 - z0, r2 - r0)` is taken between local nodes 0 and 2 and
`N`, `dN/dxi` are `ShapeB3::functionVec` and `ShapeB3::functionDeriv` at the
point. -/
theorem BMatrix_entries (cm : CMath K) (e : ElementB3 K) (point : Vector2d K)
    (_hr : e.radius point ≠ 0) (n : Fin 3) :
    BMatrix cm e point 0 (col0 n)
      = cm.cos (cm.atan2 (e.nodeCoord_ 2 1 - e.nodeCoord_ 0 1)
          (e.nodeCoord_ 2 0 - e.nodeCoord_ 0 0)) * ShapeB3.functionDeriv point 0 n ∧
    BMatrix cm e point 0 (col1 n)
      = cm.sin (cm.atan2 (e.nodeCoord_ 2 1 - e.nodeCoord_ 0 1)
          (e.nodeCoord_ 2 0 - e.nodeCoord_ 0 0)) * ShapeB3.functionDeriv point 0 n ∧
    BMatrix cm e point 1 (col0 n) = ShapeB3.functionVec point n / e.radius point ∧
    BMatrix cm e point 1 (col1 n) = 0 :=
  B3_BMatrix_coeff cm e point n

/-- Claim C11 at a concrete element over `ℝ`: a horizontal bar between radius
1 and radius 3 at its mid-point, where `N_1 = 1` and the radius is 2. -/
theorem BMatrix_entries_witness :
    BMatrix (⟨Real.sqrt, Real.cos, Real.sin, fun y x => Complex.arg ⟨x, y⟩, Real.pi⟩ : CMath ℝ)
      (⟨!![1, 0; 2, 0; 3, 0], fun _ => 2⟩ : ElementB3 ℝ) ![0, 0] 1 (col0 1) = 1 / 2 := by
  rw [(BMatrix_entries _ _ _ (by norm_num) 1).2.2.1]
  simp [ShapeB3.functionVec]

/-- Claim C12.  For every B3 element and every Gauss index `i`,
`ElementB3::_jacobianDet(i)` is half the distance between local nodes 0 and 2,
`sqrt((r2 - r0)^2 + (z2 - z0)^2) / 2`; it is the same for every index, the
same for two elements that differ only in their middle node, and
non-negative (the square root of the C library is non-negative). -/
theorem jacobianDet_eq_half_length (cm : CMath K) (hsqrt : ∀ x : K, 0 ≤ x → 0 ≤ cm.sqrt x)
    (e : ElementB3 K) (i : Int) :
    _jacobianDet cm e i
      = cm.sqrt ((e.nodeCoord_ 2 0 - e.nodeCoord_ 0 0) ^ 2
          + (e.nodeCoord_ 2 1 - e.nodeCoord_ 0 1) ^ 2) / 2 ∧
    (∀ j : Int, _jacobianDet cm e j = _jacobianDet cm e i) ∧
    (∀ e1 : ElementB3 K, e1.nodeCoord_ 0 = e.nodeCoord_ 0 → e1.nodeCoord_ 2 = e.nodeCoord_ 2 →
      _jacobianDet cm e1 i = _jacobianDet cm e i) ∧
    0 ≤ _jacobianDet cm e i := by
  refine ⟨?_, fun j => rfl, ?_, ?_⟩
  · simp only [_jacobianDet, _length]
    rw [add_comm]
  · intro e1 h0 h2
    simp only [_jacobianDet, _length, h0, h2]
  · simp only [_jacobianDet, _length]
    exact div_nonneg (hsqrt _ (by positivity)) (by norm_num)

/-- Claim C12 at a concrete element over `ℝ` with the real square root: end
nodes `(1, 2)` and `(4, 6)`, at distance 5. -/
theorem jacobianDet_eq_half_length_witness :
    _jacobianDet (⟨Real.sqrt, Real.cos, Real.sin, fun y x => Complex.arg ⟨x, y⟩, Real.pi⟩ : CMath ℝ)
      (⟨!![1, 2; 7, 9; 4, 6], fun _ => 2⟩ : ElementB3 ℝ) 1 = 5 / 2 := by
  rw [(jacobianDet_eq_half_length _ (fun x _ => Real.sqrt_nonneg x) _ 1).1]
  have h : ((4 : ℝ) - 1) ^ 2 + (6 - 2) ^ 2 = 5 ^ 2 := by norm_num
  simp only [Matrix.of_apply, Matrix.cons_val', Matrix.cons_val_zero, Matrix.cons_val_one,
    Matrix.head_cons, Matrix.empty_val', Matrix.cons_val_fin_one, Matrix.cons_val_two,
    Matrix.tail_cons, Matrix.head_fin_const]
  rw [h, Real.sqrt_sq (by norm_num)]

end ElementB3

/-- Claim C13.  The constitutive dispatch is decided by the nonlinearity flag
of the material alone: for a Q4 or Q8 element and every modulus argument,
`EMatrix(modulus)` is `material.EMatrix()` when `nonlinearity` is false and
`material.EMatrix(modulus)` when it is true; for a B3 element
`EMatrix(modulus)` is `material.EMatrix()` for every modulus argument and
either value of the flag. -/
theorem EMatrix_dispatch {α : Type} (material : ElasticMaterial α) (modulus : DynVector α) :
    (material.nonlinearity = false →
      ElementQ4.EMatrix material modulus = material.EMatrix ∧
      ElementQ8.EMatrix material modulus = material.EMatrix) ∧
    (material.nonlinearity = true →
      ElementQ4.EMatrix material modulus = material.EMatrixOf modulus ∧
      ElementQ8.EMatrix material modulus = material.EMatrixOf modulus) ∧
    ElementB3.EMatrix material modulus = material.EMatrix := by
  refine ⟨fun h => ?_, fun h => ?_, rfl⟩
  · simp [ElementQ4.EMatrix, ElementQ8.EMatrix, h]
  · simp [ElementQ4.EMatrix, ElementQ8.EMatrix, h]

/-! ## Cached evaluation, and the interleaved matrix of ShapeB3 -/

/-- Claim C14.  The cached and the general evaluation agree: for every B3, Q4
or Q8 element and every valid Gauss index `i`, the indexed `_BMatrix(i)`,
built from the values `functionVec(i)`, `functionDeriv(i)` and `_radius(i)`
served at the Gauss point, equals `BMatrix(gaussianPt[i])`, built from the
general-point `functionVec`, `functionDeriv` and `radius` at the coordinates
of that Gauss point. -/
theorem cached_BMatrix_eq_general {n : Nat} (cm : CMath K) (b : ElementB3 K)
    (e : Element K n) (gaussianPt : List (Vector2d K)) :
    (∀ i : Fin (ShapeB3.gaussianPt_ cm).length,
      ElementB3._BMatrix cm b i = ElementB3.BMatrix cm b ((ShapeB3.gaussianPt_ cm).get i)) ∧
    (∀ i : Fin gaussianPt.length,
      ElementQ4._BMatrix e gaussianPt i = ElementQ4.BMatrix e (gaussianPt.get i)) ∧
    (∀ i : Fin gaussianPt.length,
      ElementQ8._BMatrix e gaussianPt i = ElementQ8.BMatrix e (gaussianPt.get i)) :=
  ⟨fun _ => rfl, fun _ => rfl, fun _ => rfl⟩

namespace ShapeB3

/-- The coefficients of `ShapeB3::functionMat`. -/
theorem functionMat_coeff (point : Vector2d K) :
    functionMat point = !![functionVec point 0, 0, functionVec point 1, 0, functionVec point 2, 0;
      0, (32 * point 0 ^ 2 - 20 * point 0 ^ 3 - 4 * point 0 ^ 4 - 3 * point 0 ^ 5) / 128,
      0, (128 - 64 * point 0 ^ 2 + 8 * point 0 ^ 4) / 128,
      0, (32 * point 0 ^ 2 - 20 * point 0 ^ 3 - 4 * point 0 ^ 4 - 3 * point 0 ^ 5) / 128] := by
  ext i j
  fin_cases i <;> fin_cases j <;> rfl

/-- Claim C15 fails as stated: at `xi = 1` the entry `(1, 1)` of
`ShapeB3::functionMat` is `5/128`, while `N(0) = 0`. -/
theorem functionMat_row1_ne_functionVec :
    functionMat (![1, 0] : Vector2d ℚ) 1 (col1 0) = 5 / 128 ∧
    functionVec (![1, 0] : Vector2d ℚ) 0 = 0 ∧
    functionMat (![1, 0] : Vector2d ℚ) 1 (col1 0) ≠ functionVec (![1, 0] : Vector2d ℚ) 0 := by
  have h1 : functionMat (![1, 0] : Vector2d ℚ) 1 (col1 0) = 5 / 128 := by
    rw [functionMat_coeff]
    show (32 * (1 : ℚ) ^ 2 - 20 * 1 ^ 3 - 4 * 1 ^ 4 - 3 * 1 ^ 5) / 128 = 5 / 128
    norm_num
  have h2 : functionVec (![1, 0] : Vector2d ℚ) 0 = 0 := by
    simp [functionVec]
  refine ⟨h1, h2, ?_⟩
  rw [h1, h2]
  norm_num

/-- Claim C15, amended.  For every point, row 0 of `ShapeB3::functionMat` is
the interleaved form of `N = ShapeB3::functionVec(point)`: entry `(0, 2n)` is
`N(n)` and entry `(0, 2n+1)` is 0, so the first component of `functionMat`
applied to `(u0, v0, u1, v1, u2, v2)` is `sum N_n u_n`; in row 1 the entries
`(1, 2n)` are 0 and the entries `(1, 1)`, `(1, 3)` are the beam polynomials
`(32 xi^2 - 20 xi^3 - 4 xi^4 - 3 xi^5) / 128` and
`(128 - 64 xi^2 + 8 xi^4) / 128`. -/
theorem functionMat_rows (point : Vector2d K) :
    (∀ n : Fin 3, functionMat point 0 (col0 n) = functionVec point n ∧
      functionMat point 0 (col1 n) = 0 ∧ functionMat point 1 (col0 n) = 0) ∧
    (∀ w : VectorXd K (2 * 3),
      (functionMat point).mulVec w 0 = ∑ n : Fin 3, functionVec point n * w (col0 n)) ∧
    functionMat point 1 (col1 0)
      = (32 * point 0 ^ 2 - 20 * point 0 ^ 3 - 4 * point 0 ^ 4 - 3 * point 0 ^ 5) / 128 ∧
    functionMat point 1 (col1 1) = (128 - 64 * point 0 ^ 2 + 8 * point 0 ^ 4) / 128 := by
  have hrow : ∀ n : Fin 3, functionMat point 0 (col0 n) = functionVec point n ∧
      functionMat point 0 (col1 n) = 0 ∧ functionMat point 1 (col0 n) = 0 := by
    intro n
    rw [functionMat_coeff]
    fin_cases n <;> exact ⟨rfl, rfl, rfl⟩
  refine ⟨hrow, ?_, ?_, ?_⟩
  · intro w
    simp only [Matrix.mulVec, Matrix.dotProduct]
    rw [sum_columns]
    refine Finset.sum_congr rfl fun n _ => ?_
    rw [(hrow n).1, (hrow n).2.1, zero_mul, add_zero]
  · rw [functionMat_coeff]; rfl
  · rw [functionMat_coeff]; rfl

end ShapeB3

/-! ## Singular Jacobians, accumulator frames and the modulus cache -/

/-- A checked loop over `0 .. n - 1` each pass of which completes returns the
result of the loop without checks. -/
theorem foldlM_range_eq_some {β : Type} (n : Nat) (f : β → Nat → Option β)
    (g : β → Fin n → β) (h : ∀ (b : β) (k : Fin n), f b k.val = some (g b k)) (b : β) :
    (List.range n).foldlM f b = some ((List.finRange n).foldl g b) := by
  rw [← List.map_coe_finRange]
  generalize List.finRange n = l
  induction l generalizing b with
  | nil => rfl
  | cons a l ih => simp [List.foldlM, h, ih]

/-- The checked coefficient read of a matrix inside its dimensions. -/
theorem readCoeff_of_lt {α : Type} {m n : Nat} (M : MatrixXd α m n) (i : Fin m) (j : Fin n) :
    readCoeff M i.val j.val = some (M i j) := by
  simp [readCoeff, i.isLt, j.isLt]

/-- The checked coefficient write of a matrix inside its dimensions. -/
theorem writeCoeff_of_lt {α : Type} {m n : Nat} (M : MatrixXd α m n) (i : Fin m) (j : Fin n)
    (v : α) :
    writeCoeff M i.val j.val v = some (setCoeff M i j v) := by
  simp [writeCoeff, i.isLt, j.isLt]

/-- The checked coefficient read of a vector inside its dimension. -/
theorem readVecCoeff_of_lt {α : Type} {n : Nat} (v : VectorXd α n) (i : Fin n) :
    readVecCoeff v i.val = some (v i) := by
  simp [readVecCoeff, i.isLt]

/-- Every coefficient access of one pass of the loop of `ElementQ4::BMatrix` is
in range: the checked pass completes with the result of the pass of the
source. -/
theorem Q4_BMatrixStepChecked_eq {s : Nat} (e : Element K s) (point : Vector2d K)
    (globalDeriv : MatrixXd K 2 s) (B : MatrixXd K 4 (2 * s)) (k : Fin s) :
    ElementQ4.BMatrixStepChecked e point globalDeriv B k.val
      = some (ElementQ4.BMatrixStep e point globalDeriv B k) := by
  have r0 := readCoeff_of_lt globalDeriv 0 k
  have r1 := readCoeff_of_lt globalDeriv 1 k
  have rN := readVecCoeff_of_lt (e.shape.functionVec point) k
  have w0 : ∀ (M : MatrixXd K 4 (2 * s)) (v : K),
      writeCoeff M 0 (2 * k.val) v = some (setCoeff M 0 (col0 k) v) :=
    fun M v => writeCoeff_of_lt M 0 (col0 k) v
  have w1 : ∀ (M : MatrixXd K 4 (2 * s)) (v : K),
      writeCoeff M 1 (2 * k.val) v = some (setCoeff M 1 (col0 k) v) :=
    fun M v => writeCoeff_of_lt M 1 (col0 k) v
  have w2 : ∀ (M : MatrixXd K 4 (2 * s)) (v : K),
      writeCoeff M 2 (2 * k.val + 1) v = some (setCoeff M 2 (col1 k) v) :=
    fun M v => writeCoeff_of_lt M 2 (col1 k) v
  have w3 : ∀ (M : MatrixXd K 4 (2 * s)) (v : K),
      writeCoeff M 3 (2 * k.val) v = some (setCoeff M 3 (col0 k) v) :=
    fun M v => writeCoeff_of_lt M 3 (col0 k) v
  have w4 : ∀ (M : MatrixXd K 4 (2 * s)) (v : K),
      writeCoeff M 3 (2 * k.val + 1) v = some (setCoeff M 3 (col1 k) v) :=
    fun M v => writeCoeff_of_lt M 3 (col1 k) v
  simp only [Fin.val_zero, Fin.val_one] at r0 r1
  simp only [ElementQ4.BMatrixStepChecked, ElementQ4.BMatrixStep, r0, r1, rN, w0, w1, w2, w3, w4,
    Option.bind_eq_bind, Option.some_bind, Option.pure_def]

/-- The checked evaluation of `ElementQ4::BMatrix` completes, for every library
routine `inverse`, with the matrix the loop of the source builds. -/
theorem Q4_BMatrixChecked_eq {s : Nat} (inverse : MatrixXd K 2 2 → MatrixXd K 2 2)
    (e : Element K s) (point : Vector2d K) :
    ElementQ4.BMatrixChecked inverse e point
      = some ((List.finRange s).foldl
          (ElementQ4.BMatrixStep e point
            (inverse (e.shape.functionDeriv point * e.nodeCoord_) * e.shape.functionDeriv point)) 0) :=
  foldlM_range_eq_some s _ _ (fun B k => Q4_BMatrixStepChecked_eq e point _ B k) 0

/-- Every coefficient access of one pass of the loop of `ElementQ4::_BMatrix` is
in range: the checked pass completes with the result of the pass of the
source. -/
theorem Q4_cached_BMatrixStepChecked_eq {s : Nat} (e : Element K s) (gaussianPt : List (Vector2d K))
    (i : Fin gaussianPt.length)
    (globalDeriv : MatrixXd K 2 s) (B : MatrixXd K 4 (2 * s)) (k : Fin s) :
    ElementQ4._BMatrixStepChecked e gaussianPt i globalDeriv B k.val
      = some (ElementQ4._BMatrixStep e gaussianPt i globalDeriv B k) := by
  have r0 := readCoeff_of_lt globalDeriv 0 k
  have r1 := readCoeff_of_lt globalDeriv 1 k
  have rN := readVecCoeff_of_lt (e.shape.functionVecAt gaussianPt i) k
  have w0 : ∀ (M : MatrixXd K 4 (2 * s)) (v : K),
      writeCoeff M 0 (2 * k.val) v = some (setCoeff M 0 (col0 k) v) :=
    fun M v => writeCoeff_of_lt M 0 (col0 k) v
  have w1 : ∀ (M : MatrixXd K 4 (2 * s)) (v : K),
      writeCoeff M 1 (2 * k.val) v = some (setCoeff M 1 (col0 k) v) :=
    fun M v => writeCoeff_of_lt M 1 (col0 k) v
  have w2 : ∀ (M : MatrixXd K 4 (2 * s)) (v : K),
      writeCoeff M 2 (2 * k.val + 1) v = some (setCoeff M 2 (col1 k) v) :=
    fun M v => writeCoeff_of_lt M 2 (col1 k) v
  have w3 : ∀ (M : MatrixXd K 4 (2 * s)) (v : K),
      writeCoeff M 3 (2 * k.val) v = some (setCoeff M 3 (col0 k) v) :=
    fun M v => writeCoeff_of_lt M 3 (col0 k) v
  have w4 : ∀ (M : MatrixXd K 4 (2 * s)) (v : K),
      writeCoeff M 3 (2 * k.val + 1) v = some (setCoeff M 3 (col1 k) v) :=
    fun M v => writeCoeff_of_lt M 3 (col1 k) v
  simp only [Fin.val_zero, Fin.val_one] at r0 r1
  simp only [ElementQ4._BMatrixStepChecked, ElementQ4._BMatrixStep, r0, r1, rN, w0, w1, w2, w3, w4,
    Option.bind_eq_bind, Option.some_bind, Option.pure_def]

/-- The checked evaluation of `ElementQ4::_BMatrix` completes, for every library
routine `inverse`, with the matrix the loop of the source builds. -/
theorem Q4_cached_BMatrixChecked_eq {s : Nat} (inverse : MatrixXd K 2 2 → MatrixXd K 2 2)
    (e : Element K s) (gaussianPt : List (Vector2d K))
    (i : Fin gaussianPt.length) :
    ElementQ4._BMatrixChecked inverse e gaussianPt i
      = some ((List.finRange s).foldl
          (ElementQ4._BMatrixStep e gaussianPt i
            (inverse (e.shape.functionDerivAt gaussianPt i * e.nodeCoord_) * e.shape.functionDerivAt gaussianPt i)) 0) :=
  foldlM_range_eq_some s _ _ (fun B k => Q4_cached_BMatrixStepChecked_eq e gaussianPt i _ B k) 0

/-- Every coefficient access of one pass of the loop of `ElementQ8::BMatrix` is
in range: the checked pass completes with the result of the pass of the
source. -/
theorem Q8_BMatrixStepChecked_eq {s : Nat} (e : Element K s) (point : Vector2d K)
    (globalDeriv : MatrixXd K 2 s) (B : MatrixXd K 4 (2 * s)) (k : Fin s) :
    ElementQ8.BMatrixStepChecked e point globalDeriv B k.val
      = some (ElementQ8.BMatrixStep e point globalDeriv B k) := by
  have r0 := readCoeff_of_lt globalDeriv 0 k
  have r1 := readCoeff_of_lt globalDeriv 1 k
  have rN := readVecCoeff_of_lt (e.shape.functionVec point) k
  have w0 : ∀ (M : MatrixXd K 4 (2 * s)) (v : K),
      writeCoeff M 0 (2 * k.val) v = some (setCoeff M 0 (col0 k) v) :=
    fun M v => writeCoeff_of_lt M 0 (col0 k) v
  have w1 : ∀ (M : MatrixXd K 4 (2 * s)) (v : K),
      writeCoeff M 1 (2 * k.val) v = some (setCoeff M 1 (col0 k) v) :=
    fun M v => writeCoeff_of_lt M 1 (col0 k) v
  have w2 : ∀ (M : MatrixXd K 4 (2 * s)) (v : K),
      writeCoeff M 2 (2 * k.val + 1) v = some (setCoeff M 2 (col1 k) v) :=
    fun M v => writeCoeff_of_lt M 2 (col1 k) v
  have w3 : ∀ (M : MatrixXd K 4 (2 * s)) (v : K),
      writeCoeff M 3 (2 * k.val) v = some (setCoeff M 3 (col0 k) v) :=
    fun M v => writeCoeff_of_lt M 3 (col0 k) v
  have w4 : ∀ (M : MatrixXd K 4 (2 * s)) (v : K),
      writeCoeff M 3 (2 * k.val + 1) v = some (setCoeff M 3 (col1 k) v) :=
    fun M v => writeCoeff_of_lt M 3 (col1 k) v
  simp only [Fin.val_zero, Fin.val_one] at r0 r1
  simp only [ElementQ8.BMatrixStepChecked, ElementQ8.BMatrixStep, r0, r1, rN, w0, w1, w2, w3, w4,
    Option.bind_eq_bind, Option.some_bind, Option.pure_def]

/-- The checked evaluation of `ElementQ8::BMatrix` completes, for every library
routine `inverse`, with the matrix the loop of the source builds. -/
theorem Q8_BMatrixChecked_eq {s : Nat} (inverse : MatrixXd K 2 2 → MatrixXd K 2 2)
    (e : Element K s) (point : Vector2d K) :
    ElementQ8.BMatrixChecked inverse e point
      = some ((List.finRange s).foldl
          (ElementQ8.BMatrixStep e point
            (inverse (e.shape.functionDeriv point * e.nodeCoord_) * e.shape.functionDeriv point)) 0) :=
  foldlM_range_eq_some s _ _ (fun B k => Q8_BMatrixStepChecked_eq e point _ B k) 0

/-- Every coefficient access of one pass of the loop of `ElementQ8::_BMatrix` is
in range: the checked pass completes with the result of the pass of the
source. -/
theorem Q8_cached_BMatrixStepChecked_eq {s : Nat} (e : Element K s) (gaussianPt : List (Vector2d K))
    (i : Fin gaussianPt.length)
    (globalDeriv : MatrixXd K 2 s) (B : MatrixXd K 4 (2 * s)) (k : Fin s) :
    ElementQ8._BMatrixStepChecked e gaussianPt i globalDeriv B k.val
      = some (ElementQ8._BMatrixStep e gaussianPt i globalDeriv B k) := by
  have r0 := readCoeff_of_lt globalDeriv 0 k
  have r1 := readCoeff_of_lt globalDeriv 1 k
  have rN := readVecCoeff_of_lt (e.shape.functionVecAt gaussianPt i) k
  have w0 : ∀ (M : MatrixXd K 4 (2 * s)) (v : K),
      writeCoeff M 0 (2 * k.val) v = some (setCoeff M 0 (col0 k) v) :=
    fun M v => writeCoeff_of_lt M 0 (col0 k) v
  have w1 : ∀ (M : MatrixXd K 4 (2 * s)) (v : K),
      writeCoeff M 1 (2 * k.val) v = some (setCoeff M 1 (col0 k) v) :=
    fun M v => writeCoeff_of_lt M 1 (col0 k) v
  have w2 : ∀ (M : MatrixXd K 4 (2 * s)) (v : K),
      writeCoeff M 2 (2 * k.val + 1) v = some (setCoeff M 2 (col1 k) v) :=
    fun M v => writeCoeff_of_lt M 2 (col1 k) v
  have w3 : ∀ (M : MatrixXd K 4 (2 * s)) (v : K),
      writeCoeff M 3 (2 * k.val) v = some (setCoeff M 3 (col0 k) v) :=
    fun M v => writeCoeff_of_lt M 3 (col0 k) v
  have w4 : ∀ (M : MatrixXd K 4 (2 * s)) (v : K),
      writeCoeff M 3 (2 * k.val + 1) v = some (setCoeff M 3 (col1 k) v) :=
    fun M v => writeCoeff_of_lt M 3 (col1 k) v
  simp only [Fin.val_zero, Fin.val_one] at r0 r1
  simp only [ElementQ8._BMatrixStepChecked, ElementQ8._BMatrixStep, r0, r1, rN, w0, w1, w2, w3, w4,
    Option.bind_eq_bind, Option.some_bind, Option.pure_def]

/-- The checked evaluation of `ElementQ8::_BMatrix` completes, for every library
routine `inverse`, with the matrix the loop of the source builds. -/
theorem Q8_cached_BMatrixChecked_eq {s : Nat} (inverse : MatrixXd K 2 2 → MatrixXd K 2 2)
    (e : Element K s) (gaussianPt : List (Vector2d K))
    (i : Fin gaussianPt.length) :
    ElementQ8._BMatrixChecked inverse e gaussianPt i
      = some ((List.finRange s).foldl
          (ElementQ8._BMatrixStep e gaussianPt i
            (inverse (e.shape.functionDerivAt gaussianPt i * e.nodeCoord_) * e.shape.functionDerivAt gaussianPt i)) 0) :=
  foldlM_range_eq_some s _ _ (fun B k => Q8_cached_BMatrixStepChecked_eq e gaussianPt i _ B k) 0

/-- The index checks are live: a pass of the loop of `ElementQ4::BMatrix` for
a loop variable outside `0 .. size_ - 1` aborts. -/
theorem Q4_BMatrixStepChecked_out_of_range {s : Nat} (e : Element K s) (point : Vector2d K)
    (globalDeriv : MatrixXd K 2 s) (B : MatrixXd K 4 (2 * s)) (n : Nat) (h : s ≤ n) :
    ElementQ4.BMatrixStepChecked e point globalDeriv B n = none := by
  have hn : ¬ n < s := by omega
  simp [ElementQ4.BMatrixStepChecked, readCoeff, hn]

/-- The Jacobian of the collapsed quadrilateral at the centre is singular. -/
theorem collapsedElement_det :
    (collapsedElement.shape.functionDeriv ![0, 0] * collapsedElement.nodeCoord_).det = 0 := by
  rw [Matrix.det_fin_two]
  simp [collapsedElement, bilinearShape, Matrix.mul_apply, Fin.sum_univ_four]

/-- Claim C16 fails as stated: on the quadrilateral collapsed onto the segment
from `(1, 0)` to `(4, 0)` the Jacobian at the centre is singular, and
`BMatrix` and `_BMatrix` of both solid elements, evaluated with Eigen's index
checks, still return a matrix, whatever Eigen's `inverse()` yields for the
singular Jacobian. -/
theorem singular_jacobian_returns :
    (collapsedElement.shape.functionDeriv ![0, 0] * collapsedElement.nodeCoord_).det = 0 ∧
    ∀ inverse : MatrixXd ℚ 2 2 → MatrixXd ℚ 2 2,
      ElementQ4.BMatrixChecked inverse collapsedElement ![0, 0] ≠ none ∧
      ElementQ8.BMatrixChecked inverse collapsedElement ![0, 0] ≠ none ∧
      ElementQ4._BMatrixChecked inverse collapsedElement [![0, 0]] ⟨0, by decide⟩ ≠ none ∧
      ElementQ8._BMatrixChecked inverse collapsedElement [![0, 0]] ⟨0, by decide⟩ ≠ none := by
  refine ⟨collapsedElement_det, fun inverse => ⟨?_, ?_, ?_, ?_⟩⟩
  · rw [Q4_BMatrixChecked_eq]
    exact Option.some_ne_none _
  · rw [Q8_BMatrixChecked_eq]
    exact Option.some_ne_none _
  · rw [Q4_cached_BMatrixChecked_eq]
    exact Option.some_ne_none _
  · rw [Q8_cached_BMatrixChecked_eq]
    exact Option.some_ne_none _

/-- Claim C16, amended.  `BMatrix(point)` and `_BMatrix(i)` of the Q4 and Q8
elements make no singularity check and have no error path: every coefficient
they read or write lies inside its matrix, so for every element, every point,
every Gauss index and every result of Eigen's `inverse()` the call returns
the `4 x (2 * size_)` matrix that the loop builds from
`inverse(functionDeriv * nodeCoord) * functionDeriv`, whether the Jacobian is
singular or not; with the exact inverse of a `2 x 2` matrix this is the
matrix of `BMatrix` and `_BMatrix`. -/
theorem solid_BMatrix_always_returns {n : Nat} (inverse : MatrixXd K 2 2 → MatrixXd K 2 2)
    (e : Element K n) (point : Vector2d K) (gaussianPt : List (Vector2d K))
    (i : Fin gaussianPt.length) :
    (ElementQ4.BMatrixChecked inverse e point = some ((List.finRange n).foldl
        (ElementQ4.BMatrixStep e point (inverse (e.shape.functionDeriv point * e.nodeCoord_) * e.shape.functionDeriv point)) 0) ∧
     ElementQ8.BMatrixChecked inverse e point = some ((List.finRange n).foldl
        (ElementQ8.BMatrixStep e point (inverse (e.shape.functionDeriv point * e.nodeCoord_) * e.shape.functionDeriv point)) 0) ∧
     ElementQ4._BMatrixChecked inverse e gaussianPt i = some ((List.finRange n).foldl
        (ElementQ4._BMatrixStep e gaussianPt i (inverse (e.shape.functionDerivAt gaussianPt i * e.nodeCoord_) * e.shape.functionDerivAt gaussianPt i)) 0) ∧
     ElementQ8._BMatrixChecked inverse e gaussianPt i = some ((List.finRange n).foldl
        (ElementQ8._BMatrixStep e gaussianPt i (inverse (e.shape.functionDerivAt gaussianPt i * e.nodeCoord_) * e.shape.functionDerivAt gaussianPt i)) 0)) ∧
    (ElementQ4.BMatrixChecked inverse2 e point = some (ElementQ4.BMatrix e point) ∧
     ElementQ8.BMatrixChecked inverse2 e point = some (ElementQ8.BMatrix e point) ∧
     ElementQ4._BMatrixChecked inverse2 e gaussianPt i = some (ElementQ4._BMatrix e gaussianPt i) ∧
     ElementQ8._BMatrixChecked inverse2 e gaussianPt i
       = some (ElementQ8._BMatrix e gaussianPt i)) :=
  ⟨⟨Q4_BMatrixChecked_eq inverse e point, Q8_BMatrixChecked_eq inverse e point,
      Q4_cached_BMatrixChecked_eq inverse e gaussianPt i, Q8_cached_BMatrixChecked_eq inverse e gaussianPt i⟩,
    Q4_BMatrixChecked_eq inverse2 e point, Q8_BMatrixChecked_eq inverse2 e point,
    Q4_cached_BMatrixChecked_eq inverse2 e gaussianPt i, Q8_cached_BMatrixChecked_eq inverse2 e gaussianPt i⟩

namespace Node

/-- Claim C17.  The accumulator families of a node are independent:
`setStrainAndStress` changes only `strain_`, `stress_` and `averageCount_`,
`setMembraneStrainAndStress` only `membraneStrain_`, `membraneStress_` and
`averageMembraneCount_`, `setInterfaceStress` only `interfaceStress_` and
`averageInterfaceCount_` (restoring these members gives the node back); each
averaging accessor changes only the accumulator it returns; and none of these
calls changes the index, the coordinates, the displacement or the force. -/
theorem accumulator_families_independent (n : Node K) (s t : VectorXd K 4)
    (ms mt it : VectorXd K 2) :
    { n.setStrainAndStress s t with
        strain_ := n.strain_, stress_ := n.stress_, averageCount_ := n.averageCount_ } = n ∧
    { n.setMembraneStrainAndStress ms mt with
        membraneStrain_ := n.membraneStrain_, membraneStress_ := n.membraneStress_,
        averageMembraneCount_ := n.averageMembraneCount_ } = n ∧
    { n.setInterfaceStress it with
        interfaceStress_ := n.interfaceStress_,
        averageInterfaceCount_ := n.averageInterfaceCount_ } = n ∧
    { n.averageStrain.2 with strain_ := n.strain_ } = n ∧
    { n.averageStress.2 with stress_ := n.stress_ } = n ∧
    { n.averageMembraneStrain.2 with membraneStrain_ := n.membraneStrain_ } = n ∧
    { n.averageMembraneStress.2 with membraneStress_ := n.membraneStress_ } = n ∧
    { n.averageInterfaceStress.2 with interfaceStress_ := n.interfaceStress_ } = n ∧
    (∀ c : Call K, c.isAccumulatorCall = true →
      (step n c).index_ = n.index_ ∧ (step n c).globalCoord_ = n.globalCoord_ ∧
      (step n c).disp_ = n.disp_ ∧ (step n c).force_ = n.force_) := by
  refine ⟨rfl, rfl, rfl, ?_, ?_, ?_, ?_, ?_, ?_⟩
  · rw [averageStrain_snd]
  · rw [averageStress_snd]
  · rw [averageMembraneStrain_snd]
  · rw [averageMembraneStress_snd]
  · rw [averageInterfaceStress_snd]
  · intro c hc
    cases c <;>
      simp [step, setStrainAndStress, setMembraneStrainAndStress, setInterfaceStress,
        averageStrain_snd, averageStress_snd, averageMembraneStrain_snd,
        averageMembraneStress_snd, averageInterfaceStress_snd, Call.isAccumulatorCall] at hc ⊢

end Node

/-- Claim C18.  The modulus cache built by the constructors is shaped by the
anisotropy flag: for a Q4 element (4 Gauss points) or a Q8 element (9 Gauss
points) an isotropic material gives a vector with one entry
`material.modulus()` per Gauss point, and an anisotropic material gives a
matrix with three columns, constant `material.modulusR()`,
`material.modulusZ()` and `material.modulusG()`; a B3 element gets a vector of
three entries `material.modulus()` whatever the flag. -/
theorem modulusAtGaussPt_shape (material : ElasticMaterial K) :
    (material.anisotropy = false →
      ElementQ4.initModulusAtGaussPt material = ⟨4, 1, fun _ _ => material.modulus⟩ ∧
      ElementQ8.initModulusAtGaussPt material = ⟨9, 1, fun _ _ => material.modulus⟩) ∧
    (material.anisotropy = true →
      ElementQ4.initModulusAtGaussPt material
        = ⟨4, 3, fun _ j => ![material.modulusR, material.modulusZ, material.modulusG] j⟩ ∧
      ElementQ8.initModulusAtGaussPt material
        = ⟨9, 3, fun _ j => ![material.modulusR, material.modulusZ, material.modulusG] j⟩) ∧
    ElementB3.initModulusAtGaussPt material = ⟨3, 1, fun _ _ => material.modulus⟩ := by
  refine ⟨fun h => ?_, fun h => ?_, rfl⟩
  · simp [ElementQ4.initModulusAtGaussPt, ElementQ8.initModulusAtGaussPt, h,
      ElementQ4.gaussianPtSize, ElementQ8.gaussianPtSize]
  · have hcol : ∀ (g : Nat), (setCol (setCol (setCol (0 : MatrixXd K g 3) 0
          (fun _ => material.modulusR)) 1 (fun _ => material.modulusZ)) 2
          (fun _ => material.modulusG))
        = fun _ j => ![material.modulusR, material.modulusZ, material.modulusG] j := by
      intro g
      funext a j
      fin_cases j <;> rfl
    simp only [ElementQ4.initModulusAtGaussPt, ElementQ8.initModulusAtGaussPt, h,
      ElementQ4.gaussianPtSize, ElementQ8.gaussianPtSize, Bool.not_true, Bool.false_eq_true,
      if_false, hcol, and_self]

/-! ## ShapeB3: quadrature table and derivatives -/

namespace ShapeB3

/-- The three components of `edgeFunctionDeriv`, read off the loop. -/
theorem edgeFunctionDeriv_eq (point : K) :
    edgeFunctionDeriv point = ![(2 * point - 1) / 2, -(2 : K) * point, (2 * point + 1) / 2] := by
  funext i
  fin_cases i <;> simp [edgeFunctionDeriv, Function.update]

/-- Claim C19.  With the real square root, the B3 quadrature table is the
3-point Gauss-Legendre rule: the points are `-sqrt(0.6), 0, sqrt(0.6)` in
increasing order (with `eta = 0`), the weights are `5/9, 8/9, 5/9` and sum to
2, for every `k` from 0 to 5 the weighted sum of `xi_i ^ k` is the integral of
`xi ^ k` over `[-1, 1]`, and the edge Gauss points and weights are the same
table. -/
theorem gauss_legendre_three_point (cm : CMath ℝ) (hsqrt : cm.sqrt = Real.sqrt) :
    gaussianPt_ cm = [![-Real.sqrt 0.6, 0], ![0, 0], ![Real.sqrt 0.6, 0]] ∧
    (-Real.sqrt 0.6 < 0 ∧ (0 : ℝ) < Real.sqrt 0.6) ∧
    (gaussianWt_ : List ℝ) = [5 / 9, 8 / 9, 5 / 9] ∧
    (gaussianWt_ : List ℝ).sum = 2 ∧
    (∀ k : Nat, k ≤ 5 →
      (List.zipWith (fun w p => w * p 0 ^ k) gaussianWt_ (gaussianPt_ cm)).sum
        = ∫ x in (-1 : ℝ)..1, x ^ k) ∧
    edgeGaussianPt_ cm = (gaussianPt_ cm).map (fun p => p 0) ∧
    (edgeGaussianWt_ : List ℝ) = gaussianWt_ := by
  have hpos : (0 : ℝ) < Real.sqrt 0.6 := Real.sqrt_pos.mpr (by norm_num)
  have hsq : Real.sqrt 0.6 ^ 2 = 0.6 := Real.sq_sqrt (by norm_num)
  have hw : (gaussianWt_ : List ℝ) = [5 / 9, 8 / 9, 5 / 9] := by
    simp only [gaussianWt_]
    norm_num
  have hp : gaussianPt_ cm = [![-Real.sqrt 0.6, 0], ![0, 0], ![Real.sqrt 0.6, 0]] := by
    simp only [gaussianPt_, hsqrt]
  refine ⟨hp, ⟨by linarith, hpos⟩, hw, ?_, ?_, ?_, rfl⟩
  · rw [hw]
    norm_num
  · intro k hk
    rw [hw, hp, integral_pow]
    simp only [List.zipWith_cons_cons, List.zipWith_nil_right, List.sum_cons, List.sum_nil,
      Matrix.cons_val_zero]
    generalize Real.sqrt 0.6 = s at hsq
    interval_cases k
    · norm_num
    · norm_num
    · norm_num
      linear_combination (10 / 9 : ℝ) * hsq
    · norm_num
      ring
    · norm_num
      linear_combination (10 / 9 : ℝ) * (s ^ 2 + 0.6) * hsq
    · norm_num
      ring
  · simp only [edgeGaussianPt_, gaussianPt_, List.map_cons, List.map_nil, Matrix.cons_val_zero]

/-- Claim C19 with the functions of the real numbers as the C library. -/
theorem gauss_legendre_three_point_witness :
    (List.zipWith (fun w p => w * p 0 ^ 4) (gaussianWt_ : List ℝ)
        (gaussianPt_ ⟨Real.sqrt, Real.cos, Real.sin, fun y x => Complex.arg ⟨x, y⟩, Real.pi⟩)).sum
      = ∫ x in (-1 : ℝ)..1, x ^ 4 :=
  (gauss_legendre_three_point
    ⟨Real.sqrt, Real.cos, Real.sin, fun y x => Complex.arg ⟨x, y⟩, Real.pi⟩ rfl).2.2.2.2.1 4
    (by norm_num)

/-- Claim C20.  Over the real numbers, for every `xi` (and `eta`) the entries
of `ShapeB3::functionDeriv((xi, eta))` are the derivatives with respect to
`xi` of the three components of `ShapeB3::functionVec`, the entries of
`ShapeB3::edgeFunctionDeriv(xi)` are the derivatives of the components of
`ShapeB3::edgeFunctionVec`, and in both cases the three derivatives sum to
0. -/
theorem functionDeriv_is_derivative (xi eta : ℝ) :
    (∀ n : Fin 3,
      HasDerivAt (fun x : ℝ => functionVec ![x, eta] n) (functionDeriv ![xi, eta] 0 n) xi) ∧
    (∀ n : Fin 3,
      HasDerivAt (fun x : ℝ => edgeFunctionVec x n) (edgeFunctionDeriv xi n) xi) ∧
    ∑ n, functionDeriv ![xi, eta] 0 n = 0 ∧
    ∑ n, edgeFunctionDeriv xi n = 0 := by
  have h0 : HasDerivAt (fun x : ℝ => x * (x - 1) / 2) ((2 * xi - 1) / 2) xi := by
    have h := ((hasDerivAt_id xi).mul ((hasDerivAt_id xi).sub_const 1)).div_const 2
    convert h using 1
    simp only [id]
    ring
  have h1 : HasDerivAt (fun x : ℝ => 1 - x * x) (-(2 : ℝ) * xi) xi := by
    have h := ((hasDerivAt_id xi).mul (hasDerivAt_id xi)).const_sub 1
    convert h using 1
    simp only [id]
    ring
  have h2 : HasDerivAt (fun x : ℝ => x * (x + 1) / 2) ((2 * xi + 1) / 2) xi := by
    have h := ((hasDerivAt_id xi).mul ((hasDerivAt_id xi).add_const 1)).div_const 2
    convert h using 1
    simp only [id]
    ring
  have h0e : HasDerivAt (fun x : ℝ => (-x) * (1 - x) / 2) ((2 * xi - 1) / 2) xi := by
    have h := (((hasDerivAt_id xi).neg).mul ((hasDerivAt_id xi).const_sub 1)).div_const 2
    convert h using 1
    simp only [id]
    ring
  have h2e : HasDerivAt (fun x : ℝ => x * (1 + x) / 2) ((2 * xi + 1) / 2) xi := by
    have h := ((hasDerivAt_id xi).mul ((hasDerivAt_id xi).const_add 1)).div_const 2
    convert h using 1
    simp only [id]
    ring
  refine ⟨?_, ?_, ?_, ?_⟩
  · intro n
    fin_cases n
    · simpa [functionVec, functionDeriv] using h0
    · simpa [functionVec, functionDeriv] using h1
    · simpa [functionVec, functionDeriv] using h2
  · intro n
    simp only [edgeFunctionVec_eq, edgeFunctionDeriv_eq]
    fin_cases n
    · simpa using h0e
    · simpa using h1
    · simpa using h2e
  · simp only [functionDeriv, Fin.sum_univ_three, Matrix.of_apply, Matrix.cons_val',
      Matrix.cons_val_zero, Matrix.cons_val_one, Matrix.head_cons, Matrix.cons_val_two,
      Matrix.tail_cons, Matrix.empty_val', Matrix.cons_val_fin_one]
    ring
  · rw [edgeFunctionDeriv_eq]
    simp only [Fin.sum_univ_three, Matrix.cons_val_zero, Matrix.cons_val_one,
      Matrix.head_cons, Matrix.cons_val_two, Matrix.tail_cons]
    ring

end ShapeB3

/-! ## Interface element: index safety of the constructor -/

/-- A monadic loop in `Option` fails as soon as one of its passes fails
whatever the accumulated value is. -/
theorem foldlM_eq_none_of_mem {α β : Type} (f : β → α → Option β) (l : List α) (a : α)
    (ha : a ∈ l) (h : ∀ b, f b a = none) (b0 : β) : l.foldlM f b0 = none := by
  induction l generalizing b0 with
  | nil => simp at ha
  | cons x xs ih =>
    rw [List.foldlM_cons]
    rcases List.mem_cons.mp ha with hax | hax
    · subst hax
      simp [h]
    · cases hx : f b0 x with
      | none => rfl
      | some b1 => exact ih hax b1

namespace ElementI6

/-- Claim C22.  Index safety of the constructor of `ElementI6`: for a node
list of 6 entries every write `B_(n, n)` and `B_(n, n + 6)`, `n < 6`, lies
inside the `6 x 12` matrix and the constructor loop completes; for every
length `s ≥ 1` other than 6 there is an `n < s` for which one of the two
writes is outside the `6 x (2 * s)` matrix, and the loop does not complete. -/
theorem constructor_index_safety :
    (∀ (B : MatrixXd K 6 (2 * 6)) (n : Nat), n < 6 →
      (writeCoeff B n n (-1)).isSome = true ∧ (writeCoeff B n (n + 6) 1).isSome = true) ∧
    (initB 6 : Option (MatrixXd K 6 (2 * 6))).isSome = true ∧
    (∀ s : Nat, 1 ≤ s → s ≠ 6 →
      (∃ n : Nat, n < s ∧ ∀ B : MatrixXd K 6 (2 * s),
        writeCoeff B n n (-1) = none ∨ writeCoeff B n (n + 6) 1 = none) ∧
      (initB s : Option (MatrixXd K 6 (2 * s))) = none) := by
  refine ⟨?_, ?_, ?_⟩
  · intro B n hn
    have h1 : n < 6 ∧ n < 2 * 6 := ⟨hn, by omega⟩
    have h2 : n < 6 ∧ n + 6 < 2 * 6 := ⟨hn, by omega⟩
    simp [writeCoeff, h1, h2]
  · rw [initB_of_eq_six 6 rfl]
    rfl
  · intro s hs hne
    have key : ∃ n : Nat, n < s ∧ ∀ B : MatrixXd K 6 (2 * s),
        writeCoeff B n n (-1) = none ∨ writeCoeff B n (n + 6) 1 = none := by
      by_cases h : s < 6
      · refine ⟨s - 1, by omega, fun B => Or.inr ?_⟩
        have hb : ¬ (s - 1 < 6 ∧ s - 1 + 6 < 2 * s) := by omega
        simp [writeCoeff, hb]
      · refine ⟨6, by omega, fun B => Or.inl ?_⟩
        simp [writeCoeff]
    refine ⟨key, ?_⟩
    obtain ⟨n, hn, hbad⟩ := key
    apply foldlM_eq_none_of_mem _ _ n (List.mem_range.mpr hn)
    intro B
    rcases hbad B with h1 | h1
    · simp [h1]
    · cases hw : writeCoeff B n n (-1) with
      | none => rfl
      | some B1 =>
        have h2 : writeCoeff B1 n (n + 6) 1 = none := by
          rcases (show ¬ (n < 6 ∧ n + 6 < 2 * s) by
            intro hc
            simp [writeCoeff, hc] at h1) with hb
          simp [writeCoeff, hb]
        simp [h2]

end ElementI6

namespace Geosynthetic

/-- Claim C23.  For every properties list of length at least 5 the
constructor of `Geosynthetic` succeeds and reads the list in the order
`[M, v, t, ks, kn]`: `getInterfaceShearStiffness()` returns `properties[3]`,
`getInterfaceNormalStiffness()` returns `properties[4]`, the body-force and
thermal-strain vectors are the zero 2-vectors, and `E_` is the same for any
other construction whose list has the same entries 0, 1 and 2. -/
theorem constructor_reads_properties (anisotropy nonlinearity noTension geosynthetic : Bool)
    (properties : List K) (h : 5 ≤ properties.length) :
    ∃ g : Geosynthetic K,
      new anisotropy nonlinearity noTension geosynthetic properties = some g ∧
      some g.getInterfaceShearStiffness = properties[3]? ∧
      some g.getInterfaceNormalStiffness = properties[4]? ∧
      g.bodyForce_ = 0 ∧ g.thermalStrain_ = 0 ∧
      ∀ (a1 b1 c1 d1 : Bool) (properties1 : List K) (g1 : Geosynthetic K),
        new a1 b1 c1 d1 properties1 = some g1 →
        properties1[0]? = properties[0]? → properties1[1]? = properties[1]? →
        properties1[2]? = properties[2]? → g1.E_ = g.E_ := by
  match properties, h with
  | M :: v :: t :: ks :: kn :: rest, _ =>
    have hnew : new anisotropy nonlinearity noTension geosynthetic (M :: v :: t :: ks :: kn :: rest)
        = some
          { anisotropy := anisotropy
            nonlinearity := nonlinearity
            noTension := noTension
            geosynthetic := geosynthetic
            M_ := M
            v_ := v
            t_ := t
            ks_ := ks
            kn_ := kn
            E_ := fun i j => (!![1, v; v, 1] : MatrixXd K 2 2) i j * M * t / (1 - v * v)
            bodyForce_ := ![0, 0]
            thermalStrain_ := ![0, 0] } := by
      simp only [new, List.getElem?_cons_zero, List.getElem?_cons_succ, Option.bind_eq_bind,
        Option.some_bind, Option.pure_def]
    refine ⟨_, hnew, by simp [getInterfaceShearStiffness],
      by simp [getInterfaceNormalStiffness], ?_, ?_, ?_⟩
    · funext i
      fin_cases i <;> rfl
    · funext i
      fin_cases i <;> rfl
    · intro a1 b1 c1 d1 properties1 g1 hg1 h0 h1 h2
      match properties1, hg1 with
      | [], hg => simp [new] at hg
      | [_], hg => simp [new] at hg
      | [_, _], hg => simp [new] at hg
      | [_, _, _], hg => simp [new] at hg
      | [_, _, _, _], hg => simp [new] at hg
      | M1 :: v1 :: t1 :: ks1 :: kn1 :: rest1, hg =>
        simp only [List.getElem?_cons_zero, List.getElem?_cons_succ, Option.some.injEq] at h0 h1 h2
        subst h0 h1 h2
        simp only [new, List.getElem?_cons_zero, List.getElem?_cons_succ, Option.bind_eq_bind,
          Option.some_bind, Option.pure_def, Option.some.injEq] at hg
        rw [← hg]

/-- Claim C23 at a concrete list of six properties over `ℚ`. -/
theorem constructor_reads_properties_witness :
    ∃ g : Geosynthetic ℚ,
      new false false false true [1000, 3 / 10, 1 / 100, 5, 7, 11] = some g ∧
      g.getInterfaceShearStiffness = 5 ∧ g.getInterfaceNormalStiffness = 7 := by
  obtain ⟨g, hg, hs, hn, _⟩ :=
    constructor_reads_properties false false false true
      ([1000, 3 / 10, 1 / 100, 5, 7, 11] : List ℚ) (by decide)
  refine ⟨g, hg, ?_, ?_⟩
  · simpa using hs
  · simpa using hn

end Geosynthetic

namespace ShapeB3

/-- Claim C24.  Nodal interpolation: the table `nodeCoord_` holds the natural
coordinates `xi = -1, 0, 1` of the local nodes 0, 1, 2, and
`ShapeB3::functionVec` evaluated at the coordinate of local node `j` is 1 in
entry `j` and 0 in the other two entries. -/
theorem functionVec_at_nodes :
    (nodeCoord_ : List (Vector2d K)).map (fun p => p 0) = [-1, 0, 1] ∧
    ∀ j i : Fin 3,
      functionVec ((nodeCoord_ : List (Vector2d K)).get ⟨j.val, j.isLt⟩) i
        = if i = j then 1 else 0 := by
  refine ⟨by simp [nodeCoord_], ?_⟩
  intro j i
  fin_cases j <;> fin_cases i <;> simp [nodeCoord_, functionVec]

end ShapeB3

namespace Node

/-- The members `Node::operator=` does copy. -/
theorem assign_copied (a b : Node K) :
    (assign a b).index_ = b.index_ ∧ (assign a b).globalCoord_ = b.globalCoord_ ∧
    (assign a b).disp_ = b.disp_ ∧ (assign a b).force_ = b.force_ ∧
    (assign a b).strain_ = b.strain_ ∧ (assign a b).stress_ = b.stress_ ∧
    (assign a b).averageCount_ = b.averageCount_ ∧
    (assign a b).averageStrain.1 = b.averageStrain.1 ∧
    (assign a b).averageStress.1 = b.averageStress.1 := by
  refine ⟨rfl, rfl, rfl, rfl, rfl, rfl, rfl, ?_, ?_⟩
  · simp only [averageStrain, assign, copy_, clear_]
    split_ifs <;> rfl
  · simp only [averageStress, assign, copy_, clear_]
    split_ifs <;> rfl

/-- The members `Node::operator=` leaves as they were in the target. -/
theorem assign_kept {α : Type} (a b : Node α) :
    (assign a b).membraneStrain_ = a.membraneStrain_ ∧
    (assign a b).membraneStress_ = a.membraneStress_ ∧
    (assign a b).averageMembraneCount_ = a.averageMembraneCount_ ∧
    (assign a b).interfaceStress_ = a.interfaceStress_ ∧
    (assign a b).averageInterfaceCount_ = a.averageInterfaceCount_ :=
  ⟨rfl, rfl, rfl, rfl, rfl⟩

/-- Claim C27 at a failing input.  Let `a = Node(0, 0, 0)` and let `b` be
`Node(1, 1, 1)` after `setMembraneStrainAndStress((1, 2), (3, 4))` and
`setInterfaceStress((5, 6))`.  After `a = b` the membrane and interface
members of `a` are still those of the fresh node: `averageMembraneStrain()`,
`averageMembraneStress()` and `averageInterfaceStress()` return zero on `a`
and `(1, 2)`, `(3, 4)`, `(5, 6)` on `b`. -/
theorem assign_drops_membrane_and_interface :
    ((assign (new 0 (0 : ℚ) 0)
        (((new 1 (1 : ℚ) 1).setMembraneStrainAndStress ![1, 2] ![3, 4]).setInterfaceStress
          ![5, 6])).averageMembraneStrain.1 = 0 ∧
      (((new 1 (1 : ℚ) 1).setMembraneStrainAndStress ![1, 2] ![3, 4]).setInterfaceStress
          ![5, 6]).averageMembraneStrain.1 = ![1, 2]) ∧
    ((assign (new 0 (0 : ℚ) 0)
        (((new 1 (1 : ℚ) 1).setMembraneStrainAndStress ![1, 2] ![3, 4]).setInterfaceStress
          ![5, 6])).averageMembraneStress.1 = 0 ∧
      (((new 1 (1 : ℚ) 1).setMembraneStrainAndStress ![1, 2] ![3, 4]).setInterfaceStress
          ![5, 6]).averageMembraneStress.1 = ![3, 4]) ∧
    ((assign (new 0 (0 : ℚ) 0)
        (((new 1 (1 : ℚ) 1).setMembraneStrainAndStress ![1, 2] ![3, 4]).setInterfaceStress
          ![5, 6])).averageInterfaceStress.1 = 0 ∧
      (((new 1 (1 : ℚ) 1).setMembraneStrainAndStress ![1, 2] ![3, 4]).setInterfaceStress
          ![5, 6]).averageInterfaceStress.1 = ![5, 6]) ∧
    (assign (new 0 (0 : ℚ) 0)
        (((new 1 (1 : ℚ) 1).setMembraneStrainAndStress ![1, 2] ![3, 4]).setInterfaceStress
          ![5, 6])).averageMembraneCount_ = 0 := by
  refine ⟨⟨rfl, ?_⟩, ⟨rfl, ?_⟩, ⟨rfl, ?_⟩, rfl⟩
  · funext i
    fin_cases i <;>
      simp [averageMembraneStrain, setMembraneStrainAndStress, setInterfaceStress, new, divInt]
  · funext i
    fin_cases i <;>
      simp [averageMembraneStress, setMembraneStrainAndStress, setInterfaceStress, new, divInt]
  · funext i
    fin_cases i <;>
      simp [averageInterfaceStress, setMembraneStrainAndStress, setInterfaceStress, new, divInt]

end Node

/-! ## Bar element: axial stretch and the isoparametric Jacobian -/

namespace ElementB3

/-- Row 0 of `ElementB3::BMatrix` applied to the displacements of an axial
stretch. -/
theorem axial_row_stretch (cm : CMath K) (e : ElementB3 K) (point : Vector2d K) (c : K)
    (s : Fin 3 → K) :
    (BMatrix cm e point).mulVec (stretchDisp cm e c s) 0
      = c * (cm.cos (_angle cm e) ^ 2 + cm.sin (_angle cm e) ^ 2)
          * ∑ n, ShapeB3.functionDeriv point 0 n * s n := by
  have hu0 : ∀ n : Fin 3, stretchDisp cm e c s (col0 n) = c * s n * cm.cos (_angle cm e) := by
    intro n
    show c * s (blockOf (col0 n)) * (if (col0 n).val % 2 = 0 then _ else _) = _
    rw [blockOf_col0]
    simp [col0]
  have hu1 : ∀ n : Fin 3, stretchDisp cm e c s (col1 n) = c * s n * cm.sin (_angle cm e) := by
    intro n
    show c * s (blockOf (col1 n)) * (if (col1 n).val % 2 = 0 then _ else _) = _
    rw [blockOf_col1]
    simp [col1, Nat.add_mod]
  simp only [Matrix.mulVec, Matrix.dotProduct]
  rw [sum_columns]
  simp only [(B3_BMatrix_coeff cm e point _).1, (B3_BMatrix_coeff cm e point _).2.1, hu0, hu1,
    Fin.sum_univ_three]
  ring

/-- Claim C21 fails as stated.  Take the straight element with nodes `(1, 2)`,
`(4, 6)`, `(7, 10)` (node 1 is the midpoint, the nodes lie at distances 0, 5,
10 from node 0) and the unit axial strain: row 0 of `BMatrix` at the centre
applied to the stretch displacements is 5, not the strain 1. -/
theorem axial_row_not_strain :
    (BMatrix (⟨Real.sqrt, Real.cos, Real.sin, fun y x => Complex.arg ⟨x, y⟩, Real.pi⟩ : CMath ℝ)
        (⟨!![1, 2; 4, 6; 7, 10], fun _ => 4⟩ : ElementB3 ℝ) ![0, 0]).mulVec
      (stretchDisp (⟨Real.sqrt, Real.cos, Real.sin, fun y x => Complex.arg ⟨x, y⟩, Real.pi⟩ :
          CMath ℝ) (⟨!![1, 2; 4, 6; 7, 10], fun _ => 4⟩ : ElementB3 ℝ) 1 ![0, 5, 10]) 0 = 5 ∧
    (5 : ℝ) ≠ 1 := by
  refine ⟨?_, by norm_num⟩
  rw [axial_row_stretch]
  simp only [Real.cos_sq_add_sin_sq, Fin.sum_univ_three, ShapeB3.functionDeriv, Matrix.of_apply,
    Matrix.cons_val', Matrix.cons_val_zero, Matrix.cons_val_one, Matrix.head_cons,
    Matrix.cons_val_two, Matrix.tail_cons, Matrix.empty_val', Matrix.cons_val_fin_one]
  norm_num

/-- Claim C21, amended.  Over the real numbers, with the real cosine, sine and
square root: for every B3 element whose node 1 is the midpoint of nodes 0 and
2, every strain value `c` and every point, if the nodal displacements are
those of a uniform axial stretch, `(u_n, v_n) = c * s_n * (cos alpha, sin
alpha)` with `s_n` the distance of node `n` from node 0, then row 0 of
`ElementB3::BMatrix(point)` times the displacement vector is `c * L / 2`, the
strain times the Jacobian determinant `L / 2`; it is the strain `c` itself
when the element has length `L = 2`. -/
theorem axial_row_eq_strain_times_half_length (cm : CMath ℝ) (hcos : cm.cos = Real.cos)
    (hsin : cm.sin = Real.sin) (hsqrt : cm.sqrt = Real.sqrt) (e : ElementB3 ℝ)
    (hmid : ∀ j, e.nodeCoord_ 1 j = (e.nodeCoord_ 0 j + e.nodeCoord_ 2 j) / 2) (c : ℝ)
    (point : Vector2d ℝ) :
    (BMatrix cm e point).mulVec
        (stretchDisp cm e c fun n =>
          Real.sqrt ((e.nodeCoord_ n 0 - e.nodeCoord_ 0 0) ^ 2
            + (e.nodeCoord_ n 1 - e.nodeCoord_ 0 1) ^ 2)) 0
      = c * (_length cm e / 2) ∧
    (_length cm e = 2 →
      (BMatrix cm e point).mulVec
        (stretchDisp cm e c fun n =>
          Real.sqrt ((e.nodeCoord_ n 0 - e.nodeCoord_ 0 0) ^ 2
            + (e.nodeCoord_ n 1 - e.nodeCoord_ 0 1) ^ 2)) 0 = c) := by
  have hS : (0 : ℝ) ≤ (e.nodeCoord_ 2 0 - e.nodeCoord_ 0 0) ^ 2
      + (e.nodeCoord_ 2 1 - e.nodeCoord_ 0 1) ^ 2 := by positivity
  have hL : _length cm e = Real.sqrt ((e.nodeCoord_ 2 0 - e.nodeCoord_ 0 0) ^ 2
      + (e.nodeCoord_ 2 1 - e.nodeCoord_ 0 1) ^ 2) := by
    simp only [_length, hsqrt]
    rw [add_comm]
  have h0 : Real.sqrt ((e.nodeCoord_ 0 0 - e.nodeCoord_ 0 0) ^ 2
      + (e.nodeCoord_ 0 1 - e.nodeCoord_ 0 1) ^ 2) = 0 := by
    simp
  have h1 : Real.sqrt ((e.nodeCoord_ 1 0 - e.nodeCoord_ 0 0) ^ 2
      + (e.nodeCoord_ 1 1 - e.nodeCoord_ 0 1) ^ 2) = _length cm e / 2 := by
    rw [hL, hmid 0, hmid 1]
    have h4 : (((e.nodeCoord_ 0 0 + e.nodeCoord_ 2 0) / 2 - e.nodeCoord_ 0 0) ^ 2
        + ((e.nodeCoord_ 0 1 + e.nodeCoord_ 2 1) / 2 - e.nodeCoord_ 0 1) ^ 2)
        = (Real.sqrt ((e.nodeCoord_ 2 0 - e.nodeCoord_ 0 0) ^ 2
            + (e.nodeCoord_ 2 1 - e.nodeCoord_ 0 1) ^ 2) / 2) ^ 2 := by
      rw [div_pow, Real.sq_sqrt hS]
      ring
    rw [h4, Real.sqrt_sq (by positivity)]
  have key : (BMatrix cm e point).mulVec
        (stretchDisp cm e c fun n =>
          Real.sqrt ((e.nodeCoord_ n 0 - e.nodeCoord_ 0 0) ^ 2
            + (e.nodeCoord_ n 1 - e.nodeCoord_ 0 1) ^ 2)) 0
      = c * (_length cm e / 2) := by
    rw [axial_row_stretch, hcos, hsin, Real.cos_sq_add_sin_sq, Fin.sum_univ_three, h0, h1, ← hL]
    simp only [ShapeB3.functionDeriv, Matrix.of_apply, Matrix.cons_val', Matrix.cons_val_zero,
      Matrix.cons_val_one, Matrix.head_cons, Matrix.cons_val_two, Matrix.tail_cons,
      Matrix.empty_val', Matrix.cons_val_fin_one]
    ring
  refine ⟨key, fun h2 => ?_⟩
  rw [key, h2]
  norm_num

/-- Claim C21, amended, at a concrete element: nodes `(1, 2)`, `(4, 6)`,
`(7, 10)` and strain 3. -/
theorem axial_row_eq_strain_times_half_length_witness :
    (BMatrix (⟨Real.sqrt, Real.cos, Real.sin, fun y x => Complex.arg ⟨x, y⟩, Real.pi⟩ : CMath ℝ)
        (⟨!![1, 2; 4, 6; 7, 10], fun _ => 4⟩ : ElementB3 ℝ) ![0, 0]).mulVec
      (stretchDisp (⟨Real.sqrt, Real.cos, Real.sin, fun y x => Complex.arg ⟨x, y⟩, Real.pi⟩ :
          CMath ℝ) (⟨!![1, 2; 4, 6; 7, 10], fun _ => 4⟩ : ElementB3 ℝ) 3 fun n =>
        Real.sqrt (((!![1, 2; 4, 6; 7, 10] : MatrixXd ℝ 3 2) n 0 - 1) ^ 2
          + ((!![1, 2; 4, 6; 7, 10] : MatrixXd ℝ 3 2) n 1 - 2) ^ 2)) 0
      = 3 * (_length (⟨Real.sqrt, Real.cos, Real.sin, fun y x => Complex.arg ⟨x, y⟩, Real.pi⟩ :
          CMath ℝ) (⟨!![1, 2; 4, 6; 7, 10], fun _ => 4⟩ : ElementB3 ℝ) / 2) :=
  (axial_row_eq_strain_times_half_length
    (⟨Real.sqrt, Real.cos, Real.sin, fun y x => Complex.arg ⟨x, y⟩, Real.pi⟩ : CMath ℝ) rfl rfl rfl
    (⟨!![1, 2; 4, 6; 7, 10], fun _ => 4⟩ : ElementB3 ℝ)
    (by
      intro j
      fin_cases j <;> simp <;> norm_num) 3 ![0, 0]).1

/-- Claim C25.  Over the real numbers, with the real square root: for every
B3 element whose local node 1 is the midpoint of local nodes 0 and 2 and for
every point `xi`, `ElementB3::_jacobianDet`, which is `L / 2`, equals the
isoparametric value `sqrt((sum_n dN_n/dxi * r_n)^2 + (sum_n dN_n/dxi * z_n)^2)`
with `dN/dxi` from `ShapeB3::functionDeriv`. -/
theorem jacobianDet_eq_isoparametric (cm : CMath ℝ) (hsqrt : cm.sqrt = Real.sqrt)
    (e : ElementB3 ℝ)
    (hmid : ∀ j, e.nodeCoord_ 1 j = (e.nodeCoord_ 0 j + e.nodeCoord_ 2 j) / 2)
    (point : Vector2d ℝ) (i : Int) :
    _jacobianDet cm e i = _length cm e / 2 ∧
    _jacobianDet cm e i
      = Real.sqrt ((∑ n, ShapeB3.functionDeriv point 0 n * e.nodeCoord_ n 0) ^ 2
          + (∑ n, ShapeB3.functionDeriv point 0 n * e.nodeCoord_ n 1) ^ 2) := by
  refine ⟨rfl, ?_⟩
  have hS : (0 : ℝ) ≤ (e.nodeCoord_ 2 1 - e.nodeCoord_ 0 1) ^ 2
      + (e.nodeCoord_ 2 0 - e.nodeCoord_ 0 0) ^ 2 := by positivity
  have hsum : ∀ j, ∑ n, ShapeB3.functionDeriv point 0 n * e.nodeCoord_ n j
      = (e.nodeCoord_ 2 j - e.nodeCoord_ 0 j) / 2 := by
    intro j
    rw [Fin.sum_univ_three, hmid j]
    simp only [ShapeB3.functionDeriv, Matrix.of_apply, Matrix.cons_val', Matrix.cons_val_zero,
      Matrix.cons_val_one, Matrix.head_cons, Matrix.cons_val_two, Matrix.tail_cons,
      Matrix.empty_val', Matrix.cons_val_fin_one]
    ring
  rw [hsum 0, hsum 1]
  simp only [_jacobianDet, _length, hsqrt]
  have h4 : ((e.nodeCoord_ 2 0 - e.nodeCoord_ 0 0) / 2) ^ 2
      + ((e.nodeCoord_ 2 1 - e.nodeCoord_ 0 1) / 2) ^ 2
      = (Real.sqrt ((e.nodeCoord_ 2 1 - e.nodeCoord_ 0 1) ^ 2
          + (e.nodeCoord_ 2 0 - e.nodeCoord_ 0 0) ^ 2) / 2) ^ 2 := by
    linear_combination (-(1 / 4 : ℝ)) * Real.sq_sqrt hS
  rw [h4, Real.sqrt_sq (by positivity)]

/-- Claim C25 at a concrete element over `ℝ`: nodes `(1, 2)`, `(4, 6)`,
`(7, 10)`. -/
theorem jacobianDet_eq_isoparametric_witness :
    _jacobianDet (⟨Real.sqrt, Real.cos, Real.sin, fun y x => Complex.arg ⟨x, y⟩, Real.pi⟩ : CMath ℝ)
        (⟨!![1, 2; 4, 6; 7, 10], fun _ => 4⟩ : ElementB3 ℝ) 0
      = Real.sqrt ((∑ n, ShapeB3.functionDeriv ![1 / 3, 0] 0 n
            * (!![1, 2; 4, 6; 7, 10] : MatrixXd ℝ 3 2) n 0) ^ 2
          + (∑ n, ShapeB3.functionDeriv ![1 / 3, 0] 0 n
            * (!![1, 2; 4, 6; 7, 10] : MatrixXd ℝ 3 2) n 1) ^ 2) :=
  (jacobianDet_eq_isoparametric
    (⟨Real.sqrt, Real.cos, Real.sin, fun y x => Complex.arg ⟨x, y⟩, Real.pi⟩ : CMath ℝ) rfl
    (⟨!![1, 2; 4, 6; 7, 10], fun _ => 4⟩ : ElementB3 ℝ)
    (by
      intro j
      fin_cases j <;> simp <;> norm_num) ![1 / 3, 0] 0).2

end ElementB3

/-! ## Interface element: Simpson weights and the stiffness blocks -/

/-- The length of a plane vector times the cosine of its argument is its first
component. -/
theorem sqrt_mul_cos_arg (x y : ℝ) :
    Real.sqrt (x ^ 2 + y ^ 2) * Real.cos (Complex.arg ⟨x, y⟩) = x := by
  by_cases h : (⟨x, y⟩ : ℂ) = 0
  · have hx : x = 0 := by simpa using congrArg Complex.re h
    have hy : y = 0 := by simpa using congrArg Complex.im h
    subst hx hy
    simp
  · have habs : Complex.abs ⟨x, y⟩ = Real.sqrt (x ^ 2 + y ^ 2) := by
      rw [Complex.abs_apply, Complex.normSq_mk]
      congr 1
      ring
    have hne : Real.sqrt (x ^ 2 + y ^ 2) ≠ 0 := by
      rw [← habs]
      exact (map_ne_zero Complex.abs).mpr h
    rw [Complex.cos_arg h, habs]
    simp only []
    field_simp

namespace ElementI6

/-- The value of `ElementI6::EMatrix` for an element with at least three
nodes. -/
theorem EMatrix_value {s g : Nat} (cm : CMath K) (e : ElementI6 K s)
    (modulus : VectorXd K g) (hs : 3 ≤ s) :
    e.EMatrix cm modulus
      = some (Matrix.diagonal
        ![cm.M_PI * cm.sqrt ((e.nodeCoord_ ⟨2, by omega⟩ 0 - e.nodeCoord_ ⟨0, by omega⟩ 0) ^ 2
              + (e.nodeCoord_ ⟨2, by omega⟩ 1 - e.nodeCoord_ ⟨0, by omega⟩ 1) ^ 2) / 3
            * ((e.nodeCoord_ ⟨0, by omega⟩ 0 + e.nodeCoord_ ⟨1, by omega⟩ 0
                  + e.nodeCoord_ ⟨2, by omega⟩ 0) / 3
                - cm.sqrt ((e.nodeCoord_ ⟨2, by omega⟩ 0 - e.nodeCoord_ ⟨0, by omega⟩ 0) ^ 2
                    + (e.nodeCoord_ ⟨2, by omega⟩ 1 - e.nodeCoord_ ⟨0, by omega⟩ 1) ^ 2) / 2
                  * cm.cos (cm.atan2 (e.nodeCoord_ ⟨2, by omega⟩ 1 - e.nodeCoord_ ⟨0, by omega⟩ 1)
                      (e.nodeCoord_ ⟨2, by omega⟩ 0 - e.nodeCoord_ ⟨0, by omega⟩ 0)))
            * e.material_.getInterfaceShearStiffness,
          cm.M_PI * cm.sqrt ((e.nodeCoord_ ⟨2, by omega⟩ 0 - e.nodeCoord_ ⟨0, by omega⟩ 0) ^ 2
              + (e.nodeCoord_ ⟨2, by omega⟩ 1 - e.nodeCoord_ ⟨0, by omega⟩ 1) ^ 2) / 3
            * ((e.nodeCoord_ ⟨0, by omega⟩ 0 + e.nodeCoord_ ⟨1, by omega⟩ 0
                  + e.nodeCoord_ ⟨2, by omega⟩ 0) / 3
                - cm.sqrt ((e.nodeCoord_ ⟨2, by omega⟩ 0 - e.nodeCoord_ ⟨0, by omega⟩ 0) ^ 2
                    + (e.nodeCoord_ ⟨2, by omega⟩ 1 - e.nodeCoord_ ⟨0, by omega⟩ 1) ^ 2) / 2
                  * cm.cos (cm.atan2 (e.nodeCoord_ ⟨2, by omega⟩ 1 - e.nodeCoord_ ⟨0, by omega⟩ 1)
                      (e.nodeCoord_ ⟨2, by omega⟩ 0 - e.nodeCoord_ ⟨0, by omega⟩ 0)))
            * e.material_.getInterfaceNormalStiffness,
          cm.M_PI * cm.sqrt ((e.nodeCoord_ ⟨2, by omega⟩ 0 - e.nodeCoord_ ⟨0, by omega⟩ 0) ^ 2
              + (e.nodeCoord_ ⟨2, by omega⟩ 1 - e.nodeCoord_ ⟨0, by omega⟩ 1) ^ 2) * 4 / 3
            * ((e.nodeCoord_ ⟨0, by omega⟩ 0 + e.nodeCoord_ ⟨1, by omega⟩ 0
                  + e.nodeCoord_ ⟨2, by omega⟩ 0) / 3)
            * e.material_.getInterfaceShearStiffness,
          cm.M_PI * cm.sqrt ((e.nodeCoord_ ⟨2, by omega⟩ 0 - e.nodeCoord_ ⟨0, by omega⟩ 0) ^ 2
              + (e.nodeCoord_ ⟨2, by omega⟩ 1 - e.nodeCoord_ ⟨0, by omega⟩ 1) ^ 2) * 4 / 3
            * ((e.nodeCoord_ ⟨0, by omega⟩ 0 + e.nodeCoord_ ⟨1, by omega⟩ 0
                  + e.nodeCoord_ ⟨2, by omega⟩ 0) / 3)
            * e.material_.getInterfaceNormalStiffness,
          cm.M_PI * cm.sqrt ((e.nodeCoord_ ⟨2, by omega⟩ 0 - e.nodeCoord_ ⟨0, by omega⟩ 0) ^ 2
              + (e.nodeCoord_ ⟨2, by omega⟩ 1 - e.nodeCoord_ ⟨0, by omega⟩ 1) ^ 2) / 3
            * ((e.nodeCoord_ ⟨0, by omega⟩ 0 + e.nodeCoord_ ⟨1, by omega⟩ 0
                  + e.nodeCoord_ ⟨2, by omega⟩ 0) / 3
                + cm.sqrt ((e.nodeCoord_ ⟨2, by omega⟩ 0 - e.nodeCoord_ ⟨0, by omega⟩ 0) ^ 2
                    + (e.nodeCoord_ ⟨2, by omega⟩ 1 - e.nodeCoord_ ⟨0, by omega⟩ 1) ^ 2) / 2
                  * cm.cos (cm.atan2 (e.nodeCoord_ ⟨2, by omega⟩ 1 - e.nodeCoord_ ⟨0, by omega⟩ 1)
                      (e.nodeCoord_ ⟨2, by omega⟩ 0 - e.nodeCoord_ ⟨0, by omega⟩ 0)))
            * e.material_.getInterfaceShearStiffness,
          cm.M_PI * cm.sqrt ((e.nodeCoord_ ⟨2, by omega⟩ 0 - e.nodeCoord_ ⟨0, by omega⟩ 0) ^ 2
              + (e.nodeCoord_ ⟨2, by omega⟩ 1 - e.nodeCoord_ ⟨0, by omega⟩ 1) ^ 2) / 3
            * ((e.nodeCoord_ ⟨0, by omega⟩ 0 + e.nodeCoord_ ⟨1, by omega⟩ 0
                  + e.nodeCoord_ ⟨2, by omega⟩ 0) / 3
                + cm.sqrt ((e.nodeCoord_ ⟨2, by omega⟩ 0 - e.nodeCoord_ ⟨0, by omega⟩ 0) ^ 2
                    + (e.nodeCoord_ ⟨2, by omega⟩ 1 - e.nodeCoord_ ⟨0, by omega⟩ 1) ^ 2) / 2
                  * cm.cos (cm.atan2 (e.nodeCoord_ ⟨2, by omega⟩ 1 - e.nodeCoord_ ⟨0, by omega⟩ 1)
                      (e.nodeCoord_ ⟨2, by omega⟩ 0 - e.nodeCoord_ ⟨0, by omega⟩ 0)))
            * e.material_.getInterfaceNormalStiffness]) := by
  have h0 : 0 < s := by omega
  have h1 : 1 < s := by omega
  have h2 : 2 < s := by omega
  simp only [EMatrix, _length, _angle, readCoeff, h0, h1, h2, Nat.ofNat_pos, Nat.one_lt_ofNat,
    and_self, dite_true, Option.bind_eq_bind, Option.some_bind, Option.pure_def, Option.bind_some,
    Fin.mk_zero, Fin.mk_one]
  generalize e.nodeCoord_ ⟨0, h0⟩ 0 = r0
  generalize e.nodeCoord_ ⟨0, h0⟩ 1 = z0
  generalize e.nodeCoord_ ⟨1, h1⟩ 0 = r1
  generalize e.nodeCoord_ ⟨2, h2⟩ 0 = r2
  generalize e.nodeCoord_ ⟨2, h2⟩ 1 = z2
  rw [add_comm ((z2 - z0) ^ 2)]
  generalize cm.sqrt ((r2 - r0) ^ 2 + (z2 - z0) ^ 2) = L
  generalize cm.cos (cm.atan2 (z2 - z0) (r2 - r0)) = c
  generalize e.material_.getInterfaceShearStiffness = ks
  generalize e.material_.getInterfaceNormalStiffness = kn
  congr 1
  ext i j
  fin_cases i <;> fin_cases j <;> rfl

end ElementI6

/-- Two vectors of six entries with equal entries are equal. -/
theorem vec6_ext {α : Type} {a0 a1 a2 a3 a4 a5 b0 b1 b2 b3 b4 b5 : α} (h0 : a0 = b0)
    (h1 : a1 = b1) (h2 : a2 = b2) (h3 : a3 = b3) (h4 : a4 = b4) (h5 : a5 = b5) :
    ![a0, a1, a2, a3, a4, a5] = ![b0, b1, b2, b3, b4, b5] := by
  subst h0 h1 h2 h3 h4 h5
  rfl

namespace ElementI6

/-- Claim C26.  Over the real numbers, with the real square root, cosine,
arctangent and pi: for every I6 element whose node 1 radius is the mean of the
radii of nodes 0 and 2, the diagonal of `ElementI6::EMatrix` is
`pi * L / 3 * (r0*ks, r0*kn, 4*r1*ks, 4*r1*kn, r2*ks, r2*kn)`, Simpson's rule
on the revolved circumference (because `L * cos(alpha) = r2 - r0`); hence
every diagonal entry is non-negative when the radii, `ks` and `kn` are
non-negative.  (The identity also holds for `L = 0`, so distinct end nodes are
not needed.) -/
theorem EMatrix_simpson_weights {s g : Nat} (cm : CMath ℝ) (hsqrt : cm.sqrt = Real.sqrt)
    (hcos : cm.cos = Real.cos) (hatan2 : cm.atan2 = fun y x => Complex.arg ⟨x, y⟩)
    (hpi : cm.M_PI = Real.pi) (e : ElementI6 ℝ s) (modulus : VectorXd ℝ g) (hs : 3 ≤ s)
    (hmean : e.nodeCoord_ ⟨1, by omega⟩ 0
      = (e.nodeCoord_ ⟨0, by omega⟩ 0 + e.nodeCoord_ ⟨2, by omega⟩ 0) / 2) :
    let r0 := e.nodeCoord_ ⟨0, by omega⟩ 0
    let z0 := e.nodeCoord_ ⟨0, by omega⟩ 1
    let r1 := e.nodeCoord_ ⟨1, by omega⟩ 0
    let r2 := e.nodeCoord_ ⟨2, by omega⟩ 0
    let z2 := e.nodeCoord_ ⟨2, by omega⟩ 1
    let L := Real.sqrt ((r2 - r0) ^ 2 + (z2 - z0) ^ 2)
    let ks := e.material_.getInterfaceShearStiffness
    let kn := e.material_.getInterfaceNormalStiffness
    let d : Fin 6 → ℝ :=
      ![Real.pi * L / 3 * (r0 * ks), Real.pi * L / 3 * (r0 * kn),
        Real.pi * L / 3 * (4 * r1 * ks), Real.pi * L / 3 * (4 * r1 * kn),
        Real.pi * L / 3 * (r2 * ks), Real.pi * L / 3 * (r2 * kn)]
    e.EMatrix cm modulus = some (Matrix.diagonal d) ∧
      (0 ≤ r0 → 0 ≤ r1 → 0 ≤ r2 → 0 ≤ ks → 0 ≤ kn → ∀ i, 0 ≤ d i) := by
  intro r0 z0 r1 r2 z2 L ks kn d
  have hk : L * Real.cos (Complex.arg ⟨r2 - r0, z2 - z0⟩) = r2 - r0 :=
    sqrt_mul_cos_arg (r2 - r0) (z2 - z0)
  have hm : r1 = (r0 + r2) / 2 := hmean
  constructor
  · rw [EMatrix_value cm e modulus hs, hsqrt, hcos, hatan2, hpi]
    refine congrArg some (congrArg Matrix.diagonal ?_)
    apply vec6_ext
    · show Real.pi * L / 3 * ((r0 + r1 + r2) / 3
          - L / 2 * Real.cos (Complex.arg ⟨r2 - r0, z2 - z0⟩)) * ks = Real.pi * L / 3 * (r0 * ks)
      linear_combination (-(Real.pi * L / 6 * ks)) * hk + (Real.pi * L / 9 * ks) * hm
    · show Real.pi * L / 3 * ((r0 + r1 + r2) / 3
          - L / 2 * Real.cos (Complex.arg ⟨r2 - r0, z2 - z0⟩)) * kn = Real.pi * L / 3 * (r0 * kn)
      linear_combination (-(Real.pi * L / 6 * kn)) * hk + (Real.pi * L / 9 * kn) * hm
    · show Real.pi * L * 4 / 3 * ((r0 + r1 + r2) / 3) * ks = Real.pi * L / 3 * (4 * r1 * ks)
      linear_combination (-(8 / 9 : ℝ) * Real.pi * L * ks) * hm
    · show Real.pi * L * 4 / 3 * ((r0 + r1 + r2) / 3) * kn = Real.pi * L / 3 * (4 * r1 * kn)
      linear_combination (-(8 / 9 : ℝ) * Real.pi * L * kn) * hm
    · show Real.pi * L / 3 * ((r0 + r1 + r2) / 3
          + L / 2 * Real.cos (Complex.arg ⟨r2 - r0, z2 - z0⟩)) * ks = Real.pi * L / 3 * (r2 * ks)
      linear_combination (Real.pi * L / 6 * ks) * hk + (Real.pi * L / 9 * ks) * hm
    · show Real.pi * L / 3 * ((r0 + r1 + r2) / 3
          + L / 2 * Real.cos (Complex.arg ⟨r2 - r0, z2 - z0⟩)) * kn = Real.pi * L / 3 * (r2 * kn)
      linear_combination (Real.pi * L / 6 * kn) * hk + (Real.pi * L / 9 * kn) * hm
  · intro h0 h1 h2 hks hkn i
    have hc : (0 : ℝ) ≤ Real.pi * L / 3 :=
      div_nonneg (mul_nonneg Real.pi_pos.le (Real.sqrt_nonneg _)) (by norm_num)
    have e0 : 0 ≤ Real.pi * L / 3 * (r0 * ks) := mul_nonneg hc (mul_nonneg h0 hks)
    have e1 : 0 ≤ Real.pi * L / 3 * (r0 * kn) := mul_nonneg hc (mul_nonneg h0 hkn)
    have e2 : 0 ≤ Real.pi * L / 3 * (4 * r1 * ks) :=
      mul_nonneg hc (mul_nonneg (mul_nonneg (by norm_num) h1) hks)
    have e3 : 0 ≤ Real.pi * L / 3 * (4 * r1 * kn) :=
      mul_nonneg hc (mul_nonneg (mul_nonneg (by norm_num) h1) hkn)
    have e4 : 0 ≤ Real.pi * L / 3 * (r2 * ks) := mul_nonneg hc (mul_nonneg h2 hks)
    have e5 : 0 ≤ Real.pi * L / 3 * (r2 * kn) := mul_nonneg hc (mul_nonneg h2 hkn)
    fin_cases i
    exacts [e0, e1, e2, e3, e4, e5]

/-- Claim C26 at a concrete element over `ℝ`: an interface between `(1, 2)`
and `(7, 10)` whose middle node has radius 4, with `ks = 2` and `kn = 5`. -/
theorem EMatrix_simpson_weights_witness :
    ∃ d : Fin 6 → ℝ, (∀ i, 0 ≤ d i) ∧
      EMatrix (⟨Real.sqrt, Real.cos, Real.sin, fun y x => Complex.arg ⟨x, y⟩, Real.pi⟩ : CMath ℝ)
        (⟨1, [10, 11, 12, 20, 21, 22], !![1, 2; 4, 6; 7, 10; 1, 2; 4, 6; 7, 10], ⟨2, 5⟩, 0⟩ :
          ElementI6 ℝ 6)
        (![7] : VectorXd ℝ 1) = some (Matrix.diagonal d) := by
  have h := EMatrix_simpson_weights
    (⟨Real.sqrt, Real.cos, Real.sin, fun y x => Complex.arg ⟨x, y⟩, Real.pi⟩ : CMath ℝ)
    rfl rfl rfl rfl
    (⟨1, [10, 11, 12, 20, 21, 22], !![1, 2; 4, 6; 7, 10; 1, 2; 4, 6; 7, 10], ⟨2, 5⟩, 0⟩ :
      ElementI6 ℝ 6)
    (![7] : VectorXd ℝ 1) (by decide)
    (by
      show (4 : ℝ) = (1 + 7) / 2
      norm_num)
  exact ⟨_, h.2 (by show (0 : ℝ) ≤ 1; norm_num) (by show (0 : ℝ) ≤ 4; norm_num)
    (by show (0 : ℝ) ≤ 7; norm_num) (by show (0 : ℝ) ≤ 2; norm_num)
    (by show (0 : ℝ) ≤ 5; norm_num), h.1⟩

end ElementI6

namespace ElementI6

/-- The constructor applied to a node list of six entries. -/
theorem new_of_length_six (index : Int) (nodeList : List Nat)
    (nodeCoord : MatrixXd K nodeList.length 2) (material : Material K)
    (h : nodeList.length = 6) :
    new index nodeList nodeCoord material
      = some ⟨index, nodeList, nodeCoord, material, differenceOperator nodeList.length⟩ := by
  rw [new, initB_of_eq_six _ h]
  rfl

/-- The columns of the difference operator that belong to the front face. -/
theorem differenceOperator_front (s : Nat) (h : s = 6) (a b : Fin 6) :
    (differenceOperator s : MatrixXd K 6 (2 * s)) a ⟨b.val, by omega⟩
      = if a = b then -1 else 0 := by
  simp only [differenceOperator, Fin.ext_iff]
  have hb : ¬ b.val = a.val + 6 := by omega
  simp only [hb, if_false, eq_comm]

/-- The columns of the difference operator that belong to the back face. -/
theorem differenceOperator_back (s : Nat) (h : s = 6) (a b : Fin 6) :
    (differenceOperator s : MatrixXd K 6 (2 * s)) a ⟨b.val + 6, by omega⟩
      = if a = b then 1 else 0 := by
  simp only [differenceOperator, Fin.ext_iff]
  have hb : ¬ b.val + 6 = a.val := by omega
  simp only [hb, if_false, add_left_inj, eq_comm]

/-- The difference operator applied to a vector of 12 displacements. -/
theorem differenceOperator_mulVec (s : Nat) (h : s = 6) (u : VectorXd K (2 * s)) (n : Fin 6) :
    (differenceOperator s : MatrixXd K 6 (2 * s)).mulVec u n
      = u ⟨n.val + 6, by omega⟩ - u ⟨n.val, by omega⟩ := by
  have hterm : ∀ j : Fin (2 * s),
      (if j.val = n.val then (-1 : K) else if j.val = n.val + 6 then 1 else 0) * u j
        = (if j = ⟨n.val, by omega⟩ then -u j else 0)
          + (if j = ⟨n.val + 6, by omega⟩ then u j else 0) := by
    intro j
    by_cases h1 : j.val = n.val
    · have h2 : ¬ j.val = n.val + 6 := by omega
      simp [Fin.ext_iff, h1]
    · by_cases h2 : j.val = n.val + 6
      · simp [Fin.ext_iff, h2]
      · simp [Fin.ext_iff, h1, h2]
  simp only [differenceOperator, Matrix.mulVec, Matrix.dotProduct, hterm, Finset.sum_add_distrib,
    Finset.sum_ite_eq', Finset.mem_univ, if_true]
  ring

/-- The blocks of `Bᵀ * E * B` for the difference operator `B` and any `E`. -/
theorem differenceOperator_blocks (s : Nat) (h : s = 6) (E : MatrixXd K 6 6) (a b : Fin 6) :
    ((differenceOperator s).transpose * E * differenceOperator s : MatrixXd K (2 * s) (2 * s)) ⟨a.val, by omega⟩ ⟨b.val, by omega⟩
      = E a b ∧
    ((differenceOperator s).transpose * E * differenceOperator s : MatrixXd K (2 * s) (2 * s)) ⟨a.val, by omega⟩
        ⟨b.val + 6, by omega⟩ = -E a b ∧
    ((differenceOperator s).transpose * E * differenceOperator s : MatrixXd K (2 * s) (2 * s)) ⟨a.val + 6, by omega⟩
        ⟨b.val, by omega⟩ = -E a b ∧
    ((differenceOperator s).transpose * E * differenceOperator s : MatrixXd K (2 * s) (2 * s)) ⟨a.val + 6, by omega⟩
        ⟨b.val + 6, by omega⟩ = E a b := by
  refine ⟨?_, ?_, ?_, ?_⟩ <;>
    simp [Matrix.mul_apply, Matrix.transpose_apply, differenceOperator_front s h,
      differenceOperator_back s h, Finset.sum_ite_eq, Finset.sum_ite_eq', Finset.mul_sum]

/-- Claim C28.  For every I6 element built from a 6-entry node list, with
`B = ElementI6::BMatrix` and `E = ElementI6::EMatrix`, the `12 x 12` product
`Bᵀ * E * B` is the block matrix `[[E, -E], [-E, E]]`; it is symmetric, and it
maps to zero every displacement vector `u` with `u_(n+6) = u_n` for
`n = 0..5`. -/
theorem stiffness_blocks {g : Nat} (cm : CMath K) (index : Int) (nodeList : List Nat)
    (nodeCoord : MatrixXd K nodeList.length 2) (material : Material K)
    (modulus : VectorXd K g) (point : Vector2d K) (h : nodeList.length = 6) :
    ∃ (e : ElementI6 K nodeList.length) (E : MatrixXd K 6 6),
      new index nodeList nodeCoord material = some e ∧ e.EMatrix cm modulus = some E ∧
      (∀ a b : Fin 6,
        ((e.BMatrix point).transpose * E * e.BMatrix point : MatrixXd K (2 * nodeList.length) (2 * nodeList.length)) ⟨a.val, by omega⟩ ⟨b.val, by omega⟩
          = E a b ∧
        ((e.BMatrix point).transpose * E * e.BMatrix point : MatrixXd K (2 * nodeList.length) (2 * nodeList.length)) ⟨a.val, by omega⟩ ⟨b.val + 6, by omega⟩
          = -E a b ∧
        ((e.BMatrix point).transpose * E * e.BMatrix point : MatrixXd K (2 * nodeList.length) (2 * nodeList.length)) ⟨a.val + 6, by omega⟩ ⟨b.val, by omega⟩
          = -E a b ∧
        ((e.BMatrix point).transpose * E * e.BMatrix point : MatrixXd K (2 * nodeList.length) (2 * nodeList.length)) ⟨a.val + 6, by omega⟩
            ⟨b.val + 6, by omega⟩ = E a b) ∧
      ((e.BMatrix point).transpose * E * e.BMatrix point : MatrixXd K (2 * nodeList.length) (2 * nodeList.length)).transpose = (e.BMatrix point).transpose * E * e.BMatrix point ∧
      ∀ u : VectorXd K (2 * nodeList.length),
        (∀ n : Fin 6, u ⟨n.val + 6, by omega⟩ = u ⟨n.val, by omega⟩) →
        ((e.BMatrix point).transpose * E * e.BMatrix point : MatrixXd K (2 * nodeList.length) (2 * nodeList.length)).mulVec u = 0 := by
  refine ⟨⟨index, nodeList, nodeCoord, material, differenceOperator nodeList.length⟩, _,
    new_of_length_six index nodeList nodeCoord material h,
    EMatrix_value cm _ modulus (by omega), ?_, ?_, ?_⟩
  · intro a b
    exact differenceOperator_blocks nodeList.length h _ a b
  · simp only [BMatrix, Matrix.transpose_mul, Matrix.transpose_transpose,
      Matrix.diagonal_transpose, Matrix.mul_assoc]
  · intro u hu
    have hB : (differenceOperator nodeList.length : MatrixXd K 6 _).mulVec u = 0 := by
      funext n
      rw [differenceOperator_mulVec _ h, hu n]
      simp
    simp only [BMatrix]
    rw [← Matrix.mulVec_mulVec, hB, Matrix.mulVec_zero]

/-- Claim C28 at a concrete element over `ℝ`. -/
theorem stiffness_blocks_witness :
    ∃ (e : ElementI6 ℝ 6) (E : MatrixXd ℝ 6 6),
      new 1 [10, 11, 12, 20, 21, 22] (!![1, 2; 4, 6; 7, 10; 1, 2; 4, 6; 7, 10] : MatrixXd ℝ 6 2)
          ⟨2, 5⟩ = some e ∧
      e.EMatrix (⟨Real.sqrt, Real.cos, Real.sin, fun y x => Complex.arg ⟨x, y⟩, Real.pi⟩ : CMath ℝ)
          (![7] : VectorXd ℝ 1) = some E ∧
      ((e.BMatrix ![0, 0]).transpose * E * e.BMatrix ![0, 0] : MatrixXd ℝ 12 12) 2 8 = -E 2 2 := by
  obtain ⟨e, E, he, hE, hblocks, _⟩ :=
    stiffness_blocks
      (⟨Real.sqrt, Real.cos, Real.sin, fun y x => Complex.arg ⟨x, y⟩, Real.pi⟩ : CMath ℝ) 1
      [10, 11, 12, 20, 21, 22] (!![1, 2; 4, 6; 7, 10; 1, 2; 4, 6; 7, 10] : MatrixXd ℝ 6 2)
      ⟨2, 5⟩ (![7] : VectorXd ℝ 1) ![0, 0] rfl
  exact ⟨e, E, he, hE, (hblocks 2 2).2.1⟩

end ElementI6

end CFLEX2D
